import Mathlib

/-!
# Verification of the flip-threejs geodesic core

A shallow embedding, in Lean 4, of the core of the `flip-threejs` library
(intrinsic halfedge triangulation with edge flips, signpost angular index,
Dijkstra shortest-path bootstrap, the FlipOut iterative shortener, geodesic
loops, and loop-based mesh segmentation), together with theorems checking the
natural-language specification of the library against the code.

Modelling conventions:

* JavaScript `Map` objects are modelled as insertion-ordered association lists
  (`IdMap`); `Map.set` replaces in place or appends, `Map.get` returns the
  first binding, iteration follows insertion order — exactly the ECMAScript
  semantics.
* The mutable object graph (vertices, edges, halfedges, faces pointing at each
  other) is modelled arena-style: every object is identified by its numeric id
  and every reference between objects is an id resolved through the owning
  `Mesh` maps.  This is faithful whenever each object reachable from the maps
  is the map entry for its own id, which holds for every mesh the library
  builds (ids are handed out exactly once, at creation).
* IEEE-754 binary64 numbers are idealised as rationals (`ℚ`); the two
  transcendental library functions used by the core, `Math.sqrt` and
  `Math.acos`, are not rational functions and are therefore passed in as an
  abstract `Oracle`.  `Math.PI` is modelled by the exact rational value of the
  binary64 constant.
* TypeScript `throw` is modelled with `Except String` (or `Option` where the
  caller never inspects the message); a thrown exception propagates exactly as
  in the source.
* `do … while` loops in the source that walk vertex fans have no intrinsic
  bound; they are modelled with explicit fuel which provably suffices on every
  mesh whose fan walks close up (which the well-formedness side conditions of
  the theorems below require, and which holds for every built mesh).
-/

/-- The exact rational value of the IEEE-754 binary64 constant `Math.PI`. -/
def mathPi : ℚ := 884279719003555 / 281474976710656

/-- `2 * Math.PI`, exact in binary64 (scaling by 2 is exact). -/
def twoPi : ℚ := 2 * mathPi

/-- The transcendental float functions used by the core, abstracted:
`sqrtFn` models `Math.sqrt` and `acosFn` models `Math.acos`.  No branch of the
embedded code inspects their output, so every theorem below holds for every
oracle, and concrete witnesses may pick any convenient rational-valued one. -/
structure Oracle where
  sqrtFn : ℚ → ℚ
  acosFn : ℚ → ℚ

/-- Insertion-ordered association list keyed by numeric ids: the model of a
JavaScript `Map` with numeric keys. -/
def IdMap (α : Type) : Type := List (ℕ × α)

instance (α : Type) [DecidableEq α] : DecidableEq (IdMap α) := by
  unfold IdMap; infer_instance

instance (α : Type) [Repr α] : Repr (IdMap α) := by
  unfold IdMap; infer_instance

instance (α : Type) : Membership (ℕ × α) (IdMap α) := by
  unfold IdMap; infer_instance

/-- `Map.get`: the binding of the first entry with the given key. -/
def IdMap.find? {α : Type} : IdMap α → ℕ → Option α
  | [], _ => none
  | (k, a) :: rest, i => if k = i then some a else IdMap.find? rest i

/-- `Map.set`: replace the existing binding in place, else append. -/
def IdMap.setk {α : Type} : IdMap α → ℕ → α → IdMap α
  | [], i, a => [(i, a)]
  | (k, b) :: rest, i, a =>
    if k = i then (k, a) :: rest else (k, b) :: IdMap.setk rest i a

/-- Mutation of the object stored under a key (a no-op when the key is
absent; in the source the object always exists, see the modelling notes). -/
def IdMap.updatek {α : Type} (f : α → α) : IdMap α → ℕ → IdMap α
  | [], _ => []
  | (k, b) :: rest, i =>
    if k = i then (k, f b) :: rest else (k, b) :: IdMap.updatek f rest i

/-- `Map.values()` in insertion order, paired with their keys. -/
def IdMap.entries {α : Type} (m : IdMap α) : List (ℕ × α) := m

/-- `Map.keys()` in insertion order. -/
def IdMap.keysList {α : Type} (m : IdMap α) : List ℕ := m.map (·.1)

/-- JavaScript `Set.add` (insertion-ordered, no duplicates). -/
def jsSetAdd (s : List ℕ) (i : ℕ) : List ℕ := if i ∈ s then s else s ++ [i]

/-- A halfedge record (`core/Edge.ts`, class `Halfedge`): `vertex` is the
target vertex id, `twin`/`next`/`prev`/`face` are nullable references, `edge`
is the parent edge id. -/
structure HalfedgeRec where
  vertex : ℕ
  twin : Option ℕ
  next : Option ℕ
  prev : Option ℕ
  face : Option ℕ
  edge : ℕ
deriving DecidableEq, Repr

/-- An edge record (`core/Edge.ts`, class `Edge`). -/
structure EdgeRec where
  halfedge : ℕ
  length : ℚ
  isInPath : Bool
deriving DecidableEq, Repr

/-- A vertex record (`core/Vertex.ts`). -/
structure VertexRec where
  halfedge : Option ℕ
  position : ℚ × ℚ × ℚ
  isMarked : Bool
deriving DecidableEq, Repr

/-- A face record (`core/Face.ts`); the representative halfedge is assigned at
creation by the builder. -/
structure FaceRec where
  halfedge : ℕ
deriving DecidableEq, Repr

/-- The intrinsic triangulation (`core/IntrinsicTriangulation.ts`): four
id-keyed maps owning all mesh entities. -/
structure Mesh where
  vertices : IdMap VertexRec
  edges : IdMap EdgeRec
  halfedges : IdMap HalfedgeRec
  faces : IdMap FaceRec
deriving DecidableEq, Repr

/-- `Halfedge.getSourceVertex()`: the target of the twin, when present. -/
def Mesh.sourceVertex (m : Mesh) (he : HalfedgeRec) : Option ℕ := do
  let t ← he.twin
  let tw ← m.halfedges.find? t
  pure tw.vertex

/-- `Edge.getVertices()`: `[source of halfedge, target of halfedge]`, or
`none` (modelling `[null, null]`) when the source cannot be resolved. -/
def Mesh.edgeVertices (m : Mesh) (e : EdgeRec) : Option (ℕ × ℕ) := do
  let he ← m.halfedges.find? e.halfedge
  let v0 ← m.sourceVertex he
  pure (v0, he.vertex)

/-- `Edge.getOtherVertex(v)`. -/
def Mesh.edgeOtherVertex (m : Mesh) (e : EdgeRec) (v : ℕ) : Option ℕ := do
  let (v0, v1) ← m.edgeVertices e
  if v = v0 then pure v1 else if v = v1 then pure v0 else none

/-- `Edge.isBoundary()`: note the strict-equality JavaScript semantics — when
the twin is absent, `twin?.face === null` is `undefined === null`, which is
`false`. -/
def Mesh.edgeIsBoundary (m : Mesh) (e : EdgeRec) : Bool :=
  match m.halfedges.find? e.halfedge with
  | none => false
  | some he =>
    he.face = none ||
      (match he.twin >>= m.halfedges.find? with
       | none => !he.twin.isNone && false  -- `undefined === null` is false
       | some tw => tw.face = none)

/-- One step of the counter-clockwise fan walk used everywhere in the source:
from an outgoing halfedge to `twin.next`.  Returns `none` when the twin or its
next is missing (the walks break there). -/
def Mesh.fanStep (m : Mesh) (heId : ℕ) : Option ℕ := do
  let he ← m.halfedges.find? heId
  let t ← he.twin
  let tw ← m.halfedges.find? t
  tw.next

/-- `Vertex.degree()`: counts outgoing halfedges by the fan walk, with the
source's explicit safety cap of 1000 iterations (`count > 1000` throws).
`none` models the absent-halfedge case (returns `null`), `some (none)` models
the thrown exception, `some (some n)` a normal return. -/
def degreeLoop (m : Mesh) (startId : ℕ) : ℕ → ℕ → ℕ → Option ℕ
  | 0, _, _ => none  -- count exceeded the cap: the source throws
  | fuel + 1, cur, count =>
    -- loop body already counted `cur`; move on or stop
    match m.fanStep cur with
    | none => some (count + 1)
    | some nxt =>
      if nxt = startId then some (count + 1)
      else degreeLoop m startId fuel nxt (count + 1)

/-- `Vertex.degree()` for the vertex record `v`. -/
def Mesh.degree (m : Mesh) (v : VertexRec) : Option (Option ℕ) :=
  match v.halfedge with
  | none => some none
  | some h0 =>
    match degreeLoop m h0 1000 h0 0 with
    | none => none            -- exception: exceeded maximum iterations
    | some n => some (some n)

/-- `Edge.canFlip()`: `none` models a propagated exception from `degree()`. -/
def Mesh.canFlip (m : Mesh) (e : EdgeRec) : Option Bool := do
  if m.edgeIsBoundary e then pure false
  else
    match m.edgeVertices e with
    | none => pure false
    | some (v0, v1) =>
      match m.vertices.find? v0, m.vertices.find? v1 with
      | some r0, some r1 => do
        let d0 ← m.degree r0
        let d1 ← m.degree r1
        match d0, d1 with
        | some a, some b => pure (decide (1 < a) && decide (1 < b))
        | _, _ => pure false
      | _, _ => none  -- unreachable on the object graph (see modelling notes)

/-! ## Mesh construction (`IntrinsicTriangulation.fromBufferGeometry`) -/

/-- Intermediate state of the builder. -/
structure BuildState where
  mesh : Mesh
  edgeByPair : List ((ℕ × ℕ) × ℕ)  -- canonical vertex pair ↦ edge id
  nextEdgeId : ℕ
  nextHalfedgeId : ℕ
  nextFaceId : ℕ

/-- Canonical unordered key for a vertex pair (the source uses the string
`"min,max"`). -/
def pairKey (a b : ℕ) : ℕ × ℕ := if a < b then (a, b) else (b, a)

/-- Squared Euclidean distance between two positions (the source computes
`Math.sqrt(dx*dx + dy*dy + dz*dz)`). -/
def sqDist (p q : ℚ × ℚ × ℚ) : ℚ :=
  (q.1 - p.1) * (q.1 - p.1) + (q.2.1 - p.2.1) * (q.2.1 - p.2.1) +
    (q.2.2 - p.2.2) * (q.2.2 - p.2.2)

/-- `getOrCreateEdge` from the builder. -/
def getOrCreateEdge (O : Oracle) (st : BuildState) (v0Id v1Id : ℕ) :
    Except String (ℕ × BuildState) :=
  let key := pairKey v0Id v1Id
  match st.edgeByPair.find? (fun p => p.1 = key) with
  | some p => .ok (p.2, st)
  | none =>
    match st.mesh.vertices.find? v0Id, st.mesh.vertices.find? v1Id with
    | some r0, some r1 =>
      let len := O.sqrtFn (sqDist r0.position r1.position)
      let eid := st.nextEdgeId
      -- created with a placeholder representative halfedge, assigned before
      -- the map is ever observed (see modelling notes)
      let erec : EdgeRec := { halfedge := 0, length := len, isInPath := false }
      .ok (eid,
        { st with
          mesh := { st.mesh with edges := st.mesh.edges.setk eid erec }
          edgeByPair := st.edgeByPair ++ [(key, eid)]
          nextEdgeId := eid + 1 })
    | _, _ => .error "Vertex not found"

/-- Sets `vertex.halfedge` when it is still unset. -/
def setVertexHalfedgeIfUnset (m : Mesh) (v : ℕ) (he : ℕ) : Mesh :=
  match m.vertices.find? v with
  | some r =>
    if r.halfedge.isNone then
      { m with vertices := m.vertices.updatek (fun r => { r with halfedge := some he }) v }
    else m
  | none => m

/-- Builds one triangular face: creates the face, its three halfedges, wires
the cycle, and updates the representative pointers, exactly as the face loop
of `fromBufferGeometry`. -/
def buildFace (O : Oracle) (st : BuildState) (i0 i1 i2 : ℕ) :
    Except String BuildState := do
  match st.mesh.vertices.find? i0, st.mesh.vertices.find? i1,
      st.mesh.vertices.find? i2 with
  | some _, some _, some _ =>
    let (e01, st) ← getOrCreateEdge O st i0 i1
    let (e12, st) ← getOrCreateEdge O st i1 i2
    let (e20, st) ← getOrCreateEdge O st i2 i0
    let fid := st.nextFaceId
    let h01 := st.nextHalfedgeId
    let h12 := h01 + 1
    let h20 := h01 + 2
    let he01 : HalfedgeRec :=
      { vertex := i1, twin := none, next := some h12, prev := some h20,
        face := some fid, edge := e01 }
    let he12 : HalfedgeRec :=
      { vertex := i2, twin := none, next := some h20, prev := some h01,
        face := some fid, edge := e12 }
    let he20 : HalfedgeRec :=
      { vertex := i0, twin := none, next := some h01, prev := some h12,
        face := some fid, edge := e20 }
    let m := st.mesh
    let hs := ((m.halfedges.setk h01 he01).setk h12 he12).setk h20 he20
    let fs := m.faces.setk fid { halfedge := h01 }
    let m := { m with halfedges := hs, faces := fs }
    let m := setVertexHalfedgeIfUnset m i0 h01
    let m := setVertexHalfedgeIfUnset m i1 h12
    let m := setVertexHalfedgeIfUnset m i2 h20
    let es := m.edges.updatek (fun e => { e with halfedge := h01 }) e01
    let es := es.updatek (fun e => { e with halfedge := h12 }) e12
    let es := es.updatek (fun e => { e with halfedge := h20 }) e20
    let m := { m with edges := es }
    pure { st with
      mesh := m
      nextHalfedgeId := h20 + 1
      nextFaceId := fid + 1 }
  | _, _, _ => .error "Vertex not found in face"

/-- `setupTwinHalfedges`: groups halfedges per edge, pairs twins, and then
repoints each vertex to an interior outgoing halfedge. -/
def setupTwinHalfedges (m : Mesh) : Except String Mesh := do
  -- group halfedge ids by their edge id, in insertion order
  let groups : IdMap (List ℕ) := m.halfedges.entries.foldl
    (fun g p =>
      match g.find? p.2.edge with
      | some l => g.setk p.2.edge (l ++ [p.1])
      | none => g.setk p.2.edge [p.1]) []
  -- pair twins
  let m ← groups.entries.foldlM
    (fun (m : Mesh) (p : ℕ × List ℕ) =>
      match p.2 with
      | [a, b] =>
        let hs := m.halfedges.updatek (fun h => { h with twin := some b }) a
        let hs := hs.updatek (fun h => { h with twin := some a }) b
        pure { m with halfedges := hs }
      | [a] =>
        let hs := m.halfedges.updatek (fun h => { h with twin := none }) a
        pure { m with halfedges := hs }
      | _ => .error "Edge has an unexpected number of halfedges") m
  -- prefer interior halfedges as vertex representatives
  pure (m.halfedges.entries.foldl
    (fun (acc : Mesh) (p : ℕ × HalfedgeRec) =>
      match (acc.halfedges.find? p.1).bind (fun h =>
          if h.twin.isSome then h.prev.bind acc.halfedges.find? else none) with
      | some prevRec =>
        let vs := acc.vertices.updatek
          (fun r => { r with halfedge := some p.1 }) prevRec.vertex
        { acc with vertices := vs }
      | none => acc) m)

/-- `IntrinsicTriangulation.fromBufferGeometry`: consumes a position list and
a triangle index list. -/
def buildMesh (O : Oracle) (positions : List (ℚ × ℚ × ℚ)) (indices : List ℕ) :
    Except String Mesh := do
  if indices.length % 3 ≠ 0 then
    .error "Geometry must be triangulated"
  else
    let verts : IdMap VertexRec := (List.range positions.length).map
      (fun i =>
        (i, { halfedge := none, position := positions.getD i ⟨0, 0, 0⟩,
              isMarked := false }))
    let st0 : BuildState :=
      { mesh := { vertices := verts, edges := [], halfedges := [], faces := [] }
        edgeByPair := [], nextEdgeId := 0, nextHalfedgeId := 0, nextFaceId := 0 }
    let st ← (List.range (indices.length / 3)).foldlM
      (fun st i =>
        buildFace O st (indices.getD (3 * i) 0) (indices.getD (3 * i + 1) 0)
          (indices.getD (3 * i + 2) 0)) st0
    setupTwinHalfedges st.mesh

/-! ## Edge flip (`IntrinsicTriangulation.flipEdge`) -/

/-- Field setters for halfedge records, mirroring single TypeScript
assignment statements. -/
def setHeVertex (hs : IdMap HalfedgeRec) (i v : ℕ) : IdMap HalfedgeRec :=
  hs.updatek (fun x => { x with vertex := v }) i

/-- `halfedge.next = …` -/
def setHeNext (hs : IdMap HalfedgeRec) (i : ℕ) (v : Option ℕ) : IdMap HalfedgeRec :=
  hs.updatek (fun x => { x with next := v }) i

/-- `halfedge.prev = …` -/
def setHePrev (hs : IdMap HalfedgeRec) (i : ℕ) (v : Option ℕ) : IdMap HalfedgeRec :=
  hs.updatek (fun x => { x with prev := v }) i

/-- `halfedge.face = …` -/
def setHeFace (hs : IdMap HalfedgeRec) (i : ℕ) (v : Option ℕ) : IdMap HalfedgeRec :=
  hs.updatek (fun x => { x with face := v }) i

/-- `halfedge.twin = …` -/
def setHeTwin (hs : IdMap HalfedgeRec) (i : ℕ) (v : Option ℕ) : IdMap HalfedgeRec :=
  hs.updatek (fun x => { x with twin := v }) i

/-- `vertex.halfedge = …` -/
def setVxHalfedge (vs : IdMap VertexRec) (i : ℕ) (v : Option ℕ) : IdMap VertexRec :=
  vs.updatek (fun r => { r with halfedge := v }) i

/-- The halfedge-map assignments of a successful
`IntrinsicTriangulation.flipEdge`, replayed one by one in source statement
order. -/
def flipHalfedgesApply (hs0 : IdMap HalfedgeRec)
    (hId twinId hNextId hPrevId hTwinNextId hTwinPrevId : ℕ)
    (vC vD f0 f1 : ℕ) : IdMap HalfedgeRec :=
  let hs := setHeVertex hs0 hId vD
  let hs := setHeVertex hs twinId vC
  let hs := setHeNext hs hId (some hTwinPrevId)
  let hs := setHePrev hs hId (some hNextId)
  let hs := setHeNext hs hTwinPrevId (some hNextId)
  let hs := setHePrev hs hTwinPrevId (some hId)
  let hs := setHeNext hs hNextId (some hId)
  let hs := setHePrev hs hNextId (some hTwinPrevId)
  let hs := setHeNext hs twinId (some hPrevId)
  let hs := setHePrev hs twinId (some hTwinNextId)
  let hs := setHeNext hs hPrevId (some hTwinNextId)
  let hs := setHePrev hs hPrevId (some twinId)
  let hs := setHeNext hs hTwinNextId (some twinId)
  let hs := setHePrev hs hTwinNextId (some hPrevId)
  let hs := setHeFace hs hId (some f0)
  let hs := setHeFace hs hTwinPrevId (some f0)
  let hs := setHeFace hs hNextId (some f0)
  let hs := setHeFace hs twinId (some f1)
  let hs := setHeFace hs hPrevId (some f1)
  setHeFace hs hTwinNextId (some f1)

/-- The face-map assignments of a successful flip: the two surviving faces get
the flipped halfedge pair as their representatives. -/
def flipFacesApply (fs0 : IdMap FaceRec) (hId twinId f0 f1 : ℕ) :
    IdMap FaceRec :=
  let fs := fs0.updatek (fun x => { x with halfedge := hId }) f0
  fs.updatek (fun x => { x with halfedge := twinId }) f1

/-- The vertex-map assignments of a successful flip: the two former edge
endpoints get fresh outgoing representative halfedges when their current
representative was one of the flipped pair. -/
def flipVerticesApply (vs0 : IdMap VertexRec)
    (hId twinId hNextId hTwinNextId vA vB : ℕ) : IdMap VertexRec :=
  let vs :=
    match vs0.find? vA with
    | some rA =>
      if rA.halfedge = some hId then setVxHalfedge vs0 vA (some hTwinNextId)
      else vs0
    | none => vs0
  match vs.find? vB with
  | some rB =>
    if rB.halfedge = some twinId then setVxHalfedge vs vB (some hNextId)
    else vs
  | none => vs

/-- The block of field assignments performed by a successful
`IntrinsicTriangulation.flipEdge`, replayed one by one in source statement
order (the four entity maps are independent, so the assignments are grouped
per map). -/
def flipEdgeApply (newLen : ℚ) (m : Mesh)
    (eid hId twinId hNextId hPrevId hTwinNextId hTwinPrevId : ℕ)
    (vA vB vC vD f0 f1 : ℕ) : Mesh :=
  { vertices := flipVerticesApply m.vertices hId twinId hNextId hTwinNextId vA vB,
    edges := m.edges.updatek (fun e => { e with length := newLen }) eid,
    halfedges := flipHalfedgesApply m.halfedges hId twinId hNextId hPrevId
      hTwinNextId hTwinPrevId vC vD f0 f1,
    faces := flipFacesApply m.faces hId twinId f0 f1 }

/-- The values read by `IntrinsicTriangulation.flipEdge` before it mutates
anything: the surrounding halfedge/vertex/face ids and records. -/
structure FlipReads where
  twinId : ℕ
  hNextId : ℕ
  hPrevId : ℕ
  hTwinNextId : ℕ
  hTwinPrevId : ℕ
  vC : ℕ
  vD : ℕ
  f0 : ℕ
  f1 : ℕ
  vA : ℕ
  vB : ℕ
  rC : VertexRec
  rD : VertexRec
deriving DecidableEq, Repr

/-- The read phase of `flipEdge`, after `canFlip` has passed: resolves the
twin, the four surrounding halfedges, the quad vertices and the two faces.
`none` models a thrown `TypeError` (a null `next`/`prev`), `some none` an
early `return false` (no twin, or a missing face), `some (some r)` the reads
of a flip that will proceed. -/
def flipEdgeReads (m : Mesh) (e : EdgeRec) : Option (Option FlipReads) := do
  let h ← m.halfedges.find? e.halfedge
  match h.twin with
  | none => pure none
  | some twinId => do
    let hTwin ← m.halfedges.find? twinId
    let hNextId ← h.next
    let hPrevId ← h.prev
    let hTwinNextId ← hTwin.next
    let hTwinPrevId ← hTwin.prev
    let hNext ← m.halfedges.find? hNextId
    let hTwinNext ← m.halfedges.find? hTwinNextId
    match h.face, hTwin.face with
    | some f0, some f1 => do
      let rC ← m.vertices.find? hNext.vertex
      let rD ← m.vertices.find? hTwinNext.vertex
      pure (some
        { twinId := twinId, hNextId := hNextId, hPrevId := hPrevId,
          hTwinNextId := hTwinNextId, hTwinPrevId := hTwinPrevId,
          vC := hNext.vertex, vD := hTwinNext.vertex, f0 := f0, f1 := f1,
          vA := hTwin.vertex, vB := h.vertex, rC := rC, rD := rD })
    | _, _ => pure none

/-- `IntrinsicTriangulation.flipEdge(edge)`.  Returns `some (succeeded, mesh)`
on a normal return and `none` when the source would throw (a `TypeError` on a
null dereference, or the `degree()` iteration-cap error inside `canFlip`);
in the thrown case the source crashes and no post-state is observable.
All mutations happen in `flipEdgeApply`, strictly after every read and check
(`canFlip`, then `flipEdgeReads`). -/
def flipEdge (O : Oracle) (m : Mesh) (eid : ℕ) : Option (Bool × Mesh) := do
  let edge ← m.edges.find? eid
  let cf ← m.canFlip edge
  if !cf then
    pure (false, m)
  else
    match ← flipEdgeReads m edge with
    | none => pure (false, m)
    | some r =>
      pure (true,
        flipEdgeApply (O.sqrtFn (sqDist r.rC.position r.rD.position)) m eid
          edge.halfedge r.twinId r.hNextId r.hPrevId r.hTwinNextId
          r.hTwinPrevId r.vA r.vB r.vC r.vD r.f0 r.f1)

/-! ## Face geometry (`core/Face.ts`, `geometry/GeometricUtils.ts`) -/

/-- `Face.getHalfedges()`: the three halfedges of the face cycle. -/
def Mesh.faceHalfedges (m : Mesh) (f : FaceRec) : Option (ℕ × ℕ × ℕ) := do
  let he0 := f.halfedge
  let r0 ← m.halfedges.find? he0
  let he1 ← r0.next
  let r1 ← m.halfedges.find? he1
  let he2 ← r1.next
  pure (he0, he1, he2)

/-- `Face.getVertices()`: targets of the three face halfedges. -/
def Mesh.faceVertices (m : Mesh) (f : FaceRec) : Option (ℕ × ℕ × ℕ) := do
  let (h0, h1, h2) ← m.faceHalfedges f
  let r0 ← m.halfedges.find? h0
  let r1 ← m.halfedges.find? h1
  let r2 ← m.halfedges.find? h2
  pure (r0.vertex, r1.vertex, r2.vertex)

/-- `Face.getEdgeLengths()`. -/
def Mesh.faceEdgeLengths (m : Mesh) (f : FaceRec) : Option (ℚ × ℚ × ℚ) := do
  let (h0, h1, h2) ← m.faceHalfedges f
  let r0 ← m.halfedges.find? h0
  let r1 ← m.halfedges.find? h1
  let r2 ← m.halfedges.find? h2
  let e0 ← m.edges.find? r0.edge
  let e1 ← m.edges.find? r1.edge
  let e2 ← m.edges.find? r2.edge
  pure (e0.length, e1.length, e2.length)

/-- `GeometricUtils.angleFromSides`: law of cosines with the cosine clamped to
`[-1, 1]`; throws (`none`) when the denominator is zero. -/
def angleFromSides (O : Oracle) (oppositeSide adjacentSide1 adjacentSide2 : ℚ) :
    Option ℚ :=
  let numerator := adjacentSide1 * adjacentSide1 + adjacentSide2 * adjacentSide2
    - oppositeSide * oppositeSide
  let denominator := 2 * adjacentSide1 * adjacentSide2
  if denominator = 0 then none
  else some (O.acosFn (max (-1) (min 1 (numerator / denominator))))

/-- `Face.getAngles()`: all three interior angles; the `try`/`catch` in the
source turns a throw into `null`. -/
def Mesh.faceAngles (O : Oracle) (m : Mesh) (f : FaceRec) : Option (ℚ × ℚ × ℚ) := do
  let (len01, len12, len20) ← m.faceEdgeLengths f
  let a0 ← angleFromSides O len12 len20 len01
  let a1 ← angleFromSides O len20 len01 len12
  let a2 ← angleFromSides O len01 len12 len20
  pure (a0, a1, a2)

/-- `Face.getAngleAtVertex(vertex)`. -/
def Mesh.faceAngleAtVertex (O : Oracle) (m : Mesh) (f : FaceRec) (vid : ℕ) :
    Option ℚ := do
  let (v0, v1, v2) ← m.faceVertices f
  let (a0, a1, a2) ← m.faceAngles O f
  if vid = v0 then pure a0
  else if vid = v1 then pure a1
  else if vid = v2 then pure a2
  else none

/-! ## Signpost data (`algorithms/SignpostData.ts`) -/

/-- The state of a `SignpostData` object: the per-halfedge angle map and the
per-vertex reference halfedge map. -/
structure SignpostState where
  signposts : IdMap ℚ
  referenceHalfedges : IdMap ℕ
deriving DecidableEq, Repr

/-- The `do … while` walk of `computeSignpostsAtVertex`: moves to `twin.next`,
accumulates the face angle at the vertex (skipping a `null` angle), records the
accumulated angle for the arriving halfedge — note that on a closed fan the
final wrap-around re-records the start halfedge — and stops when back at the
start.  Fuel models the unbounded source loop; it suffices whenever the walk
closes within the number of halfedges of the mesh. -/
def signpostWalk (O : Oracle) (m : Mesh) (vid startId : ℕ) :
    ℕ → ℕ → ℚ → IdMap ℚ → IdMap ℚ
  | 0, _, _, sp => sp
  | fuel + 1, cur, currentAngle, sp =>
    match (m.halfedges.find? cur).bind (·.twin) with
    | none => sp
    | some twinId =>
      match m.halfedges.find? twinId with
      | none => sp
      | some twinRec =>
        match twinRec.next with
        | none => sp
        | some nextId =>
          let currentAngle :=
            match twinRec.face >>= m.faces.find? with
            | some f =>
              match m.faceAngleAtVertex O f vid with
              | some a => currentAngle + a
              | none => currentAngle
            | none => currentAngle
          let sp := sp.setk nextId currentAngle
          if nextId = startId then sp
          else signpostWalk O m vid startId fuel nextId currentAngle sp

/-- `SignpostData.computeSignpostsAtVertex(vertex)`. -/
def computeSignpostsAtVertex (O : Oracle) (m : Mesh) (vid : ℕ)
    (sd : SignpostState) : SignpostState :=
  match (m.vertices.find? vid).bind (·.halfedge) with
  | none => sd
  | some startId =>
    { referenceHalfedges := sd.referenceHalfedges.setk vid startId
      signposts :=
        signpostWalk O m vid startId (m.halfedges.length + 1) startId 0
          (sd.signposts.setk startId 0) }

/-- The `SignpostData` constructor: computes signposts for every vertex, in
map insertion order. -/
def initSignposts (O : Oracle) (m : Mesh) : SignpostState :=
  m.vertices.entries.foldl
    (fun sd p => computeSignpostsAtVertex O m p.1 sd)
    { signposts := [], referenceHalfedges := [] }

/-- `SignpostData.getAngle(halfedge)`: `none` models the thrown
`No signpost data` error. -/
def getAngle (sd : SignpostState) (heId : ℕ) : Option ℚ :=
  sd.signposts.find? heId

/-- Floor-modulus on the rationals: the exact value computed by the
`while (diff < 0) diff += 2π; while (diff >= 2π) diff -= 2π` normalisation
loops of `getAngleBetween` (for a positive modulus they compute precisely
`diff - 2π·⌊diff / 2π⌋`). -/
def floorMod (a b : ℚ) : ℚ := a - b * (⌊a / b⌋ : ℤ)

/-- `SignpostData.getAngleBetween(from, to)`.  Note the source guards with
`from.vertex.id !== to.vertex.id`, i.e. it compares the TARGET vertices of the
two halfedges (`halfedge.vertex` is the halfedge target in this code base), and
throws (`none`) when they differ. -/
def getAngleBetween (m : Mesh) (sd : SignpostState) (fromId toId : ℕ) :
    Option ℚ := do
  let fr ← m.halfedges.find? fromId
  let tr ← m.halfedges.find? toId
  if fr.vertex ≠ tr.vertex then none
  else do
    let angleFrom ← getAngle sd fromId
    let angleTo ← getAngle sd toId
    pure (floorMod (angleTo - angleFrom) twoPi)

/-- `SignpostData.updateAfterFlip(edge)`: recomputes the signposts at the four
vertices of the flipped quadrilateral. -/
def updateAfterFlip (O : Oracle) (m : Mesh) (eid : ℕ) (sd : SignpostState) :
    SignpostState :=
  match (m.edges.find? eid).bind (fun e => m.halfedges.find? e.halfedge) with
  | none => sd
  | some he =>
    match he.twin >>= m.halfedges.find? with
    | none => sd
    | some heTwin =>
      match he.next >>= m.halfedges.find?, heTwin.next >>= m.halfedges.find? with
      | some heNext, some heTwinNext =>
        let sd := computeSignpostsAtVertex O m he.vertex sd
        let sd := computeSignpostsAtVertex O m heTwin.vertex sd
        let sd := computeSignpostsAtVertex O m heNext.vertex sd
        computeSignpostsAtVertex O m heTwinNext.vertex sd
      | _, _ => sd

/-- The fan walk of `getOutgoingHalfedgesSorted` (before sorting). -/
def outgoingWalk (m : Mesh) (startId : ℕ) : ℕ → ℕ → List ℕ → List ℕ
  | 0, _, acc => acc
  | fuel + 1, cur, acc =>
    let acc := acc ++ [cur]
    match m.fanStep cur with
    | none => acc
    | some nxt => if nxt = startId then acc else outgoingWalk m startId fuel nxt acc

/-- Stable insertion of an element into a list sorted by a rational key:
models the stable `Array.prototype.sort` comparator `(a, b) => key a - key b`. -/
def stableInsertBy (key : ℕ → ℚ) (x : ℕ) : List ℕ → List ℕ
  | [] => [x]
  | y :: ys => if key y ≤ key x then y :: stableInsertBy key x ys else x :: y :: ys

/-- Stable sort by a rational key. -/
def stableSortBy (key : ℕ → ℚ) : List ℕ → List ℕ
  | [] => []
  | x :: xs => stableInsertBy key x (stableSortBy key xs)

/-- `SignpostData.getOutgoingHalfedgesSorted(vertex)`: the fan walk from the
representative halfedge, sorted (stably) by signpost angle.  The sort
comparator calls `getAngle`, which throws on a missing record; a missing
record is modelled by the key `0` and the theorems never rely on that case. -/
def getOutgoingHalfedgesSorted (m : Mesh) (sd : SignpostState) (vid : ℕ) :
    List ℕ :=
  match (m.vertices.find? vid).bind (·.halfedge) with
  | none => []
  | some startId =>
    stableSortBy (fun h => (getAngle sd h).getD 0)
      (outgoingWalk m startId (m.halfedges.length + 1) startId [])

/-- `SignpostData.isAngleBetween(angle, start, end)`: half-open
counter-clockwise interval test with wraparound; inputs are first normalised
by the JavaScript remainder (sign-preserving) followed by one corrective
addition — for rationals this is exactly the floor-modulus. -/
def isAngleBetween (angle start stop : ℚ) : Bool :=
  let normAngle := floorMod angle twoPi
  let normStart := floorMod start twoPi
  let normEnd := floorMod stop twoPi
  if normStart ≤ normEnd then normStart ≤ normAngle && normAngle < normEnd
  else normStart ≤ normAngle || normAngle < normEnd

/-! ## Geodesic paths (`algorithms/GeodesicPath.ts`) -/

/-- `1e-10`, the numeric tolerance used by `isLocallyGeodesic` and the default
convergence threshold (idealised as the exact rational). -/
def epsTol : ℚ := 1 / 10 ^ 10

/-- A `GeodesicPath` object: an edge-id sequence, the two end vertex ids, and
the cached total length. -/
structure GeodesicPath where
  edges : List ℕ
  startVertex : ℕ
  endVertex : ℕ
  cachedLength : ℚ
deriving DecidableEq, Repr

/-- `GeodesicPath.computeLength()`: the sum of the edge lengths. -/
def pathComputeLength (m : Mesh) (edges : List ℕ) : ℚ :=
  edges.foldl (fun s e => s + ((m.edges.find? e).map (·.length)).getD 0) 0

/-- The `GeodesicPath` constructor. -/
def mkGeodesicPath (m : Mesh) (edges : List ℕ) (s t : ℕ) : GeodesicPath :=
  { edges := edges, startVertex := s, endVertex := t,
    cachedLength := pathComputeLength m edges }

/-- `GeodesicPath.updateLength()`. -/
def pathUpdateLength (m : Mesh) (p : GeodesicPath) : GeodesicPath :=
  { p with cachedLength := pathComputeLength m p.edges }

/-- The edge walk of `GeodesicPath.getVertices()`: from the current vertex,
cross each edge to its other endpoint; when `getOtherVertex` fails, fall back
to comparing ids, and throw `Edge has invalid vertices` when the edge cannot
name its endpoints. -/
def pathVerticesWalk (m : Mesh) : List ℕ → ℕ → List ℕ → Except String (List ℕ)
  | [], _, acc => .ok acc
  | e :: rest, cur, acc =>
    match m.edges.find? e with
    | none => .error "path edge not in the mesh"  -- unrepresentable in the source
    | some erec =>
      match m.edgeOtherVertex erec cur with
      | some nxt => pathVerticesWalk m rest nxt (acc ++ [nxt])
      | none =>
        match m.edgeVertices erec with
        | none => .error "Edge has invalid vertices"
        | some (v0, v1) =>
          let nxt := if v0 = cur then v1 else v0
          pathVerticesWalk m rest nxt (acc ++ [nxt])

/-- `GeodesicPath.getVertices()`. -/
def pathGetVertices (m : Mesh) (p : GeodesicPath) : Except String (List ℕ) :=
  if p.edges = [] then .ok [p.startVertex]
  else pathVerticesWalk m p.edges p.startVertex [p.startVertex]

/-- `GeodesicPath.getInteriorVertices()`: all but the first and last. -/
def pathGetInteriorVertices (m : Mesh) (p : GeodesicPath) :
    Except String (List ℕ) := do
  let vs ← pathGetVertices m p
  pure (vs.drop 1).dropLast

/-- `GeodesicPath.getVertexIndex(vertex)`: `none` models `-1`. -/
def pathGetVertexIndex (m : Mesh) (p : GeodesicPath) (vid : ℕ) :
    Except String (Option ℕ) := do
  let vs ← pathGetVertices m p
  pure (vs.findIdx? (· = vid))

/-- `GeodesicPath.containsVertex(vertex)`. -/
def pathContainsVertex (m : Mesh) (p : GeodesicPath) (vid : ℕ) :
    Except String Bool := do
  let i ← pathGetVertexIndex m p vid
  pure i.isSome

/-- `GeodesicPath.containsEdge(edge)`. -/
def pathContainsEdge (p : GeodesicPath) (eid : ℕ) : Bool := p.edges.contains eid

/-- `GeodesicPath.getAngleAtVertex(vertex)`: after the interior-vertex check
and the halfedge bookkeeping (whose only observable effect is a possible
`TypeError` on `inHe.next!.vertex` when `next` is missing), the source returns
the placeholder `Math.PI` — see the `Placeholder` comment in the source and
`docs/implementation-status.md`. -/
def pathGetAngleAtVertex (m : Mesh) (p : GeodesicPath) (vid : ℕ) :
    Except String ℚ := do
  let idx? ← pathGetVertexIndex m p vid
  match idx? with
  | none => .error "Vertex must be an interior vertex of the path"
  | some index =>
    if index = 0 || p.edges.length ≤ index then
      .error "Vertex must be an interior vertex of the path"
    else
      match (m.edges.find? (p.edges.getD (index - 1) 0)).bind
          (fun e => m.halfedges.find? e.halfedge) with
      | none => .error "path edge not in the mesh"  -- unrepresentable
      | some inHalfedge =>
        match inHalfedge.next >>= m.halfedges.find? with
        | none => .error "TypeError"  -- `inHe.next!.vertex` on a null next
        | some _ => pure mathPi

/-! ## The FlipOut network (`algorithms/FlipEdgeNetwork.ts`) -/

/-- The state of a `FlipEdgeNetwork` (path variant): the triangulation, its
signpost data, the paths, the marked-vertex set and the two numeric options
used by `iterativeShorten`. -/
structure Network where
  mesh : Mesh
  signpost : SignpostState
  paths : List GeodesicPath
  markedVertices : List ℕ
  maxIterations : ℕ
  convergenceThreshold : ℚ
deriving DecidableEq, Repr

/-- `FlipEdgeNetwork.getLength()`: the sum of the cached path lengths. -/
def networkGetLength (n : Network) : ℚ :=
  n.paths.foldl (fun s p => s + p.cachedLength) 0

/-- `FlipEdgeNetwork.isLocallyGeodesic(vertex, path)`: `true` when the angle
is at least `π − 1e-10`, and `true` on any caught exception. -/
def isLocallyGeodesic (m : Mesh) (p : GeodesicPath) (vid : ℕ) : Bool :=
  match pathGetAngleAtVertex m p vid with
  | .error _ => true
  | .ok a => mathPi - epsTol ≤ a

/-- Scan of one path by `findFlexibleJoint`: the first unmarked interior
vertex that is not locally geodesic. -/
def findFlexibleInPath (m : Mesh) (marked : List ℕ) (p : GeodesicPath) :
    Except String (Option ℕ) := do
  let ivs ← pathGetInteriorVertices m p
  pure (ivs.find? (fun v => !marked.contains v && !isLocallyGeodesic m p v))

/-- `FlipEdgeNetwork.findFlexibleJoint()`: linear scan over the interior
vertices of every path; marked vertices are skipped; exceptions raised by the
vertex walk propagate. -/
def findFlexibleJoint (n : Network) : Except String (Option ℕ) :=
  n.paths.foldlM
    (fun acc p =>
      match acc with
      | some v => pure (some v)
      | none => findFlexibleInPath n.mesh n.markedVertices p) none

/-- `FlipEdgeNetwork.getHalfedgeAtVertex(edge, vertex)`: the halfedge of the
edge whose source is the vertex (returned via the twin of the one that ends
there); may be `none` (`null`). -/
def getHalfedgeAtVertex (m : Mesh) (eid vid : ℕ) : Option ℕ := do
  let e ← m.edges.find? eid
  let he ← m.halfedges.find? e.halfedge
  if he.vertex = vid then he.twin
  else
    match he.twin >>= m.halfedges.find? with
    | some twinRec => if twinRec.vertex = vid then some e.halfedge else none
    | none => none

/-- Lifts `getAngle` to the `Except` monad (`getAngle` throws on a missing
record). -/
def getAngleE (sd : SignpostState) (heId : ℕ) : Except String ℚ :=
  match getAngle sd heId with
  | some a => .ok a
  | none => .error "No signpost data for halfedge"

/-- `FlipEdgeNetwork.getWedgeEdges(vertex, incomingEdge, outgoingEdge)`. -/
def getWedgeEdges (m : Mesh) (sd : SignpostState) (vid incomingEid outgoingEid : ℕ) :
    Except String (List ℕ) := do
  match getHalfedgeAtVertex m incomingEid vid, getHalfedgeAtVertex m outgoingEid vid with
  | some inHe, some outHe => do
    let inAngle ← getAngleE sd inHe
    let outAngle ← getAngleE sd outHe
    let allHalfedges := getOutgoingHalfedgesSorted m sd vid
    allHalfedges.foldlM
      (fun acc heId => do
        let heAngle ← getAngleE sd heId
        if isAngleBetween heAngle inAngle outAngle then
          match m.halfedges.find? heId with
          | some heRec =>
            if heRec.edge ≠ incomingEid && heRec.edge ≠ outgoingEid then
              pure (acc ++ [heRec.edge])
            else pure acc
          | none => .error "halfedge not in the mesh"  -- unrepresentable
        else pure acc) []
  | _, _ => pure []

/-- Finds the first path containing the vertex
(`this.paths.find((p) => p.containsVertex(vertex))`), with its index. -/
def findPathWithVertex (m : Mesh) (vid : ℕ) :
    List GeodesicPath → ℕ → Except String (Option (ℕ × GeodesicPath))
  | [], _ => pure none
  | p :: rest, i => do
    let b ← pathContainsVertex m p vid
    if b then pure (some (i, p)) else findPathWithVertex m vid rest (i + 1)

/-- The wedge-flipping loop inside `FlipEdgeNetwork.flipOut`: skips path
edges and boundary edges, flips the rest (ignoring the flip result), and
updates the signposts after each flip. -/
def flipWedgeEdges (O : Oracle) (incomingEid outgoingEid : ℕ) :
    List ℕ → Mesh → SignpostState → ℕ →
    Except String (Mesh × SignpostState × ℕ)
  | [], m, sd, count => pure (m, sd, count)
  | eid :: rest, m, sd, count =>
    if eid = incomingEid || eid = outgoingEid then
      flipWedgeEdges O incomingEid outgoingEid rest m sd count
    else
      match m.edges.find? eid with
      | none => .error "edge not in the mesh"  -- unrepresentable
      | some erec =>
        match m.halfedges.find? erec.halfedge with
        | none => .error "halfedge not in the mesh"  -- unrepresentable
        | some he =>
          match he.twin >>= m.halfedges.find?, he.face with
          | some heTwin, some _ =>
            if heTwin.face.isNone then
              flipWedgeEdges O incomingEid outgoingEid rest m sd count
            else
              match flipEdge O m eid with
              | none => .error "TypeError"  -- a throw inside flipEdge
              | some (_, m') =>
                let sd' := updateAfterFlip O m' eid sd
                flipWedgeEdges O incomingEid outgoingEid rest m' sd' (count + 1)
          | _, _ => flipWedgeEdges O incomingEid outgoingEid rest m sd count

/-- `FlipEdgeNetwork.flipOut(vertex)`. -/
def flipOut (O : Oracle) (n : Network) (vid : ℕ) : Except String (Bool × Network) := do
  let found ← findPathWithVertex n.mesh vid n.paths 0
  match found with
  | none => pure (false, n)
  | some (i, p) => do
    let idx? ← pathGetVertexIndex n.mesh p vid
    match idx? with
    | none => pure (false, n)
    | some index =>
      if index = 0 || p.edges.length ≤ index then pure (false, n)
      else do
        let incomingEid := p.edges.getD (index - 1) 0
        let outgoingEid := p.edges.getD index 0
        let wedge ← getWedgeEdges n.mesh n.signpost vid incomingEid outgoingEid
        let (m', sd', count) ←
          flipWedgeEdges O incomingEid outgoingEid wedge n.mesh n.signpost 0
        let paths' := n.paths.set i (pathUpdateLength m' p)
        pure (decide (0 < count),
          { n with mesh := m', signpost := sd', paths := paths' })

/-- The `while` loop of `FlipEdgeNetwork.iterativeShorten`; the fuel is the
number of outer iterations still allowed (`maxIterations − iteration`). -/
def shortenLoop (O : Oracle) (threshold : ℚ) :
    ℕ → ℕ → ℚ → Network → Except String (ℕ × Network)
  | 0, it, _, st => pure (it, st)
  | fuel + 1, it, prevLength, st => do
    let joint? ← findFlexibleJoint st
    match joint? with
    | none => pure (it, st)
    | some j => do
      let (flipped, st') ← flipOut O st j
      if !flipped then pure (it, st')
      else
        let currentLength := networkGetLength st'
        if |currentLength - prevLength| < threshold then pure (it + 1, st')
        else shortenLoop O threshold fuel (it + 1) currentLength st'

/-- `FlipEdgeNetwork.iterativeShorten()` (with the option-provided bound and
threshold): returns the number of outer iterations performed, together with
the final network state. -/
def iterativeShorten (O : Oracle) (n : Network) : Except String (ℕ × Network) :=
  shortenLoop O n.convergenceThreshold n.maxIterations 0 (networkGetLength n) n

/-! ## Geodesic loops (`algorithms/GeodesicLoop.ts`) -/

/-- A `GeodesicLoop` object. -/
structure GeodesicLoopRec where
  edges : List ℕ
  baseVertex : ℕ
  cachedLength : ℚ
deriving DecidableEq, Repr

/-- The `GeodesicLoop` constructor together with `validateClosure()`: rejects
fewer than three edges, a first edge not incident to the base vertex, and a
last edge not incident to the base vertex. -/
def geodesicLoopMk (m : Mesh) (edges : List ℕ) (base : ℕ) :
    Except String GeodesicLoopRec := do
  if edges.length < 3 then
    .error "A geodesic loop must have at least 3 edges"
  else do
    let cachedLength := pathComputeLength m edges
    -- validateClosure
    match edges with
    | [] => .error "Loop must have at least one edge"
    | first :: _ => do
      match m.edges.find? first with
      | none => .error "edge not in the mesh"  -- unrepresentable
      | some fe =>
        match m.edgeVertices fe with
        | none => .error "First edge has invalid vertices"
        | some (v0, v1) =>
          if v0 ≠ base && v1 ≠ base then
            .error "First edge must be connected to baseVertex"
          else
            match m.edges.find? (edges.getLast?.getD 0) with
            | none => .error "edge not in the mesh"  -- unrepresentable
            | some le =>
              match m.edgeVertices le with
              | none => .error "Last edge has invalid vertices"
              | some (w0, w1) =>
                if w0 ≠ base && w1 ≠ base then
                  .error "Last edge must be connected to baseVertex"
                else
                  pure { edges := edges, baseVertex := base,
                         cachedLength := cachedLength }

/-! ## Mesh segmentation (`algorithms/MeshSegmentation.ts`) -/

/-- The face regions of the segmentation. -/
inductive FaceRegion where
  | inside
  | outside
  | boundary
  | unknown
deriving DecidableEq, Repr

/-- `GeometricUtils.triangleArea` (Heron), throwing (`none`) on a violated
triangle inequality. -/
def triangleArea (O : Oracle) (a b c : ℚ) : Option ℚ :=
  let s := (a + b + c) / 2
  let areaSquared := s * (s - a) * (s - b) * (s - c)
  if areaSquared < 0 then none else some (O.sqrtFn areaSquared)

/-- `Face.getArea()`: Heron on the edge lengths, `null` on a caught throw. -/
def faceGetArea (O : Oracle) (m : Mesh) (f : FaceRec) : Option ℚ := do
  let (a, b, c) ← m.faceEdgeLengths f
  triangleArea O a b c

/-- The result record of `MeshSegmentation.compute()` (faces by id). -/
structure SegmentationResult where
  insideFaces : List ℕ
  outsideFaces : List ℕ
  boundaryFaces : List ℕ
  insideArea : ℚ
  outsideArea : ℚ
  boundaryArea : ℚ
deriving DecidableEq, Repr

/-- `MeshSegmentation.determineSeedFaces()`. -/
def determineSeedFaces (m : Mesh) (loop : GeodesicLoopRec) :
    Option ℕ × Option ℕ :=
  match loop.edges with
  | [] => (none, none)
  | first :: _ =>
    match (m.edges.find? first).bind
        (fun e => (m.halfedges.find? e.halfedge).map (fun he => (e.halfedge, he))) with
    | none => (none, none)  -- unrepresentable on the object graph
    | some (heId, he) =>
      let loopHe :=
        match m.sourceVertex he with
        | some s => if s = loop.baseVertex then (heId, he)
          else match he.twin >>= (fun t => (m.halfedges.find? t).map (t, ·)) with
            | some p => p
            | none => (heId, he)
        | none =>
          match he.twin >>= (fun t => (m.halfedges.find? t).map (t, ·)) with
          | some p => p
          | none => (heId, he)
      (loopHe.2.face,
        (loopHe.2.twin >>= m.halfedges.find?).bind (·.face))

/-- The flood-fill BFS over faces (`MeshSegmentation.floodFill`), one dequeue
per step: an already-visited or differently-coloured face is skipped;
otherwise the face is coloured and its neighbours across non-loop edges are
enqueued.  The source BFS always terminates (each step either newly visits a
face or shrinks the queue) and the fuel passed by `segmentationCompute`
dominates that measure. -/
def floodFillLoop (m : Mesh) (loopEdges : List ℕ) (region : FaceRegion) :
    ℕ → List ℕ → List ℕ → IdMap FaceRegion → IdMap FaceRegion
  | 0, _, _, regions => regions
  | _ + 1, [], _, regions => regions
  | fuel + 1, f :: queue, visited, regions =>
    let skip :=
      visited.contains f ||
        (match regions.find? f with
         | some r => r ≠ FaceRegion.unknown && r ≠ region
         | none => false)
    if skip then floodFillLoop m loopEdges region fuel queue visited regions
    else
      let visited := jsSetAdd visited f
      let regions := regions.setk f region
      let queue :=
        match (m.faces.find? f).bind m.faceHalfedges with
        | none => queue
        | some (h0, h1, h2) =>
          [h0, h1, h2].foldl
            (fun q heId =>
              match m.halfedges.find? heId with
              | none => q
              | some he =>
                if loopEdges.contains he.edge then q
                else
                  match (he.twin >>= m.halfedges.find?).bind (fun x => x.face) with
                  | none => q
                  | some nb => if visited.contains nb then q else q ++ [nb]) queue
      floodFillLoop m loopEdges region fuel queue visited regions

/-- First pass of `markRemainingFaces`: UNKNOWN faces touching a loop edge
become BOUNDARY. -/
def markBoundaryFaces (m : Mesh) (loopEdges : List ℕ)
    (regions : IdMap FaceRegion) : IdMap FaceRegion :=
  m.faces.entries.foldl
    (fun regions p =>
      if regions.find? p.1 ≠ some FaceRegion.unknown then regions
      else
        match m.faceHalfedges p.2 with
        | none => regions
        | some (h0, h1, h2) =>
          let touches := [h0, h1, h2].any (fun heId =>
            match m.halfedges.find? heId with
            | some he => loopEdges.contains he.edge
            | none => false)
          if touches then regions.setk p.1 FaceRegion.boundary else regions)
    regions

/-- One sweep of the majority-vote pass of `markRemainingFaces` (the sweep
observes its own earlier assignments, as the source loop does). -/
def majoritySweep (m : Mesh) (regions : IdMap FaceRegion) :
    IdMap FaceRegion × Bool :=
  m.faces.entries.foldl
    (fun (st : IdMap FaceRegion × Bool) p =>
      let (regions, changed) := st
      if regions.find? p.1 ≠ some FaceRegion.unknown then (regions, changed)
      else
        match m.faceHalfedges p.2 with
        | none => (regions, changed)
        | some (h0, h1, h2) =>
          let counts := [h0, h1, h2].foldl
            (fun (c : ℕ × ℕ) heId =>
              match (m.halfedges.find? heId).bind
                  (fun he => he.twin >>= m.halfedges.find?) with
              | none => c
              | some tw =>
                match tw.face with
                | none => c
                | some nbf =>
                  match regions.find? nbf with
                  | some FaceRegion.inside => (c.1 + 1, c.2)
                  | some FaceRegion.outside => (c.1, c.2 + 1)
                  | _ => c) (0, 0)
          if 0 < counts.1 || 0 < counts.2 then
            if counts.2 < counts.1 then
              (regions.setk p.1 FaceRegion.inside, true)
            else (regions.setk p.1 FaceRegion.outside, true)
          else (regions, changed))
    (regions, false)

/-- The bounded `while (changed && iterations < 1000)` loop. -/
def majorityLoop (m : Mesh) : ℕ → IdMap FaceRegion → IdMap FaceRegion
  | 0, regions => regions
  | fuel + 1, regions =>
    let (regions', changed) := majoritySweep m regions
    if changed then majorityLoop m fuel regions' else regions'

/-- `MeshSegmentation.markRemainingFaces()`. -/
def markRemainingFaces (m : Mesh) (loopEdges : List ℕ)
    (regions : IdMap FaceRegion) : IdMap FaceRegion :=
  let regions := markBoundaryFaces m loopEdges regions
  let regions := majorityLoop m 1000 regions
  -- any remaining UNKNOWN face defaults to OUTSIDE
  m.faces.entries.foldl
    (fun regions p =>
      if regions.find? p.1 = some FaceRegion.unknown then
        regions.setk p.1 FaceRegion.outside
      else regions)
    regions

/-- `MeshSegmentation.collectResults()`: a face with an unknown or missing
region is counted in no list (the `switch` has no default branch). -/
def collectResults (O : Oracle) (m : Mesh) (regions : IdMap FaceRegion) :
    SegmentationResult :=
  m.faces.entries.foldl
    (fun r p =>
      let area := (faceGetArea O m p.2).getD 0
      match regions.find? p.1 with
      | some FaceRegion.inside =>
        { r with insideFaces := r.insideFaces ++ [p.1],
                 insideArea := r.insideArea + area }
      | some FaceRegion.outside =>
        { r with outsideFaces := r.outsideFaces ++ [p.1],
                 outsideArea := r.outsideArea + area }
      | some FaceRegion.boundary =>
        { r with boundaryFaces := r.boundaryFaces ++ [p.1],
                 boundaryArea := r.boundaryArea + area }
      | _ => r)
    { insideFaces := [], outsideFaces := [], boundaryFaces := [],
      insideArea := 0, outsideArea := 0, boundaryArea := 0 }

/-- `MeshSegmentation.compute()`. -/
def segmentationCompute (O : Oracle) (m : Mesh) (loop : GeodesicLoopRec) :
    SegmentationResult :=
  let loopEdges := loop.edges.foldl jsSetAdd []
  let regions : IdMap FaceRegion :=
    m.faces.entries.foldl (fun r p => r.setk p.1 FaceRegion.unknown) []
  let seeds := determineSeedFaces m loop
  let fuel := 4 * m.faces.length + 2
  let regions :=
    match seeds.1 with
    | some s => floodFillLoop m loopEdges FaceRegion.inside fuel [s] [] regions
    | none => regions
  let regions :=
    match seeds.2 with
    | some s => floodFillLoop m loopEdges FaceRegion.outside fuel [s] [] regions
    | none => regions
  let regions := markRemainingFaces m loopEdges regions
  collectResults O m regions

/-! ## Dijkstra (`algorithms/DijkstraShortestPath.ts`) -/

/-- A priority-queue entry `(vertexId, distance)`. -/
abbrev PQEntry : Type := ℕ × ℚ

/-- `MinHeap.bubbleUp(index)`: the parent index `(index − 1) / 2` strictly
decreases, so `index + 1` steps of fuel make the fuel bound unreachable; the
fuel keeps the definition structurally recursive (kernel-reducible). -/
def bubbleUpAux : ℕ → List PQEntry → ℕ → List PQEntry
  | 0, h, _ => h
  | fuel + 1, h, index =>
    if index = 0 then h
    else
      let parentIndex := (index - 1) / 2
      if (h.getD parentIndex (0, 0)).2 ≤ (h.getD index (0, 0)).2 then h
      else
        let a := h.getD index (0, 0)
        let b := h.getD parentIndex (0, 0)
        bubbleUpAux fuel ((h.set index b).set parentIndex a) parentIndex

/-- `MinHeap.bubbleUp(index)`. -/
def bubbleUp (h : List PQEntry) (index : ℕ) : List PQEntry :=
  bubbleUpAux (index + 1) h index

/-- `MinHeap.push(entry)`. -/
def heapPush (h : List PQEntry) (e : PQEntry) : List PQEntry :=
  bubbleUp (h ++ [e]) h.length

/-- The smallest of `index` and its two children, by stored distance
(the comparison structure of `MinHeap.bubbleDown`). -/
def pickSmallest (h : List PQEntry) (index : ℕ) : ℕ :=
  let leftChild := 2 * index + 1
  let rightChild := 2 * index + 2
  let s1 :=
    if leftChild < h.length &&
        (h.getD leftChild (0, 0)).2 < (h.getD index (0, 0)).2 then
      leftChild
    else index
  if rightChild < h.length &&
      (h.getD rightChild (0, 0)).2 < (h.getD s1 (0, 0)).2 then
    rightChild
  else s1

theorem pickSmallest_cases (h : List PQEntry) (index : ℕ) :
    pickSmallest h index = index ∨
      (index < pickSmallest h index ∧ pickSmallest h index < h.length) := by
  unfold pickSmallest
  simp only [Bool.and_eq_true, decide_eq_true_eq]
  split_ifs with h1 h2 h3 <;> simp_all <;> omega

/-- `MinHeap.bubbleDown(index)`: each step moves to a strictly larger index
below the heap length (which swapping preserves), so `h.length + 1` steps of
fuel make the fuel bound unreachable. -/
def bubbleDownAux : ℕ → List PQEntry → ℕ → List PQEntry
  | 0, h, _ => h
  | fuel + 1, h, index =>
    let smallest := pickSmallest h index
    if smallest = index then h
    else
      let a := h.getD index (0, 0)
      let b := h.getD smallest (0, 0)
      bubbleDownAux fuel ((h.set index b).set smallest a) smallest

/-- `MinHeap.bubbleDown(index)`. -/
def bubbleDown (h : List PQEntry) (index : ℕ) : List PQEntry :=
  bubbleDownAux (h.length + 1) h index

/-- `MinHeap.pop()`: the root entry and the heap after removal. -/
def heapPop (h : List PQEntry) : Option (PQEntry × List PQEntry) :=
  match h with
  | [] => none
  | min :: tl =>
    let last := (min :: tl).getLast (by simp)
    let rest := (min :: tl).dropLast
    if rest.length ≠ 0 then some (min, bubbleDown (rest.set 0 last) 0)
    else some (min, rest)

/-- The fan walk of `DijkstraShortestPath.getNeighbors(vertex)`: the list of
`(neighbour vertex id, edge id)` pairs in fan order. -/
def neighborsWalk (m : Mesh) (startId : ℕ) : ℕ → ℕ → List (ℕ × ℕ) → List (ℕ × ℕ)
  | 0, _, acc => acc
  | fuel + 1, cur, acc =>
    match m.halfedges.find? cur with
    | none => acc  -- unrepresentable on the object graph
    | some he =>
      let acc := acc ++ [(he.vertex, he.edge)]
      match m.fanStep cur with
      | none => acc
      | some nxt =>
        if nxt = startId then acc else neighborsWalk m startId fuel nxt acc

/-- `DijkstraShortestPath.getNeighbors(vertex)`. -/
def getNeighbors (m : Mesh) (v : VertexRec) : List (ℕ × ℕ) :=
  match v.halfedge with
  | none => []
  | some h0 => neighborsWalk m h0 (m.halfedges.length + 1) h0 []

/-- The result record of `runDijkstra`. -/
structure DijkstraResult where
  distances : IdMap ℚ
  parents : IdMap (Option ℕ)
  targetReached : Bool
deriving DecidableEq, Repr

/-- The evolving state of the Dijkstra main loop. -/
structure DijkstraState where
  distances : IdMap ℚ
  parents : IdMap (Option ℕ)
  visited : List ℕ
  heap : List PQEntry
  targetReached : Bool
deriving DecidableEq, Repr

/-- The neighbour-relaxation fold of the Dijkstra loop body. -/
def relaxNeighbors (m : Mesh) (currentId : ℕ) (currentDist : ℚ)
    (st : DijkstraState) (neighbors : List (ℕ × ℕ)) : DijkstraState :=
  neighbors.foldl
    (fun st p =>
      if st.visited.contains p.1 then st
      else
        let len := ((m.edges.find? p.2).map (·.length)).getD 0
        let newDist := currentDist + len
        let improve :=
          match st.distances.find? p.1 with
          | none => true
          | some oldDist => newDist < oldDist
        if improve then
          { st with
            distances := st.distances.setk p.1 newDist
            parents := st.parents.setk p.1 (some currentId)
            heap := heapPush st.heap (p.1, newDist) }
        else st) st

/-- The main `while (!queue.isEmpty())` loop of `runDijkstra`.  The fuel is an
upper bound on the number of pops; `dijkstraFuel` below always dominates it,
so the zero-fuel branch is unreachable from `runDijkstra`. -/
def dijkstraLoop (m : Mesh) (targetId : Option ℕ) :
    ℕ → DijkstraState → DijkstraState
  | 0, st => st
  | fuel + 1, st =>
    match heapPop st.heap with
    | none => st
    | some ((currentId, currentDist), heap') =>
      let st := { st with heap := heap' }
      if st.visited.contains currentId then dijkstraLoop m targetId fuel st
      else
        let st := { st with visited := jsSetAdd st.visited currentId }
        if targetId = some currentId then { st with targetReached := true }
        else
          match m.vertices.find? currentId with
          | none => dijkstraLoop m targetId fuel st
          | some vrec =>
            dijkstraLoop m targetId fuel
              (relaxNeighbors m currentId currentDist st (getNeighbors m vrec))

/-- A provably sufficient pop bound for the Dijkstra loop: the initial heap
size plus one push per fan entry of every vertex. -/
def dijkstraFuel (m : Mesh) (sources : List ℕ) : ℕ :=
  sources.length +
    m.vertices.entries.foldl (fun s p => s + (getNeighbors m p.2).length) 0 + 1

/-- `DijkstraShortestPath.runDijkstra(sourceIds, targetId?)`. -/
def runDijkstra (m : Mesh) (sources : List ℕ) (targetId : Option ℕ) :
    DijkstraResult :=
  let st0 : DijkstraState := sources.foldl
    (fun st s =>
      { st with
        distances := st.distances.setk s 0
        parents := st.parents.setk s none
        heap := heapPush st.heap (s, 0) })
    { distances := [], parents := [], visited := [], heap := [],
      targetReached := false }
  let st := dijkstraLoop m targetId (dijkstraFuel m sources) st0
  { distances := st.distances, parents := st.parents,
    targetReached := if targetId = none then true else st.targetReached }

/-- `DijkstraShortestPath.computeShortestPathTree(sources, target?)`. -/
def computeShortestPathTree (m : Mesh) (sources : List ℕ)
    (targetId : Option ℕ) : DijkstraResult :=
  runDijkstra m sources targetId

/-- `DijkstraShortestPath.findEdgeBetween(v1, v2)`: the first fan edge of
`v1` whose target is `v2`. -/
def findEdgeBetweenWalk (m : Mesh) (startId v2 : ℕ) : ℕ → ℕ → Option ℕ
  | 0, _ => none
  | fuel + 1, cur =>
    match m.halfedges.find? cur with
    | none => none  -- unrepresentable on the object graph
    | some he =>
      if he.vertex = v2 then some he.edge
      else
        match m.fanStep cur with
        | none => none
        | some nxt =>
          if nxt = startId then none else findEdgeBetweenWalk m startId v2 fuel nxt

/-- `DijkstraShortestPath.findEdgeBetween(v1, v2)`. -/
def findEdgeBetween (m : Mesh) (v1 v2 : ℕ) : Option ℕ := do
  let r1 ← m.vertices.find? v1
  let h0 ← r1.halfedge
  findEdgeBetweenWalk m h0 v2 (m.halfedges.length + 1) h0

/-- The parent-pointer backtracking loop of `reconstructPath`: returns the
vertex path in order, or `none` for the `Path broken` early return.  A parent
entry of `some none` is a `null` parent: the `while (current !== null)` guard
then ends the loop normally (the caller still checks the head).  The fuel
dominates any cycle-free chain; the theorems prove it never runs out under
their hypotheses. -/
def backtrackParents (parents : IdMap (Option ℕ)) (sourceId : ℕ) :
    ℕ → ℕ → List ℕ → Option (List ℕ)
  | 0, _, _ => none
  | fuel + 1, current, acc =>
    let acc := current :: acc
    if current = sourceId then some acc
    else
      match parents.find? current with
      | none => none
      | some none => some acc
      | some (some p) => backtrackParents parents sourceId fuel p acc

/-- Converts consecutive vertex pairs of the reconstructed vertex path into
edges via `findEdgeBetween`. -/
def verticesToEdges (m : Mesh) : List ℕ → Option (List ℕ)
  | [] => some []
  | [_] => some []
  | v1 :: v2 :: rest => do
    let _ ← m.vertices.find? v1
    let _ ← m.vertices.find? v2
    let e ← findEdgeBetween m v1 v2
    let tail ← verticesToEdges m (v2 :: rest)
    pure (e :: tail)

/-- `DijkstraShortestPath.reconstructPath(sourceId, targetId, result)`. -/
def reconstructPath (m : Mesh) (sourceId targetId : ℕ)
    (result : DijkstraResult) : Option GeodesicPath := do
  let vertexPath ←
    backtrackParents result.parents sourceId (result.parents.length + 2)
      targetId []
  if vertexPath.head? ≠ some sourceId then none
  else if vertexPath.length < 2 then none
  else do
    let edges ← verticesToEdges m vertexPath
    let _ ← m.vertices.find? sourceId
    let _ ← m.vertices.find? targetId
    pure (mkGeodesicPath m edges sourceId targetId)

/-- `DijkstraShortestPath.computePath(sourceId, targetId)`. -/
def computePath (m : Mesh) (sourceId targetId : ℕ) : Option GeodesicPath :=
  let result := runDijkstra m [sourceId] (some targetId)
  if !result.targetReached then none
  else reconstructPath m sourceId targetId result

/-! ## Spec-side definitions and concrete fixtures -/

/-- Modelled from the spec (§4.2 Signpost invariants): the counter-clockwise
angle from halfedge `h₁` to halfedge `h₂` at their shared source vertex is
`(θ(h₂) − θ(h₁)) mod 2π`. -/
def specAngleBetween (sd : SignpostState) (fromId toId : ℕ) : Option ℚ := do
  let a ← getAngle sd fromId
  let b ← getAngle sd toId
  pure (floorMod (b - a) twoPi)

/-- Modelled from the spec (§4.4 `angleAtInteriorVertex`): the signpost CCW
angle from the reversed incoming halfedge at an interior path vertex to the
outgoing halfedge along the path — the wedge angle on the canonical side.
`index` is the position of the vertex in the path vertex sequence. -/
def specPathWedgeAngle (m : Mesh) (sd : SignpostState) (p : GeodesicPath)
    (index : ℕ) (vid : ℕ) : Option ℚ := do
  let inEdge ← m.edges.find? (p.edges.getD (index - 1) 0)
  let outEdge ← m.edges.find? (p.edges.getD index 0)
  -- the halfedge of the incoming edge pointing TO the vertex
  let inHeRec ← m.halfedges.find? inEdge.halfedge
  let incomingTo ←
    if inHeRec.vertex = vid then some inEdge.halfedge
    else
      match inHeRec.twin >>= m.halfedges.find? with
      | some tw => if tw.vertex = vid then inHeRec.twin else none
      | none => none
  -- its reversal: the halfedge pointing FROM the vertex backwards
  let reversed ← (m.halfedges.find? incomingTo).bind (·.twin)
  -- the halfedge of the outgoing edge pointing FROM the vertex
  let outHeRec ← m.halfedges.find? outEdge.halfedge
  let outgoingFrom ←
    if m.sourceVertex outHeRec = some vid then some outEdge.halfedge
    else
      match outHeRec.twin >>= m.halfedges.find? with
      | some tw => if m.sourceVertex tw = some vid then outHeRec.twin else none
      | none => none
  specAngleBetween sd reversed outgoingFrom

set_option maxRecDepth 10000 in
/-- A fixed rational-valued oracle used by the concrete fixtures (any oracle
works for every theorem below; this one keeps the numbers small). -/
def oracle0 : Oracle := { sqrtFn := id, acosFn := fun _ => 1 / 2 }

/-- Vertex positions of a tetrahedron fixture. -/
def tetraPos : List (ℚ × ℚ × ℚ) := [(0, 0, 0), (1, 0, 0), (0, 1, 0), (0, 0, 1)]

/-- Triangle index buffer of the tetrahedron fixture (closed, orientable). -/
def tetraIdx : List ℕ := [0, 1, 2, 0, 2, 3, 0, 3, 1, 1, 3, 2]

/-! ## Map lemmas -/

theorem IdMap.find?_updatek {α : Type} (m : IdMap α) (f : α → α) (k k' : ℕ) :
    (m.updatek f k).find? k' =
      if k' = k then (m.find? k).map f else m.find? k' := by
  induction m with
  | nil =>
    show (IdMap.find? [] k') = _
    simp only [IdMap.find?]
    split <;> rfl
  | cons p rest ih =>
    obtain ⟨a, b⟩ := p
    show IdMap.find? (if a = k then _ else _) k' = _
    by_cases hak : a = k
    · subst hak
      by_cases h2 : a = k'
      · subst h2
        simp [IdMap.find?]
      · have h2' : ¬k' = a := fun h => h2 h.symm
        simp [IdMap.find?, h2, h2']
    · by_cases h2 : a = k'
      · subst h2
        simp [IdMap.find?, hak]
      · simp [IdMap.find?, hak, h2, ih]

theorem IdMap.find?_setk {α : Type} (m : IdMap α) (k k' : ℕ) (v : α) :
    (m.setk k v).find? k' = if k' = k then some v else m.find? k' := by
  induction m with
  | nil =>
    show IdMap.find? [(k, v)] k' = _
    simp only [IdMap.find?]
    by_cases h : k = k'
    · subst h; simp
    · have h' : ¬k' = k := fun hh => h hh.symm
      simp [h, h']
  | cons p rest ih =>
    obtain ⟨a, b⟩ := p
    show IdMap.find? (if a = k then _ else _) k' = _
    by_cases hak : a = k
    · subst hak
      by_cases h2 : a = k'
      · subst h2; simp [IdMap.find?]
      · have h2' : ¬k' = a := fun h => h2 h.symm
        simp [IdMap.find?, h2, h2']
    · by_cases h2 : a = k'
      · subst h2
        simp [IdMap.find?, hak]
      · simp [IdMap.find?, hak, h2, ih]

/-! ## Concrete fixture states

The fixture meshes and signpost states spelled out as literals (so that the
kernel can evaluate the library functions on them cheaply), each tied to the
builder by an equation proved by kernel reduction. -/


/-- The tetrahedron fixture, spelled out (see `tetraMesh_built`). -/
def tetraMeshLit : Mesh := { vertices := [(0, { halfedge := some 6, position := (0, 0, 0), isMarked := false }), (1, { halfedge := some 9, position := (1, 0, 0), isMarked := false }), (2, { halfedge := some 11, position := (0, 1, 0), isMarked := false }), (3, { halfedge := some 10, position := (0, 0, 1), isMarked := false })], edges := [(0, { halfedge := 8, length := 1, isInPath := false }), (1, { halfedge := 11, length := 2, isInPath := false }), (2, { halfedge := 3, length := 1, isInPath := false }), (3, { halfedge := 10, length := 2, isInPath := false }), (4, { halfedge := 6, length := 1, isInPath := false }), (5, { halfedge := 9, length := 2, isInPath := false })], halfedges := [(0, { vertex := 1, twin := some 8, next := some 1, prev := some 2, face := some 0, edge := 0 }), (1, { vertex := 2, twin := some 11, next := some 2, prev := some 0, face := some 0, edge := 1 }), (2, { vertex := 0, twin := some 3, next := some 0, prev := some 1, face := some 0, edge := 2 }), (3, { vertex := 2, twin := some 2, next := some 4, prev := some 5, face := some 1, edge := 2 }), (4, { vertex := 3, twin := some 10, next := some 5, prev := some 3, face := some 1, edge := 3 }), (5, { vertex := 0, twin := some 6, next := some 3, prev := some 4, face := some 1, edge := 4 }), (6, { vertex := 3, twin := some 5, next := some 7, prev := some 8, face := some 2, edge := 4 }), (7, { vertex := 1, twin := some 9, next := some 8, prev := some 6, face := some 2, edge := 5 }), (8, { vertex := 0, twin := some 0, next := some 6, prev := some 7, face := some 2, edge := 0 }), (9, { vertex := 3, twin := some 7, next := some 10, prev := some 11, face := some 3, edge := 5 }), (10, { vertex := 2, twin := some 4, next := some 11, prev := some 9, face := some 3, edge := 3 }), (11, { vertex := 1, twin := some 1, next := some 9, prev := some 10, face := some 3, edge := 1 })], faces := [(0, { halfedge := 0 }), (1, { halfedge := 3 }), (2, { halfedge := 6 }), (3, { halfedge := 9 })] }

/-- The signpost state of the tetrahedron fixture at construction, spelled out (see `tetraSd_built`). -/
def tetraSdLit : SignpostState := { signposts := [(6, (3 : Rat)/2), (3, (1 : Rat)/2), (0, 1), (9, (3 : Rat)/2), (8, (1 : Rat)/2), (1, 1), (11, (3 : Rat)/2), (2, (1 : Rat)/2), (4, 1), (10, (3 : Rat)/2), (5, (1 : Rat)/2), (7, 1)], referenceHalfedges := [(0, 6), (1, 9), (2, 11), (3, 10)] }

/-- The planar-quadrilateral fixture, spelled out (see `quadMesh_built`). -/
def quadMeshLit : Mesh := { vertices := [(0, { halfedge := some 3, position := (0, 0, 0), isMarked := false }), (1, { halfedge := some 1, position := (1, 0, 0), isMarked := false }), (2, { halfedge := some 2, position := (1, 1, 0), isMarked := false }), (3, { halfedge := some 5, position := (0, 1, 0), isMarked := false })], edges := [(0, { halfedge := 0, length := 1, isInPath := false }), (1, { halfedge := 1, length := 1, isInPath := false }), (2, { halfedge := 3, length := 2, isInPath := false }), (3, { halfedge := 4, length := 1, isInPath := false }), (4, { halfedge := 5, length := 1, isInPath := false })], halfedges := [(0, { vertex := 1, twin := none, next := some 1, prev := some 2, face := some 0, edge := 0 }), (1, { vertex := 2, twin := none, next := some 2, prev := some 0, face := some 0, edge := 1 }), (2, { vertex := 0, twin := some 3, next := some 0, prev := some 1, face := some 0, edge := 2 }), (3, { vertex := 2, twin := some 2, next := some 4, prev := some 5, face := some 1, edge := 2 }), (4, { vertex := 3, twin := none, next := some 5, prev := some 3, face := some 1, edge := 3 }), (5, { vertex := 0, twin := none, next := some 3, prev := some 4, face := some 1, edge := 4 })], faces := [(0, { halfedge := 0 }), (1, { halfedge := 3 })] }

/-- The single-triangle fixture, spelled out (see `triMesh_built`). -/
def triMeshLit : Mesh := { vertices := [(0, { halfedge := some 0, position := (0, 0, 0), isMarked := false }), (1, { halfedge := some 1, position := (1, 0, 0), isMarked := false }), (2, { halfedge := some 2, position := (0, 1, 0), isMarked := false })], edges := [(0, { halfedge := 0, length := 1, isInPath := false }), (1, { halfedge := 1, length := 2, isInPath := false }), (2, { halfedge := 2, length := 1, isInPath := false })], halfedges := [(0, { vertex := 1, twin := none, next := some 1, prev := some 2, face := some 0, edge := 0 }), (1, { vertex := 2, twin := none, next := some 2, prev := some 0, face := some 0, edge := 1 }), (2, { vertex := 0, twin := none, next := some 0, prev := some 1, face := some 0, edge := 2 })], faces := [(0, { halfedge := 0 })] }

/-- The signpost state of the single-triangle fixture, spelled out (see `triSd_built`). -/
def triSdLit : SignpostState := { signposts := [(0, 0), (1, 0), (2, 0)], referenceHalfedges := [(0, 0), (1, 1), (2, 2)] }

instance {α : Type} [DecidableEq α] : DecidableEq (Except String α) := fun a b =>
  match a, b with
  | .ok x, .ok y => if h : x = y then .isTrue (by rw [h]) else .isFalse (by simp [h])
  | .error x, .error y =>
    if h : x = y then .isTrue (by rw [h]) else .isFalse (by simp [h])
  | .ok _, .error _ => .isFalse (by simp)
  | .error _, .ok _ => .isFalse (by simp)

set_option maxRecDepth 100000 in
theorem tetraMesh_built : buildMesh oracle0 tetraPos tetraIdx = .ok tetraMeshLit := by
  with_unfolding_all decide

set_option maxRecDepth 100000 in
theorem tetraSd_built : initSignposts oracle0 tetraMeshLit = tetraSdLit := by
  with_unfolding_all decide

set_option maxRecDepth 100000 in
theorem quadMesh_built :
    buildMesh oracle0 [(0, 0, 0), (1, 0, 0), (1, 1, 0), (0, 1, 0)]
      [0, 1, 2, 0, 2, 3] = .ok quadMeshLit := by
  with_unfolding_all decide

set_option maxRecDepth 100000 in
theorem triMesh_built :
    buildMesh oracle0 [(0, 0, 0), (1, 0, 0), (0, 1, 0)] [0, 1, 2] =
      .ok triMeshLit := by
  with_unfolding_all decide

set_option maxRecDepth 100000 in
theorem triSd_built : initSignposts oracle0 triMeshLit = triSdLit := by
  with_unfolding_all decide


/-! ## Claim C1 -/

/-- The bent two-edge path `0 – 1 – 2` on the tetrahedron fixture (see
`bentPath_is_mk`). -/
def bentPath : GeodesicPath :=
  { edges := [0, 1], startVertex := 0, endVertex := 2, cachedLength := 3 }

theorem bentPath_is_mk : mkGeodesicPath tetraMeshLit [0, 1] 0 2 = bentPath := by
  with_unfolding_all decide

/-- A path network holding the bent path, with no marked vertices and the
default options. -/
def bentNetwork : Network :=
  { mesh := tetraMeshLit, signpost := tetraSdLit, paths := [bentPath],
    markedVertices := [], maxIterations := 10000, convergenceThreshold := epsTol }

/-- **C1, code bug.**  `findFlexibleJoint` is specified to return the first
unmarked interior vertex whose signpost wedge angle on the canonical side is
`< π − ε`.  On the tetrahedron fixture, vertex 1 is the only interior vertex
of the bent path `0 – 1 – 2`, it is unmarked, and its wedge angle
(`specPathWedgeAngle`, the spec-mandated signpost computation) is `1/2`, far
below `π − ε` — yet `findFlexibleJoint` returns `None`:
`GeodesicPath.getAngleAtVertex` is an unfinished placeholder that returns `π`
unconditionally (its own comment and `docs/implementation-status.md` say the
signpost-based computation is missing), so no vertex ever tests as flexible. -/
theorem C1_findFlexibleJoint_never_finds_candidates :
    pathGetInteriorVertices tetraMeshLit bentPath = .ok [1] ∧
    bentNetwork.markedVertices = [] ∧
    specPathWedgeAngle tetraMeshLit tetraSdLit bentPath 1 1 = some (1 / 2) ∧
    (1 / 2 : ℚ) < mathPi - epsTol ∧
    pathGetAngleAtVertex tetraMeshLit bentPath 1 = .ok mathPi ∧
    findFlexibleJoint bentNetwork = .ok none := by
  refine ⟨by with_unfolding_all rfl, rfl, by with_unfolding_all decide,
    by with_unfolding_all decide, by with_unfolding_all rfl,
    by with_unfolding_all rfl⟩

/-! ## Claim C3 -/

set_option maxRecDepth 10000 in
/-- **C3, code bug.**  The spec (and the source's own field documentation and
unit test `should return 0 for reference halfedge`) require that after
`computeSignpostsAtVertex` the reference halfedge of every vertex stores
angle exactly 0.  On the tetrahedron fixture the fan walk of vertex 0 wraps
around and re-records the accumulated total fan angle (here `3 · (1/2) = 3/2`
with the fixture oracle, one face angle per fan face) for the reference
halfedge 6, overwriting its initial 0; angles are never reduced modulo 2π. -/
theorem C3_reference_signpost_angle_overwritten :
    (initSignposts oracle0 tetraMeshLit).referenceHalfedges.find? 0 = some 6 ∧
    (initSignposts oracle0 tetraMeshLit).signposts.find? 6 = some (3 / 2) ∧
    (3 / 2 : ℚ) ≠ 0 := by
  rw [tetraSd_built]
  exact ⟨by with_unfolding_all rfl, by with_unfolding_all decide,
    by with_unfolding_all decide⟩

/-! ## Claim C6 -/

set_option maxRecDepth 10000 in
/-- **C6, code bug.**  For any two outgoing halfedges of a vertex the spec
requires `getAngleBetween(h₁, h₂) + getAngleBetween(h₂, h₁) = 2π` (within
`10⁻⁵`).  On the tetrahedron fixture, halfedges 6 and 3 both have source
vertex 0 and recorded signpost angles, but `getAngleBetween` throws either
way round and no sum is produced at all: the source guards with
`from.vertex.id !== to.vertex.id`, which compares the TARGET vertices of the
two halfedges, so it rejects every pair of distinct outgoing halfedges (the
unit test expects a `must share a source vertex` check instead). -/
theorem C6_getAngleBetween_throws_for_outgoing_pairs :
    ((tetraMeshLit.halfedges.find? 6).map tetraMeshLit.sourceVertex =
      some (some 0)) ∧
    ((tetraMeshLit.halfedges.find? 3).map tetraMeshLit.sourceVertex =
      some (some 0)) ∧
    (getAngle tetraSdLit 6).isSome = true ∧
    (getAngle tetraSdLit 3).isSome = true ∧
    getAngleBetween tetraMeshLit tetraSdLit 6 3 = none ∧
    getAngleBetween tetraMeshLit tetraSdLit 3 6 = none := by
  refine ⟨by with_unfolding_all rfl, by with_unfolding_all rfl,
    by with_unfolding_all rfl, by with_unfolding_all rfl,
    by with_unfolding_all rfl, by with_unfolding_all rfl⟩

/-! ## Claim C2 and Claim C7 -/

theorem pathGetAngleAtVertex_ok_eq (m : Mesh) (p : GeodesicPath) (v : ℕ) (a : ℚ)
    (h : pathGetAngleAtVertex m p v = .ok a) : a = mathPi := by
  simp only [pathGetAngleAtVertex, bind, Except.bind] at h
  cases hvi : pathGetVertexIndex m p v with
  | error e => rw [hvi] at h; exact absurd h (by simp)
  | ok idx? =>
    rw [hvi] at h
    cases idx? with
    | none => exact absurd h (by simp)
    | some index =>
      simp only at h
      split at h
      · exact absurd h (by simp)
      · split at h
        · exact absurd h (by simp)
        · split at h
          · exact absurd h (by simp)
          · simp only [pure, Except.pure, Except.ok.injEq] at h
            exact h.symm

theorem isLocallyGeodesic_always_true (m : Mesh) (p : GeodesicPath) (v : ℕ) :
    isLocallyGeodesic m p v = true := by
  unfold isLocallyGeodesic
  cases h : pathGetAngleAtVertex m p v with
  | error e => rfl
  | ok a =>
    have := pathGetAngleAtVertex_ok_eq m p v a h
    subst this
    simp only [decide_eq_true_eq]
    have : (0 : ℚ) ≤ epsTol := by norm_num [epsTol]
    linarith

theorem findFlexibleInPath_ok_none (m : Mesh) (marked : List ℕ)
    (p : GeodesicPath) (h : (pathGetVertices m p).isOk = true) :
    findFlexibleInPath m marked p = .ok none := by
  obtain ⟨vs, hvs⟩ : ∃ vs, pathGetVertices m p = .ok vs := by
    cases hv : pathGetVertices m p with
    | error e => rw [hv] at h; exact absurd h (by simp [Except.isOk, Except.toBool])
    | ok vs => exact ⟨vs, rfl⟩
  simp only [findFlexibleInPath, pathGetInteriorVertices, bind, Except.bind, hvs]
  simp only [pure, Except.pure, Except.ok.injEq]
  apply List.find?_eq_none.mpr
  intro x _
  simp [isLocallyGeodesic_always_true]

theorem findFlexibleJoint_ok_none (n : Network)
    (h : ∀ p ∈ n.paths, (pathGetVertices n.mesh p).isOk = true) :
    findFlexibleJoint n = .ok none := by
  unfold findFlexibleJoint
  have : ∀ (ps : List GeodesicPath), (∀ p ∈ ps, (pathGetVertices n.mesh p).isOk = true) →
      ps.foldlM
        (fun acc p =>
          match acc with
          | some v => pure (some v)
          | none => findFlexibleInPath n.mesh n.markedVertices p)
        (none : Option ℕ) = .ok none := by
    intro ps
    induction ps with
    | nil => intro _; rfl
    | cons q rest ih =>
      intro hall
      simp only [List.foldlM]
      rw [findFlexibleInPath_ok_none n.mesh n.markedVertices q (hall q (by simp))]
      simp only [bind, Except.bind]
      exact ih (fun p hp => hall p (by simp [hp]))
  exact this n.paths h

/-- **C2, corrected.**  `isLocallyGeodesic` is indeed `true` at every vertex
of every path on every mesh state (the angle is the placeholder `π` or a
caught exception), and whenever every path's vertex walk succeeds,
`iterativeShorten` performs zero iterations, returns 0 and leaves the whole
network (mesh, signposts, paths, marks) unchanged.  The walk hypothesis is
necessary: a path through an edge whose representative halfedge has no twin
makes `getVertices` throw and `iterativeShorten` propagates the exception
instead of returning — see the counterexample. -/
theorem C2_iterativeShorten_zero_iterations (O : Oracle) (n : Network)
    (h : ∀ p ∈ n.paths, (pathGetVertices n.mesh p).isOk = true) :
    (∀ p v, isLocallyGeodesic n.mesh p v = true) ∧
    iterativeShorten O n = .ok (0, n) := by
  refine ⟨fun p v => isLocallyGeodesic_always_true n.mesh p v, ?_⟩
  unfold iterativeShorten
  cases hm : n.maxIterations with
  | zero => rfl
  | succ k =>
    unfold shortenLoop
    rw [findFlexibleJoint_ok_none n h]
    rfl

set_option maxRecDepth 10000 in
theorem C2_witness :
    (∀ p ∈ bentNetwork.paths, (pathGetVertices bentNetwork.mesh p).isOk = true) ∧
    iterativeShorten oracle0 bentNetwork = .ok (0, bentNetwork) := by
  have h : ∀ p ∈ bentNetwork.paths, (pathGetVertices bentNetwork.mesh p).isOk = true := by
    with_unfolding_all decide
  exact ⟨h, (C2_iterativeShorten_zero_iterations oracle0 bentNetwork h).2⟩

theorem shortenLoop_error (O : Oracle) (th : ℚ) (fuel it : ℕ) (len : ℚ)
    (st : Network) (msg : String)
    (h : findFlexibleJoint st = .error msg) :
    shortenLoop O th (fuel + 1) it len st = .error msg := by
  unfold shortenLoop
  rw [h]
  rfl

/-- The one-edge path along the boundary edge `(0, 1)` of the single
triangle. -/
def triPath : GeodesicPath :=
  { edges := [0], startVertex := 0, endVertex := 1, cachedLength := 1 }

theorem triPath_is_mk : mkGeodesicPath triMeshLit [0] 0 1 = triPath := by
  with_unfolding_all decide

/-- A network holding `triPath` (reachable through
`fromDijkstraPath(0, 1)` on the single-triangle mesh). -/
def triNetwork : Network :=
  { mesh := triMeshLit, signpost := triSdLit, paths := [triPath],
    markedVertices := [], maxIterations := 10000, convergenceThreshold := epsTol }

/-- **C2, counterexample.**  On the single-triangle mesh every edge is a
boundary edge (its halfedge has no twin), so `GeodesicPath.getVertices`
throws `Edge has invalid vertices`; `findFlexibleJoint` does not catch it and
`iterativeShorten` propagates the exception instead of performing zero
iterations and returning 0. -/
theorem C2_counterexample_shorten_throws :
    iterativeShorten oracle0 triNetwork = .error "Edge has invalid vertices" := by
  have h : findFlexibleJoint triNetwork = .error "Edge has invalid vertices" := by
    with_unfolding_all rfl
  show shortenLoop oracle0 triNetwork.convergenceThreshold
    triNetwork.maxIterations 0 (networkGetLength triNetwork) triNetwork = _
  rw [show triNetwork.maxIterations = 9999 + 1 from rfl]
  exact shortenLoop_error _ _ _ _ _ _ _ h

/-- **C7, amended.**  `GeodesicLoop` construction validates exactly three
conditions — at least 3 edges, first edge incident to the base vertex, last
edge incident to the base vertex — and nothing else; in particular it does
NOT check that consecutive edges share a vertex. -/
theorem C7_loop_validation_characterization (m : Mesh) (edges : List ℕ)
    (base : ℕ) (fe le : EdgeRec) (a b c d : ℕ)
    (hfe : m.edges.find? (edges.headD 0) = some fe)
    (hfv : m.edgeVertices fe = some (a, b))
    (hle : m.edges.find? (edges.getLast?.getD 0) = some le)
    (hlv : m.edgeVertices le = some (c, d)) :
    (geodesicLoopMk m edges base).isOk = true ↔
      (3 ≤ edges.length ∧ (a = base ∨ b = base) ∧ (c = base ∨ d = base)) := by
  unfold geodesicLoopMk
  by_cases hlen : edges.length < 3
  · simp [hlen, Except.isOk, Except.toBool]
    try omega
  · have h3 : 3 ≤ edges.length := by omega
    match edges, hfe, hle, h3, hlen with
    | first :: rest, hfe, hle, h3, hlen =>
      simp only [List.headD] at hfe
      have h4 : 2 ≤ rest.length := by
        simp only [List.length_cons] at h3
        omega
      simp only [if_neg hlen, hfe, hfv, hle, hlv]
      by_cases ha : a = base <;> by_cases hb : b = base <;>
        by_cases hc : c = base <;> by_cases hd : d = base <;>
          simp [ha, hb, hc, hd, Except.isOk, Except.toBool, pure, Except.pure, h4]

/-- **C7, counterexample.**  The edge sequence `(0,1), (2,3), (0,3)` on the
tetrahedron fixture has three edges whose first and last edges touch the base
vertex 0, but whose first two edges share no vertex — yet the `GeodesicLoop`
constructor accepts it: consecutive-edge adjacency is never validated. -/
theorem C7_counterexample_disconnected_loop_accepted :
    geodesicLoopMk tetraMeshLit [0, 3, 4] 0 =
      .ok { edges := [0, 3, 4], baseVertex := 0, cachedLength := 4 } ∧
    ((tetraMeshLit.edges.find? 0).bind tetraMeshLit.edgeVertices = some (1, 0) ∧
     (tetraMeshLit.edges.find? 3).bind tetraMeshLit.edgeVertices = some (3, 2)) := by
  exact ⟨by with_unfolding_all rfl, by with_unfolding_all rfl,
    by with_unfolding_all rfl⟩

set_option maxRecDepth 10000 in
theorem C7_witness :
    (geodesicLoopMk tetraMeshLit [1, 3, 5] 1).isOk = true ↔
      (3 ≤ ([1, 3, 5] : List ℕ).length ∧ ((2 : ℕ) = 1 ∨ (1 : ℕ) = 1) ∧
        ((1 : ℕ) = 1 ∨ (3 : ℕ) = 1)) := by
  exact C7_loop_validation_characterization tetraMeshLit [1, 3, 5] 1
    { halfedge := 11, length := 2, isInPath := false }
    { halfedge := 9, length := 2, isInPath := false }
    2 1 1 3 (by with_unfolding_all rfl) (by with_unfolding_all rfl)
    (by with_unfolding_all rfl) (by with_unfolding_all rfl)

theorem flipEdge_of_canFlip_false (O : Oracle) (m : Mesh) (eid : ℕ)
    (e : EdgeRec) (h1 : m.edges.find? eid = some e)
    (h2 : m.canFlip e = some false) :
    flipEdge O m eid = some (false, m) := by
  simp [flipEdge, h1, h2, pure]

theorem flipEdge_false_unchanged (O : Oracle) (m : Mesh) (eid : ℕ) (b : Bool)
    (m' : Mesh) (h : flipEdge O m eid = some (b, m')) (hb : b = false) :
    m' = m := by
  subst hb
  simp only [flipEdge, Option.bind_eq_bind] at h
  cases h1 : m.edges.find? eid with
  | none => rw [h1] at h; simp at h
  | some e =>
    rw [h1] at h
    simp only [Option.some_bind] at h
    cases h2 : m.canFlip e with
    | none => rw [h2] at h; simp at h
    | some cf =>
      rw [h2] at h
      simp only [Option.some_bind] at h
      by_cases hcf : cf = true
      · subst hcf
        simp only [Bool.not_true, Bool.false_eq_true, if_false] at h
        cases h3 : flipEdgeReads m e with
        | none => rw [h3] at h; simp at h
        | some r? =>
          rw [h3] at h
          simp only [Option.some_bind] at h
          cases r? with
          | none =>
            simp only [pure, Option.pure_def, Option.some.injEq, Prod.mk.injEq] at h
            exact h.2.symm
          | some r =>
            simp only [pure, Option.pure_def, Option.some.injEq, Prod.mk.injEq] at h
            exact absurd h.1 (by simp)
      · have : cf = false := by simpa using hcf
        subst this
        simp only [Bool.not_false, if_true, pure, Option.pure_def,
          Option.some.injEq, Prod.mk.injEq] at h
        exact h.2.symm

theorem canFlip_of_boundary (m : Mesh) (e : EdgeRec)
    (hb : m.edgeIsBoundary e = true) : m.canFlip e = some false := by
  simp [Mesh.canFlip, hb, pure]

theorem edgeIsBoundary_of_face_none (m : Mesh) (e : EdgeRec)
    (he : HalfedgeRec) (h1 : m.halfedges.find? e.halfedge = some he)
    (h2 : he.face = none) : m.edgeIsBoundary e = true := by
  simp [Mesh.edgeIsBoundary, h1, h2]

theorem edgeIsBoundary_of_twin_face_none (m : Mesh) (e : EdgeRec)
    (he tw : HalfedgeRec) (t : ℕ) (h1 : m.halfedges.find? e.halfedge = some he)
    (h2 : he.twin = some t) (h3 : m.halfedges.find? t = some tw)
    (h4 : tw.face = none) : m.edgeIsBoundary e = true := by
  simp [Mesh.edgeIsBoundary, h1, h2, h3, h4]

theorem canFlip_of_no_twin (m : Mesh) (e : EdgeRec) (he : HalfedgeRec)
    (h1 : m.halfedges.find? e.halfedge = some he) (h2 : he.twin = none) :
    m.canFlip e = some false := by
  by_cases hb : m.edgeIsBoundary e = true
  · exact canFlip_of_boundary m e hb
  · have hv : m.edgeVertices e = none := by
      simp [Mesh.edgeVertices, Mesh.sourceVertex, h1, h2]
    simp [Mesh.canFlip, hv, hb, pure]

theorem canFlip_of_low_degree (m : Mesh) (e : EdgeRec) (v0 v1 : ℕ)
    (r0 r1 : VertexRec) (d0 d1 : ℕ)
    (hnb : m.edgeIsBoundary e = false)
    (hv : m.edgeVertices e = some (v0, v1))
    (h0 : m.vertices.find? v0 = some r0) (h1 : m.vertices.find? v1 = some r1)
    (hd0 : m.degree r0 = some (some d0)) (hd1 : m.degree r1 = some (some d1))
    (hlow : d0 ≤ 1 ∨ d1 ≤ 1) : m.canFlip e = some false := by
  simp only [Mesh.canFlip, hnb, Bool.false_eq_true, if_false, hv, h0, h1,
    Option.bind_eq_bind, hd0, Option.some_bind, hd1, pure, Option.pure_def,
    Option.some.injEq]
  rcases hlow with hl | hl
  · have : ¬(1 < d0) := by omega
    simp [this]
  · have : ¬(1 < d1) := by omega
    simp [this]

/-- C5: `flipEdge` returns false whenever the edge is a boundary edge (its halfedge
has no incident face, no twin, or the twin has no incident face) or an endpoint has
degree ≤ 1, and whenever it returns false the mesh is returned completely unchanged
(the flip is transactional). -/
theorem C5_flipEdge_false_is_transactional (O : Oracle) (m : Mesh) (eid : ℕ)
    (e : EdgeRec) (he : HalfedgeRec)
    (h1 : m.edges.find? eid = some e)
    (h2 : m.halfedges.find? e.halfedge = some he) :
    (he.face = none → flipEdge O m eid = some (false, m))
    ∧ (he.twin = none → flipEdge O m eid = some (false, m))
    ∧ (∀ t tw, he.twin = some t → m.halfedges.find? t = some tw → tw.face = none →
        flipEdge O m eid = some (false, m))
    ∧ (∀ v0 v1 r0 r1 d0 d1, m.edgeIsBoundary e = false →
        m.edgeVertices e = some (v0, v1) →
        m.vertices.find? v0 = some r0 → m.vertices.find? v1 = some r1 →
        m.degree r0 = some (some d0) → m.degree r1 = some (some d1) →
        (d0 ≤ 1 ∨ d1 ≤ 1) → flipEdge O m eid = some (false, m))
    ∧ (∀ m', flipEdge O m eid = some (false, m') → m' = m) := by
  refine ⟨?_, ?_, ?_, ?_, ?_⟩
  · intro hf
    exact flipEdge_of_canFlip_false O m eid e h1
      (canFlip_of_boundary m e (edgeIsBoundary_of_face_none m e he h2 hf))
  · intro ht
    exact flipEdge_of_canFlip_false O m eid e h1 (canFlip_of_no_twin m e he h2 ht)
  · intro t tw ht htw hf
    exact flipEdge_of_canFlip_false O m eid e h1
      (canFlip_of_boundary m e (edgeIsBoundary_of_twin_face_none m e he tw t h2 ht htw hf))
  · intro v0 v1 r0 r1 d0 d1 hnb hv hv0 hv1 hd0 hd1 hlow
    exact flipEdge_of_canFlip_false O m eid e h1
      (canFlip_of_low_degree m e v0 v1 r0 r1 d0 d1 hnb hv hv0 hv1 hd0 hd1 hlow)
  · intro m' h
    exact flipEdge_false_unchanged O m eid false m' h rfl

/-- Witness for C5 on the single boundary triangle: edge 0's halfedge has no twin,
so `flipEdge` returns false with the mesh unchanged. -/
theorem C5_witness : flipEdge oracle0 triMeshLit 0 = some (false, triMeshLit) := by
  have h := C5_flipEdge_false_is_transactional oracle0 triMeshLit 0
    { halfedge := 0, length := 1, isInPath := false }
    { vertex := 1, twin := none, next := some 1, prev := some 2, face := some 0, edge := 0 }
    (by with_unfolding_all decide) (by with_unfolding_all decide)
  exact h.2.1 rfl
theorem flipEdge_true_eq (O : Oracle) (m : Mesh) (eid : ℕ) (e : EdgeRec)
    (r : FlipReads) (h1 : m.edges.find? eid = some e)
    (h2 : m.canFlip e = some true) (h3 : flipEdgeReads m e = some (some r)) :
    flipEdge O m eid = some (true,
      flipEdgeApply (O.sqrtFn (sqDist r.rC.position r.rD.position)) m eid
        e.halfedge r.twinId r.hNextId r.hPrevId r.hTwinNextId r.hTwinPrevId
        r.vA r.vB r.vC r.vD r.f0 r.f1) := by
  simp [flipEdge, h1, h2, h3, pure]

theorem flipVerticesApply_find? (vs : IdMap VertexRec)
    (hId twinId hNextId hTwinNextId vA vB : ℕ) (RA RB : VertexRec)
    (hva : vs.find? vA = some RA) (hvb : vs.find? vB = some RB)
    (hvab : vA ≠ vB) :
    (flipVerticesApply vs hId twinId hNextId hTwinNextId vA vB).find? vA =
      some (if RA.halfedge = some hId
            then { RA with halfedge := some hTwinNextId } else RA)
    ∧ (flipVerticesApply vs hId twinId hNextId hTwinNextId vA vB).find? vB =
      some (if RB.halfedge = some twinId
            then { RB with halfedge := some hNextId } else RB)
    ∧ (∀ k, k ≠ vA → k ≠ vB →
        (flipVerticesApply vs hId twinId hNextId hTwinNextId vA vB).find? k =
          vs.find? k) := by
  refine ⟨?_, ?_, fun k k1 k2 => ?_⟩
  · by_cases hA : RA.halfedge = some hId <;>
      by_cases hB : RB.halfedge = some twinId <;>
      simp [flipVerticesApply, setVxHalfedge, IdMap.find?_updatek, hva, hvb,
        hA, hB, hvab, Ne.symm hvab]
  · by_cases hA : RA.halfedge = some hId <;>
      by_cases hB : RB.halfedge = some twinId <;>
      simp [flipVerticesApply, setVxHalfedge, IdMap.find?_updatek, hva, hvb,
        hA, hB, hvab, Ne.symm hvab]
  · by_cases hA : RA.halfedge = some hId <;>
      by_cases hB : RB.halfedge = some twinId <;>
      simp [flipVerticesApply, setVxHalfedge, IdMap.find?_updatek, hva, hvb,
        hA, hB, hvab, Ne.symm hvab, k1, k2]

theorem flipHalfedgesApply_find?_h (hs : IdMap HalfedgeRec)
    (hId tI nI pI tnI tpI vC vD f0 f1 : ℕ) (h : HalfedgeRec)
    (hh : hs.find? hId = some h)
    (ne1 : hId ≠ tI) (ne2 : hId ≠ nI) (ne3 : hId ≠ pI)
    (ne4 : hId ≠ tnI) (ne5 : hId ≠ tpI) :
    (flipHalfedgesApply hs hId tI nI pI tnI tpI vC vD f0 f1).find? hId =
      some { h with vertex := vD, next := some tpI, prev := some nI,
                    face := some f0 } := by
  simp [flipHalfedgesApply, setHeVertex, setHeNext, setHePrev, setHeFace,
    IdMap.find?_updatek, ne1, ne2, ne3, ne4, ne5,
    Ne.symm ne1, Ne.symm ne2, Ne.symm ne3, Ne.symm ne4, Ne.symm ne5, hh]

theorem flipHalfedgesApply_find?_twin (hs : IdMap HalfedgeRec)
    (hId tI nI pI tnI tpI vC vD f0 f1 : ℕ) (hTwin : HalfedgeRec)
    (hht : hs.find? tI = some hTwin)
    (ne1 : hId ≠ tI) (ne6 : tI ≠ nI) (ne7 : tI ≠ pI)
    (ne8 : tI ≠ tnI) (ne9 : tI ≠ tpI) :
    (flipHalfedgesApply hs hId tI nI pI tnI tpI vC vD f0 f1).find? tI =
      some { hTwin with vertex := vC, next := some pI, prev := some tnI,
                        face := some f1 } := by
  simp [flipHalfedgesApply, setHeVertex, setHeNext, setHePrev, setHeFace,
    IdMap.find?_updatek, ne6, ne7, ne8, ne9,
    Ne.symm ne1, Ne.symm ne6, Ne.symm ne7, Ne.symm ne8, Ne.symm ne9, hht]

theorem flipHalfedgesApply_find?_next (hs : IdMap HalfedgeRec)
    (hId tI nI pI tnI tpI vC vD f0 f1 : ℕ) (hNext : HalfedgeRec)
    (hhn : hs.find? nI = some hNext)
    (ne2 : hId ≠ nI) (ne6 : tI ≠ nI) (ne10 : nI ≠ pI)
    (ne11 : nI ≠ tnI) (ne12 : nI ≠ tpI) :
    (flipHalfedgesApply hs hId tI nI pI tnI tpI vC vD f0 f1).find? nI =
      some { hNext with next := some hId, prev := some tpI,
                        face := some f0 } := by
  simp [flipHalfedgesApply, setHeVertex, setHeNext, setHePrev, setHeFace,
    IdMap.find?_updatek, ne10, ne11, ne12,
    Ne.symm ne2, Ne.symm ne6, Ne.symm ne10, Ne.symm ne11, Ne.symm ne12, hhn]

theorem flipHalfedgesApply_find?_prev (hs : IdMap HalfedgeRec)
    (hId tI nI pI tnI tpI vC vD f0 f1 : ℕ) (hPrev : HalfedgeRec)
    (hhp : hs.find? pI = some hPrev)
    (ne3 : hId ≠ pI) (ne7 : tI ≠ pI) (ne10 : nI ≠ pI)
    (ne13 : pI ≠ tnI) (ne14 : pI ≠ tpI) :
    (flipHalfedgesApply hs hId tI nI pI tnI tpI vC vD f0 f1).find? pI =
      some { hPrev with next := some tnI, prev := some tI,
                        face := some f1 } := by
  simp [flipHalfedgesApply, setHeVertex, setHeNext, setHePrev, setHeFace,
    IdMap.find?_updatek, ne13, ne14,
    Ne.symm ne3, Ne.symm ne7, Ne.symm ne10, Ne.symm ne13, Ne.symm ne14, hhp]

theorem flipHalfedgesApply_find?_twinNext (hs : IdMap HalfedgeRec)
    (hId tI nI pI tnI tpI vC vD f0 f1 : ℕ) (hTwinNext : HalfedgeRec)
    (hhtn : hs.find? tnI = some hTwinNext)
    (ne4 : hId ≠ tnI) (ne8 : tI ≠ tnI) (ne11 : nI ≠ tnI)
    (ne13 : pI ≠ tnI) (ne15 : tnI ≠ tpI) :
    (flipHalfedgesApply hs hId tI nI pI tnI tpI vC vD f0 f1).find? tnI =
      some { hTwinNext with next := some tI, prev := some pI,
                            face := some f1 } := by
  simp [flipHalfedgesApply, setHeVertex, setHeNext, setHePrev, setHeFace,
    IdMap.find?_updatek, ne15,
    Ne.symm ne4, Ne.symm ne8, Ne.symm ne11, Ne.symm ne13, Ne.symm ne15, hhtn]

theorem flipHalfedgesApply_find?_twinPrev (hs : IdMap HalfedgeRec)
    (hId tI nI pI tnI tpI vC vD f0 f1 : ℕ) (hTwinPrev : HalfedgeRec)
    (hhtp : hs.find? tpI = some hTwinPrev)
    (ne5 : hId ≠ tpI) (ne9 : tI ≠ tpI) (ne12 : nI ≠ tpI)
    (ne14 : pI ≠ tpI) (ne15 : tnI ≠ tpI) :
    (flipHalfedgesApply hs hId tI nI pI tnI tpI vC vD f0 f1).find? tpI =
      some { hTwinPrev with next := some nI, prev := some hId,
                            face := some f0 } := by
  simp [flipHalfedgesApply, setHeVertex, setHeNext, setHePrev, setHeFace,
    IdMap.find?_updatek,
    Ne.symm ne5, Ne.symm ne9, Ne.symm ne12, Ne.symm ne14, Ne.symm ne15, hhtp]

theorem flipHalfedgesApply_find?_frame (hs : IdMap HalfedgeRec)
    (hId tI nI pI tnI tpI vC vD f0 f1 : ℕ) (k : ℕ)
    (k1 : k ≠ hId) (k2 : k ≠ tI) (k3 : k ≠ nI) (k4 : k ≠ pI)
    (k5 : k ≠ tnI) (k6 : k ≠ tpI) :
    (flipHalfedgesApply hs hId tI nI pI tnI tpI vC vD f0 f1).find? k =
      hs.find? k := by
  simp [flipHalfedgesApply, setHeVertex, setHeNext, setHePrev, setHeFace,
    IdMap.find?_updatek, k1, k2, k3, k4, k5, k6]

theorem flipFacesApply_find? (fs : IdMap FaceRec) (hId tI f0 f1 : ℕ)
    (F0 F1 : FaceRec) (hf0 : fs.find? f0 = some F0)
    (hf1 : fs.find? f1 = some F1) (hff : f0 ≠ f1) :
    (flipFacesApply fs hId tI f0 f1).find? f0 = some { F0 with halfedge := hId }
    ∧ (flipFacesApply fs hId tI f0 f1).find? f1 =
        some { F1 with halfedge := tI }
    ∧ (∀ k, k ≠ f0 → k ≠ f1 → (flipFacesApply fs hId tI f0 f1).find? k =
        fs.find? k) := by
  refine ⟨?_, ?_, fun k k1 k2 => ?_⟩
  · simp [flipFacesApply, IdMap.find?_updatek, hff, Ne.symm hff, hf0]
  · simp [flipFacesApply, IdMap.find?_updatek, Ne.symm hff, hf1]
  · simp [flipFacesApply, IdMap.find?_updatek, k1, k2]

theorem flipEdgeApply_edges (L : ℚ) (m : Mesh)
    (eid hId tI nI pI tnI tpI vA vB vC vD f0 f1 : ℕ) :
    (flipEdgeApply L m eid hId tI nI pI tnI tpI vA vB vC vD f0 f1).edges =
      m.edges.updatek (fun e => { e with length := L }) eid := by
  simp only [flipEdgeApply]

theorem flipEdgeApply_halfedges (L : ℚ) (m : Mesh)
    (eid hId tI nI pI tnI tpI vA vB vC vD f0 f1 : ℕ) :
    (flipEdgeApply L m eid hId tI nI pI tnI tpI vA vB vC vD f0 f1).halfedges =
      flipHalfedgesApply m.halfedges hId tI nI pI tnI tpI vC vD f0 f1 := by
  simp only [flipEdgeApply]

theorem flipEdgeApply_faces (L : ℚ) (m : Mesh)
    (eid hId tI nI pI tnI tpI vA vB vC vD f0 f1 : ℕ) :
    (flipEdgeApply L m eid hId tI nI pI tnI tpI vA vB vC vD f0 f1).faces =
      flipFacesApply m.faces hId tI f0 f1 := by
  simp only [flipEdgeApply]

theorem flipEdgeApply_vertices (L : ℚ) (m : Mesh)
    (eid hId tI nI pI tnI tpI vA vB vC vD f0 f1 : ℕ) :
    (flipEdgeApply L m eid hId tI nI pI tnI tpI vA vB vC vD f0 f1).vertices =
      flipVerticesApply m.vertices hId tI nI tnI vA vB := by
  simp only [flipEdgeApply]

attribute [irreducible] flipHalfedgesApply flipFacesApply flipVerticesApply


/-- C4: whenever `flipEdge` succeeds on edge `E`, the post-state is the
canonical halfedge flip of the surrounding quadrilateral: `E` now connects the
two far vertices `C` and `D`, its length is the oracle square root of the
squared Euclidean distance between the extrinsic positions of `C` and `D`, the
six surrounding halfedges are re-linked into the two new triangle cycles, the
two faces and the former endpoints `A`, `B` get representative halfedges
incident to them again, and every other vertex, edge, halfedge and face record
is unchanged. -/
theorem C4_flipEdge_success_poststate (O : Oracle) (m : Mesh) (eid : ℕ)
    (e : EdgeRec) (r : FlipReads)
    (h hTwin hNext hPrev hTwinNext hTwinPrev : HalfedgeRec)
    (F0 F1 : FaceRec) (RA RB : VertexRec)
    (h1 : m.edges.find? eid = some e)
    (h2 : m.canFlip e = some true)
    (h3 : flipEdgeReads m e = some (some r))
    (hh : m.halfedges.find? e.halfedge = some h)
    (hht : m.halfedges.find? r.twinId = some hTwin)
    (hhn : m.halfedges.find? r.hNextId = some hNext)
    (hhp : m.halfedges.find? r.hPrevId = some hPrev)
    (hhtn : m.halfedges.find? r.hTwinNextId = some hTwinNext)
    (hhtp : m.halfedges.find? r.hTwinPrevId = some hTwinPrev)
    (hf0 : m.faces.find? r.f0 = some F0)
    (hf1 : m.faces.find? r.f1 = some F1)
    (hva : m.vertices.find? r.vA = some RA)
    (hvb : m.vertices.find? r.vB = some RB)
    (htw : h.twin = some r.twinId)
    (ne1 : e.halfedge ≠ r.twinId) (ne2 : e.halfedge ≠ r.hNextId)
    (ne3 : e.halfedge ≠ r.hPrevId) (ne4 : e.halfedge ≠ r.hTwinNextId)
    (ne5 : e.halfedge ≠ r.hTwinPrevId) (ne6 : r.twinId ≠ r.hNextId)
    (ne7 : r.twinId ≠ r.hPrevId) (ne8 : r.twinId ≠ r.hTwinNextId)
    (ne9 : r.twinId ≠ r.hTwinPrevId) (ne10 : r.hNextId ≠ r.hPrevId)
    (ne11 : r.hNextId ≠ r.hTwinNextId) (ne12 : r.hNextId ≠ r.hTwinPrevId)
    (ne13 : r.hPrevId ≠ r.hTwinNextId) (ne14 : r.hPrevId ≠ r.hTwinPrevId)
    (ne15 : r.hTwinNextId ≠ r.hTwinPrevId)
    (hff : r.f0 ≠ r.f1) (hvab : r.vA ≠ r.vB) :
    ∃ m' : Mesh,
      flipEdge O m eid = some (true, m')
      ∧ m'.edges.find? eid =
          some { halfedge := e.halfedge,
                 length := O.sqrtFn (sqDist r.rC.position r.rD.position),
                 isInPath := e.isInPath }
      ∧ m'.edgeVertices
          { halfedge := e.halfedge,
            length := O.sqrtFn (sqDist r.rC.position r.rD.position),
            isInPath := e.isInPath } = some (r.vC, r.vD)
      ∧ m'.halfedges.find? e.halfedge =
          some { h with vertex := r.vD, next := some r.hTwinPrevId,
                        prev := some r.hNextId, face := some r.f0 }
      ∧ m'.halfedges.find? r.twinId =
          some { hTwin with vertex := r.vC, next := some r.hPrevId,
                            prev := some r.hTwinNextId, face := some r.f1 }
      ∧ m'.halfedges.find? r.hNextId =
          some { hNext with next := some e.halfedge,
                            prev := some r.hTwinPrevId, face := some r.f0 }
      ∧ m'.halfedges.find? r.hTwinPrevId =
          some { hTwinPrev with next := some r.hNextId,
                                prev := some e.halfedge, face := some r.f0 }
      ∧ m'.halfedges.find? r.hPrevId =
          some { hPrev with next := some r.hTwinNextId,
                            prev := some r.twinId, face := some r.f1 }
      ∧ m'.halfedges.find? r.hTwinNextId =
          some { hTwinNext with next := some r.twinId,
                                prev := some r.hPrevId, face := some r.f1 }
      ∧ m'.faces.find? r.f0 = some { F0 with halfedge := e.halfedge }
      ∧ m'.faces.find? r.f1 = some { F1 with halfedge := r.twinId }
      ∧ m'.vertices.find? r.vA =
          some (if RA.halfedge = some e.halfedge
                then { RA with halfedge := some r.hTwinNextId } else RA)
      ∧ m'.vertices.find? r.vB =
          some (if RB.halfedge = some r.twinId
                then { RB with halfedge := some r.hNextId } else RB)
      ∧ (∀ k, k ≠ eid → m'.edges.find? k = m.edges.find? k)
      ∧ (∀ k, k ≠ e.halfedge → k ≠ r.twinId → k ≠ r.hNextId → k ≠ r.hPrevId →
          k ≠ r.hTwinNextId → k ≠ r.hTwinPrevId →
          m'.halfedges.find? k = m.halfedges.find? k)
      ∧ (∀ k, k ≠ r.f0 → k ≠ r.f1 → m'.faces.find? k = m.faces.find? k)
      ∧ (∀ k, k ≠ r.vA → k ≠ r.vB → m'.vertices.find? k = m.vertices.find? k)
    := by
  have vx := flipVerticesApply_find? m.vertices e.halfedge r.twinId r.hNextId
    r.hTwinNextId r.vA r.vB RA RB hva hvb hvab
  have fc := flipFacesApply_find? m.faces e.halfedge r.twinId r.f0 r.f1 F0 F1
    hf0 hf1 hff
  have hA := flipHalfedgesApply_find?_h m.halfedges e.halfedge r.twinId
    r.hNextId r.hPrevId r.hTwinNextId r.hTwinPrevId r.vC r.vD r.f0 r.f1 h hh
    ne1 ne2 ne3 ne4 ne5
  have hB := flipHalfedgesApply_find?_twin m.halfedges e.halfedge r.twinId
    r.hNextId r.hPrevId r.hTwinNextId r.hTwinPrevId r.vC r.vD r.f0 r.f1 hTwin
    hht ne1 ne6 ne7 ne8 ne9
  refine ⟨_, flipEdge_true_eq O m eid e r h1 h2 h3,
    ?_, ?_, ?_, ?_, ?_, ?_, ?_, ?_, ?_, ?_, ?_, ?_, ?_, ?_, ?_, ?_⟩
  · rw [flipEdgeApply_edges, IdMap.find?_updatek]
    simp [h1]
  · simp only [Mesh.edgeVertices, Mesh.sourceVertex, flipEdgeApply_halfedges,
      hA, hB, htw, Option.bind_eq_bind, Option.some_bind, Option.pure_def]
  · rw [flipEdgeApply_halfedges]
    exact hA
  · rw [flipEdgeApply_halfedges]
    exact hB
  · rw [flipEdgeApply_halfedges]
    exact flipHalfedgesApply_find?_next m.halfedges e.halfedge r.twinId
      r.hNextId r.hPrevId r.hTwinNextId r.hTwinPrevId r.vC r.vD r.f0 r.f1
      hNext hhn ne2 ne6 ne10 ne11 ne12
  · rw [flipEdgeApply_halfedges]
    exact flipHalfedgesApply_find?_twinPrev m.halfedges e.halfedge r.twinId
      r.hNextId r.hPrevId r.hTwinNextId r.hTwinPrevId r.vC r.vD r.f0 r.f1
      hTwinPrev hhtp ne5 ne9 ne12 ne14 ne15
  · rw [flipEdgeApply_halfedges]
    exact flipHalfedgesApply_find?_prev m.halfedges e.halfedge r.twinId
      r.hNextId r.hPrevId r.hTwinNextId r.hTwinPrevId r.vC r.vD r.f0 r.f1
      hPrev hhp ne3 ne7 ne10 ne13 ne14
  · rw [flipEdgeApply_halfedges]
    exact flipHalfedgesApply_find?_twinNext m.halfedges e.halfedge r.twinId
      r.hNextId r.hPrevId r.hTwinNextId r.hTwinPrevId r.vC r.vD r.f0 r.f1
      hTwinNext hhtn ne4 ne8 ne11 ne13 ne15
  · rw [flipEdgeApply_faces]
    exact fc.1
  · rw [flipEdgeApply_faces]
    exact fc.2.1
  · rw [flipEdgeApply_vertices]
    exact vx.1
  · rw [flipEdgeApply_vertices]
    exact vx.2.1
  · intro k hk
    rw [flipEdgeApply_edges, IdMap.find?_updatek, if_neg hk]
  · intro k k1 k2 k3 k4 k5 k6
    rw [flipEdgeApply_halfedges]
    exact flipHalfedgesApply_find?_frame m.halfedges e.halfedge r.twinId
      r.hNextId r.hPrevId r.hTwinNextId r.hTwinPrevId r.vC r.vD r.f0 r.f1
      k k1 k2 k3 k4 k5 k6
  · intro k k1 k2
    rw [flipEdgeApply_faces]
    exact fc.2.2 k k1 k2
  · intro k k1 k2
    rw [flipEdgeApply_vertices]
    exact vx.2.2 k k1 k2

/-- Witness for C4 on the quadrilateral fixture: flipping interior edge 2
succeeds; the edge record now has length 2 (the distance between the far
corners) and connects vertices 3 and 1. -/
theorem C4_witness :
    ∃ m' : Mesh, flipEdge oracle0 quadMeshLit 2 = some (true, m')
      ∧ m'.edges.find? 2 =
          some { halfedge := 3, length := 2, isInPath := false }
      ∧ m'.edgeVertices { halfedge := 3, length := 2, isInPath := false } =
          some (3, 1) := by
  obtain ⟨m', hFlip, hE, hEV, _⟩ := C4_flipEdge_success_poststate oracle0
    quadMeshLit 2
    { halfedge := 3, length := 2, isInPath := false }
    { twinId := 2, hNextId := 4, hPrevId := 5, hTwinNextId := 0,
      hTwinPrevId := 1, vC := 3, vD := 1, f0 := 1, f1 := 0, vA := 0, vB := 2,
      rC := { halfedge := some 5, position := (0, 1, 0), isMarked := false },
      rD := { halfedge := some 1, position := (1, 0, 0), isMarked := false } }
    { vertex := 2, twin := some 2, next := some 4, prev := some 5,
      face := some 1, edge := 2 }
    { vertex := 0, twin := some 3, next := some 0, prev := some 1,
      face := some 0, edge := 2 }
    { vertex := 3, twin := none, next := some 5, prev := some 3,
      face := some 1, edge := 3 }
    { vertex := 0, twin := none, next := some 3, prev := some 4,
      face := some 1, edge := 4 }
    { vertex := 1, twin := none, next := some 1, prev := some 2,
      face := some 0, edge := 0 }
    { vertex := 2, twin := none, next := some 2, prev := some 0,
      face := some 0, edge := 1 }
    { halfedge := 3 } { halfedge := 0 }
    { halfedge := some 3, position := (0, 0, 0), isMarked := false }
    { halfedge := some 2, position := (1, 1, 0), isMarked := false }
    (by with_unfolding_all decide) (by with_unfolding_all decide)
    (by with_unfolding_all decide) (by with_unfolding_all decide)
    (by with_unfolding_all decide) (by with_unfolding_all decide)
    (by with_unfolding_all decide) (by with_unfolding_all decide)
    (by with_unfolding_all decide) (by with_unfolding_all decide)
    (by with_unfolding_all decide) (by with_unfolding_all decide)
    (by with_unfolding_all decide) (by decide) (by decide) (by decide)
    (by decide) (by decide) (by decide) (by decide) (by decide) (by decide)
    (by decide) (by decide) (by decide) (by decide) (by decide) (by decide)
    (by decide) (by decide) (by decide)
  refine ⟨m', hFlip, ?_, ?_⟩
  · rw [hE]
    with_unfolding_all rfl
  · have : ({ halfedge := 3, length := 2, isInPath := false } : EdgeRec) =
        { halfedge := 3,
          length := oracle0.sqrtFn (sqDist
            ((0 : ℚ), (1 : ℚ), (0 : ℚ)) ((1 : ℚ), (0 : ℚ), (0 : ℚ))),
          isInPath := false } := by
      with_unfolding_all rfl
    rw [this]
    exact hEV
theorem List.foldl_preserves {α β : Type} (P : α → Prop) (f : α → β → α)
    (hf : ∀ a b, P a → P (f a b)) :
    ∀ (l : List β) (a : α), P a → P (l.foldl f a) := by
  intro l
  induction l with
  | nil => intro a ha; exact ha
  | cons b tl ih => intro a ha; exact ih (f a b) (hf a b ha)

theorem IdMap.find?_setk_isSome {α : Type} (m : IdMap α) (k k' : ℕ) (v : α)
    (h : (m.find? k).isSome) : ((m.setk k' v).find? k).isSome := by
  rw [IdMap.find?_setk]
  split
  · rfl
  · exact h

theorem floodFillLoop_covered (m : Mesh) (loopEdges : List ℕ)
    (region : FaceRegion) (k : ℕ) :
    ∀ (fuel : ℕ) (queue visited : List ℕ) (regions : IdMap FaceRegion),
      (regions.find? k).isSome →
      ((floodFillLoop m loopEdges region fuel queue visited regions).find?
        k).isSome := by
  intro fuel
  induction fuel with
  | zero => intro queue visited regions h; simpa [floodFillLoop] using h
  | succ n ih =>
    intro queue visited regions h
    match queue with
    | [] => simpa [floodFillLoop] using h
    | f :: rest =>
      rw [floodFillLoop]
      split
      · exact ih rest visited regions h
      · exact ih _ _ _ (IdMap.find?_setk_isSome regions k f region h)

theorem markBoundaryFaces_covered (m : Mesh) (loopEdges : List ℕ)
    (regions : IdMap FaceRegion) (k : ℕ)
    (h : (regions.find? k).isSome) :
    ((markBoundaryFaces m loopEdges regions).find? k).isSome := by
  refine List.foldl_preserves (fun r => (IdMap.find? r k).isSome) _
    ?_ m.faces.entries regions h
  intro r p hr
  dsimp only
  split
  · exact hr
  · split
    · exact hr
    · split
      · exact IdMap.find?_setk_isSome r k p.1 FaceRegion.boundary hr
      · exact hr

theorem majoritySweep_covered (m : Mesh) (regions : IdMap FaceRegion) (k : ℕ)
    (h : (regions.find? k).isSome) :
    (((majoritySweep m regions).1).find? k).isSome := by
  refine List.foldl_preserves
    (fun (st : IdMap FaceRegion × Bool) => (IdMap.find? st.1 k).isSome) _
    ?_ m.faces.entries (regions, false) h
  intro st p hst
  dsimp only
  split
  · exact hst
  · split
    · exact hst
    · split
      · split
        · exact IdMap.find?_setk_isSome _ k p.1 FaceRegion.inside hst
        · exact IdMap.find?_setk_isSome _ k p.1 FaceRegion.outside hst
      · exact hst

theorem majorityLoop_covered (m : Mesh) (k : ℕ) :
    ∀ (fuel : ℕ) (regions : IdMap FaceRegion),
      (regions.find? k).isSome →
      ((majorityLoop m fuel regions).find? k).isSome := by
  intro fuel
  induction fuel with
  | zero => intro regions h; simpa [majorityLoop] using h
  | succ n ih =>
    intro regions h
    have hc := majoritySweep_covered m regions k h
    rw [majorityLoop]
    cases hms : majoritySweep m regions with
    | mk r' c =>
      rw [hms] at hc
      dsimp only
      cases c with
      | true => exact ih r' hc
      | false => exact hc

theorem finalStep_pres (regions : IdMap FaceRegion) (q : ℕ × FaceRec) (k : ℕ)
    (h : ∃ rgn, regions.find? k = some rgn ∧ rgn ≠ FaceRegion.unknown) :
    ∃ rgn,
      (if regions.find? q.1 = some FaceRegion.unknown then
          regions.setk q.1 FaceRegion.outside
        else regions).find? k = some rgn ∧ rgn ≠ FaceRegion.unknown := by
  obtain ⟨rgn, hr, hne⟩ := h
  split
  · by_cases hkq : k = q.1
    · subst hkq
      rename_i hq
      rw [hr] at hq
      exact absurd (Option.some.inj hq) hne
    · rw [IdMap.find?_setk, if_neg hkq]
      exact ⟨rgn, hr, hne⟩
  · exact ⟨rgn, hr, hne⟩

theorem finalStep_isSome (regions : IdMap FaceRegion) (q : ℕ × FaceRec)
    (k : ℕ) (h : (regions.find? k).isSome) :
    ((if regions.find? q.1 = some FaceRegion.unknown then
        regions.setk q.1 FaceRegion.outside
      else regions).find? k).isSome := by
  split
  · exact IdMap.find?_setk_isSome regions k q.1 FaceRegion.outside h
  · exact h

theorem finalStep_init (regions : IdMap FaceRegion) (q : ℕ × FaceRec)
    (h : (regions.find? q.1).isSome) :
    ∃ rgn,
      (if regions.find? q.1 = some FaceRegion.unknown then
          regions.setk q.1 FaceRegion.outside
        else regions).find? q.1 = some rgn ∧ rgn ≠ FaceRegion.unknown := by
  cases hfq : regions.find? q.1 with
  | none => rw [hfq] at h; exact absurd h (by simp)
  | some rgn =>
    by_cases hu : rgn = FaceRegion.unknown
    · subst hu
      rw [if_pos rfl, IdMap.find?_setk, if_pos rfl]
      exact ⟨FaceRegion.outside, rfl, by decide⟩
    · rw [if_neg (fun hh => hu (Option.some.inj hh))]
      exact ⟨rgn, hfq, hu⟩

theorem finalFold_good :
    ∀ (l : List (ℕ × FaceRec)) (regions : IdMap FaceRegion),
      (∀ p ∈ l, ((regions.find? p.1).isSome)) →
      ∀ p ∈ l, ∃ rgn,
        ((l.foldl (fun regions p =>
            if regions.find? p.1 = some FaceRegion.unknown then
              regions.setk p.1 FaceRegion.outside
            else regions) regions).find? p.1 = some rgn ∧
          rgn ≠ FaceRegion.unknown) := by
  intro l
  induction l with
  | nil => intro regions _ p hp; exact absurd hp (List.not_mem_nil p)
  | cons q tl ih =>
    intro regions h p hp
    rw [List.foldl_cons]
    rcases List.mem_cons.mp hp with hpq | hptl
    · subst hpq
      exact List.foldl_preserves
        (fun r => ∃ rgn, r.find? p.1 = some rgn ∧ rgn ≠ FaceRegion.unknown)
        _ (fun r b hr => finalStep_pres r b p.1 hr) tl _
        (finalStep_init regions p (h p (List.mem_cons_self p tl)))
    · exact ih _
        (fun p' hp' => finalStep_isSome regions q p'.1
          (h p' (List.mem_cons_of_mem q hp')))
        p hptl

theorem markRemainingFaces_good (m : Mesh) (loopEdges : List ℕ)
    (regions : IdMap FaceRegion)
    (h : ∀ p ∈ m.faces.entries, ((regions.find? p.1).isSome)) :
    ∀ p ∈ m.faces.entries, ∃ rgn,
      ((markRemainingFaces m loopEdges regions).find? p.1 = some rgn ∧
        rgn ≠ FaceRegion.unknown) := by
  intro p hp
  have h2 : ∀ p ∈ m.faces.entries,
      (((majorityLoop m 1000 (markBoundaryFaces m loopEdges
        regions)).find? p.1).isSome) := by
    intro p' hp'
    exact majorityLoop_covered m p'.1 1000 _
      (markBoundaryFaces_covered m loopEdges regions p'.1 (h p' hp'))
  exact finalFold_good m.faces.entries _ h2 p hp

theorem perm_snoc_first (A B C T : List ℕ) (x : ℕ) :
    (((A ++ [x]) ++ B ++ C) ++ T).Perm ((A ++ B ++ C) ++ (x :: T)) := by
  refine List.perm_iff_count.mpr (fun a => ?_)
  simp [List.count_append, List.count_cons]
  omega

theorem perm_snoc_second (A B C T : List ℕ) (x : ℕ) :
    ((A ++ (B ++ [x]) ++ C) ++ T).Perm ((A ++ B ++ C) ++ (x :: T)) := by
  refine List.perm_iff_count.mpr (fun a => ?_)
  simp [List.count_append, List.count_cons]
  omega

theorem perm_snoc_third (A B C T : List ℕ) (x : ℕ) :
    ((A ++ B ++ (C ++ [x])) ++ T).Perm ((A ++ B ++ C) ++ (x :: T)) := by
  refine List.perm_iff_count.mpr (fun a => ?_)
  simp [List.count_append, List.count_cons]
  try omega

theorem collect_fold_perm (O : Oracle) (m : Mesh) (regions : IdMap FaceRegion) :
    ∀ (l : List (ℕ × FaceRec)) (r : SegmentationResult),
      (∀ p ∈ l, regions.find? p.1 = some FaceRegion.inside ∨
        regions.find? p.1 = some FaceRegion.outside ∨
        regions.find? p.1 = some FaceRegion.boundary) →
      (((l.foldl (fun r p =>
          let area := (faceGetArea O m p.2).getD 0
          match regions.find? p.1 with
          | some FaceRegion.inside =>
            { r with insideFaces := r.insideFaces ++ [p.1],
                     insideArea := r.insideArea + area }
          | some FaceRegion.outside =>
            { r with outsideFaces := r.outsideFaces ++ [p.1],
                     outsideArea := r.outsideArea + area }
          | some FaceRegion.boundary =>
            { r with boundaryFaces := r.boundaryFaces ++ [p.1],
                     boundaryArea := r.boundaryArea + area }
          | _ => r) r).insideFaces ++
        (l.foldl (fun r p =>
          let area := (faceGetArea O m p.2).getD 0
          match regions.find? p.1 with
          | some FaceRegion.inside =>
            { r with insideFaces := r.insideFaces ++ [p.1],
                     insideArea := r.insideArea + area }
          | some FaceRegion.outside =>
            { r with outsideFaces := r.outsideFaces ++ [p.1],
                     outsideArea := r.outsideArea + area }
          | some FaceRegion.boundary =>
            { r with boundaryFaces := r.boundaryFaces ++ [p.1],
                     boundaryArea := r.boundaryArea + area }
          | _ => r) r).outsideFaces ++
        (l.foldl (fun r p =>
          let area := (faceGetArea O m p.2).getD 0
          match regions.find? p.1 with
          | some FaceRegion.inside =>
            { r with insideFaces := r.insideFaces ++ [p.1],
                     insideArea := r.insideArea + area }
          | some FaceRegion.outside =>
            { r with outsideFaces := r.outsideFaces ++ [p.1],
                     outsideArea := r.outsideArea + area }
          | some FaceRegion.boundary =>
            { r with boundaryFaces := r.boundaryFaces ++ [p.1],
                     boundaryArea := r.boundaryArea + area }
          | _ => r) r).boundaryFaces).Perm
        ((r.insideFaces ++ r.outsideFaces ++ r.boundaryFaces) ++
          l.map Prod.fst)) := by
  intro l
  induction l with
  | nil =>
    intro r _
    simp
  | cons q tl ih =>
    intro r h
    have hq := h q (List.mem_cons_self q tl)
    have htl : ∀ p ∈ tl, regions.find? p.1 = some FaceRegion.inside ∨
        regions.find? p.1 = some FaceRegion.outside ∨
        regions.find? p.1 = some FaceRegion.boundary :=
      fun p hp => h p (List.mem_cons_of_mem q hp)
    rw [List.foldl_cons]
    refine (ih _ htl).trans ?_
    dsimp only [List.map_cons]
    rcases hq with hq | hq | hq <;> rw [hq] <;> dsimp only
    · exact perm_snoc_first r.insideFaces r.outsideFaces r.boundaryFaces
        (tl.map Prod.fst) q.1
    · exact perm_snoc_second r.insideFaces r.outsideFaces r.boundaryFaces
        (tl.map Prod.fst) q.1
    · exact perm_snoc_third r.insideFaces r.outsideFaces r.boundaryFaces
        (tl.map Prod.fst) q.1

theorem initFold_covered :
    ∀ (l : List (ℕ × FaceRec)) (r0 : IdMap FaceRegion) (k : ℕ),
      (k ∈ l.map Prod.fst ∨ ((r0.find? k).isSome)) →
      ((l.foldl (fun r p => r.setk p.1 FaceRegion.unknown) r0).find?
        k).isSome := by
  intro l
  induction l with
  | nil =>
    intro r0 k h
    rcases h with h | h
    · exact absurd h (by simp)
    · simpa using h
  | cons q tl ih =>
    intro r0 k h
    rw [List.foldl_cons]
    rcases h with h | h
    · have h' : k = q.1 ∨ k ∈ tl.map Prod.fst := by
        rcases List.mem_map.mp h with ⟨x, hx, hk⟩
        rcases List.mem_cons.mp hx with h1 | h1
        · exact Or.inl (by rw [← hk, h1])
        · exact Or.inr (List.mem_map.mpr ⟨x, h1, hk⟩)
      rcases h' with hk | hk
      · refine ih _ k (Or.inr ?_)
        rw [IdMap.find?_setk, if_pos hk]
        rfl
      · exact ih _ k (Or.inl hk)
    · exact ih _ k
        (Or.inr (IdMap.find?_setk_isSome r0 k q.1 FaceRegion.unknown h))

theorem segmentation_partition_aux (O : Oracle) (m : Mesh)
    (loopEdges : List ℕ) (R : IdMap FaceRegion)
    (hcov : ∀ p ∈ m.faces.entries, ((R.find? p.1).isSome)) :
    ((collectResults O m (markRemainingFaces m loopEdges R)).insideFaces ++
      (collectResults O m (markRemainingFaces m loopEdges R)).outsideFaces ++
      (collectResults O m
        (markRemainingFaces m loopEdges R)).boundaryFaces).Perm
      (m.faces.entries.map Prod.fst) := by
  have hgood := markRemainingFaces_good m loopEdges R hcov
  have h3 : ∀ p ∈ m.faces.entries,
      (markRemainingFaces m loopEdges R).find? p.1 =
        some FaceRegion.inside ∨
      (markRemainingFaces m loopEdges R).find? p.1 =
        some FaceRegion.outside ∨
      (markRemainingFaces m loopEdges R).find? p.1 =
        some FaceRegion.boundary := by
    intro p hp
    obtain ⟨rgn, hr, hne⟩ := hgood p hp
    cases rgn with
    | inside => exact Or.inl hr
    | outside => exact Or.inr (Or.inl hr)
    | boundary => exact Or.inr (Or.inr hr)
    | unknown => exact absurd rfl hne
  have hc := collect_fold_perm O m (markRemainingFaces m loopEdges R)
    m.faces.entries
    { insideFaces := [], outsideFaces := [], boundaryFaces := [],
      insideArea := 0, outsideArea := 0, boundaryArea := 0 } h3
  simpa [collectResults] using hc

theorem segmentationCompute_eq (O : Oracle) (m : Mesh)
    (loop : GeodesicLoopRec) :
    segmentationCompute O m loop =
      collectResults O m (markRemainingFaces m (loop.edges.foldl jsSetAdd [])
        (match (determineSeedFaces m loop).2 with
         | some s => floodFillLoop m (loop.edges.foldl jsSetAdd [])
             FaceRegion.outside (4 * m.faces.length + 2) [s] []
             (match (determineSeedFaces m loop).1 with
              | some s => floodFillLoop m (loop.edges.foldl jsSetAdd [])
                  FaceRegion.inside (4 * m.faces.length + 2) [s] []
                  (m.faces.entries.foldl
                    (fun r p => r.setk p.1 FaceRegion.unknown) [])
              | none => m.faces.entries.foldl
                  (fun r p => r.setk p.1 FaceRegion.unknown) [])
         | none =>
           match (determineSeedFaces m loop).1 with
           | some s => floodFillLoop m (loop.edges.foldl jsSetAdd [])
               FaceRegion.inside (4 * m.faces.length + 2) [s] []
               (m.faces.entries.foldl
                 (fun r p => r.setk p.1 FaceRegion.unknown) [])
           | none => m.faces.entries.foldl
               (fun r p => r.setk p.1 FaceRegion.unknown) [])) := rfl

/-- C10: `MeshSegmentation.compute` assigns every face of the mesh to exactly
one of the inside, outside or boundary lists: their concatenation is a
permutation of the face-id list of the mesh, and in particular the three
counts sum to the number of faces. -/
theorem C10_segmentation_counts_partition (O : Oracle) (m : Mesh)
    (loop : GeodesicLoopRec) :
    ((segmentationCompute O m loop).insideFaces ++
      (segmentationCompute O m loop).outsideFaces ++
      (segmentationCompute O m loop).boundaryFaces).Perm m.faces.keysList
    ∧ (segmentationCompute O m loop).insideFaces.length +
        (segmentationCompute O m loop).outsideFaces.length +
        (segmentationCompute O m loop).boundaryFaces.length =
        m.faces.entries.length := by
  have hkeys : m.faces.keysList = m.faces.entries.map Prod.fst := rfl
  have hcov : ∀ p ∈ m.faces.entries,
      (((match (determineSeedFaces m loop).2 with
         | some s => floodFillLoop m (loop.edges.foldl jsSetAdd [])
             FaceRegion.outside (4 * m.faces.length + 2) [s] []
             (match (determineSeedFaces m loop).1 with
              | some s => floodFillLoop m (loop.edges.foldl jsSetAdd [])
                  FaceRegion.inside (4 * m.faces.length + 2) [s] []
                  (m.faces.entries.foldl
                    (fun r p => IdMap.setk r p.1 FaceRegion.unknown) [])
              | none => m.faces.entries.foldl
                  (fun r p => IdMap.setk r p.1 FaceRegion.unknown) [])
         | none =>
           match (determineSeedFaces m loop).1 with
           | some s => floodFillLoop m (loop.edges.foldl jsSetAdd [])
               FaceRegion.inside (4 * m.faces.length + 2) [s] []
               (m.faces.entries.foldl
                 (fun r p => IdMap.setk r p.1 FaceRegion.unknown) [])
           | none => m.faces.entries.foldl
               (fun r p => IdMap.setk r p.1 FaceRegion.unknown) []) :
        IdMap FaceRegion).find? p.1).isSome := by
    intro p hp
    have h0 : ((m.faces.entries.foldl
        (fun r p => IdMap.setk r p.1 FaceRegion.unknown)
        ([] : IdMap FaceRegion)).find? p.1).isSome :=
      initFold_covered m.faces.entries [] p.1
        (Or.inl (List.mem_map.mpr ⟨p, hp, rfl⟩))
    have h1 : ∀ (o : Option ℕ) (R : IdMap FaceRegion) (rg : FaceRegion),
        ((R.find? p.1).isSome) →
        (((match o with
           | some s => floodFillLoop m (loop.edges.foldl jsSetAdd []) rg
               (4 * m.faces.length + 2) [s] [] R
           | none => R) : IdMap FaceRegion).find? p.1).isSome := by
      intro o R rg hR
      cases o with
      | none => exact hR
      | some s => exact floodFillLoop_covered m _ rg p.1 _ [s] [] R hR
    exact h1 _ _ _ (h1 _ _ _ h0)
  have hperm := segmentation_partition_aux O m (loop.edges.foldl jsSetAdd [])
    _ hcov
  rw [segmentationCompute_eq, hkeys]
  refine ⟨hperm, ?_⟩
  have hlen := hperm.length_eq
  simp only [List.length_append, List.length_map] at hlen
  omega

/-- The binary-heap ordering invariant: every non-root entry is at least its
parent. -/
def heapOrdered (h : List PQEntry) : Prop :=
  ∀ i, 0 < i → i < h.length →
    (h.getD ((i - 1) / 2) (0, 0)).2 ≤ (h.getD i (0, 0)).2

theorem heapOrdered_root_min (h : List PQEntry) (ho : heapOrdered h) :
    ∀ i, i < h.length → (h.getD 0 (0, 0)).2 ≤ (h.getD i (0, 0)).2 := by
  intro i
  induction i using Nat.strong_induction_on with
  | _ i ih =>
    intro hi
    rcases Nat.eq_zero_or_pos i with h0 | h0
    · subst h0; exact le_refl _
    · exact le_trans
        (ih ((i - 1) / 2) (by omega) (by omega))
        (ho i h0 hi)

theorem count_set {α : Type} [DecidableEq α] (l : List α) (n : ℕ)
    (hn : n < l.length) (d v a : α) :
    (l.set n v).count a + (if l.getD n d = a then 1 else 0) =
      l.count a + (if v = a then 1 else 0) := by
  rw [List.set_eq_take_cons_drop v hn]
  conv_rhs => rw [show l = l.take n ++ l.drop n from
    (List.take_append_drop n l).symm]
  rw [List.drop_eq_getElem_cons hn, List.getD_eq_getElem l d hn]
  simp only [List.count_append, List.count_cons]
  split_ifs <;> simp_all <;> omega

theorem getD_set_self {α : Type} (l : List α) (n : ℕ) (hn : n < l.length)
    (d v : α) : (l.set n v).getD n d = v := by
  rw [List.getD_eq_getElem _ d (by simpa using hn)]
  simp [List.getElem_set, hn]

theorem getD_set_ne {α : Type} (l : List α) (i j : ℕ) (hij : i ≠ j)
    (d v : α) : (l.set i v).getD j d = l.getD j d := by
  by_cases hj : j < l.length
  · rw [List.getD_eq_getElem _ d (by simpa using hj),
      List.getD_eq_getElem l d hj]
    simp [List.getElem_set, hij]
  · rw [List.getD_eq_default _ d (by simpa using Nat.le_of_not_lt hj),
      List.getD_eq_default l d (Nat.le_of_not_lt hj)]

theorem set_set_perm {α : Type} [DecidableEq α] (h : List α) (d : α)
    (i j : ℕ) (hi : i < h.length) (hj : j < h.length) :
    ((h.set i (h.getD j d)).set j (h.getD i d)).Perm h := by
  refine List.perm_iff_count.mpr (fun a => ?_)
  have h1 := count_set h i hi d (h.getD j d) a
  have h2 := count_set (h.set i (h.getD j d)) j (by simpa using hj) d
    (h.getD i d) a
  by_cases hij : i = j
  · subst hij
    rw [List.set_set]
    rw [getD_set_self h i hi] at h2
    rw [List.set_set] at h2
    split_ifs at h1 h2 <;> omega
  · rw [getD_set_ne h i j hij] at h2
    split_ifs at h1 h2 <;> omega

theorem bubbleUpAux_perm :
    ∀ (fuel : ℕ) (h : List PQEntry) (index : ℕ), index < h.length →
      (bubbleUpAux fuel h index).Perm h := by
  intro fuel
  induction fuel with
  | zero => intro h index _; exact List.Perm.refl _
  | succ n ih =>
    intro h index hidx
    rw [bubbleUpAux]
    dsimp only
    split
    · exact List.Perm.refl _
    · split
      · exact List.Perm.refl _
      · have hp : (index - 1) / 2 < h.length := by omega
        refine (ih _ _ ?_).trans
          (set_set_perm h (0, 0) index ((index - 1) / 2) hidx hp)
        simpa using hp

theorem bubbleDownAux_perm :
    ∀ (fuel : ℕ) (h : List PQEntry) (index : ℕ),
      (bubbleDownAux fuel h index).Perm h := by
  intro fuel
  induction fuel with
  | zero => intro h index; exact List.Perm.refl _
  | succ n ih =>
    intro h index
    rw [bubbleDownAux]
    dsimp only
    split
    · exact List.Perm.refl _
    · rename_i hne
      rcases pickSmallest_cases h index with hc | hc
      · exact absurd hc hne
      · have hidx : index < h.length := by omega
        exact (ih _ _).trans
          (set_set_perm h (0, 0) index (pickSmallest h index) hidx hc.2)

theorem heapPush_perm (h : List PQEntry) (e : PQEntry) :
    (heapPush h e).Perm (h ++ [e]) := by
  unfold heapPush bubbleUp
  exact bubbleUpAux_perm (h.length + 1) (h ++ [e]) h.length (by simp)

theorem pop_tail_perm (mn : PQEntry) (tl : List PQEntry) (htl : tl ≠ []) :
    ((mn :: tl).dropLast.set 0
      ((mn :: tl).getLast (by simp))).Perm tl := by
  match tl, htl with
  | b :: tl2, _ =>
    rw [List.dropLast_cons₂, List.getLast_cons (List.cons_ne_nil b tl2)]
    show ((b :: tl2).getLast (List.cons_ne_nil b tl2) ::
      (b :: tl2).dropLast).Perm (b :: tl2)
    conv_rhs => rw [← List.dropLast_append_getLast (List.cons_ne_nil b tl2)]
    have hperm := @List.perm_append_comm _
      [(b :: tl2).getLast (List.cons_ne_nil b tl2)] ((b :: tl2).dropLast)
    simpa using hperm

theorem heapPop_perm (h : List PQEntry) (top : PQEntry) (h' : List PQEntry)
    (hp : heapPop h = some (top, h')) : (top :: h').Perm h := by
  match h with
  | [] => simp [heapPop] at hp
  | mn :: tl =>
    rw [heapPop] at hp
    by_cases htl : tl = []
    · subst htl
      simp [Prod.ext_iff] at hp
      obtain ⟨h1, h2⟩ := hp
      rw [h2, ← Prod.ext_iff.mpr h1]
    · have hlen : ((mn :: tl).dropLast).length ≠ 0 := by
        simpa [List.length_dropLast] using
          fun hh => htl (List.length_eq_zero.mp hh)
      rw [if_pos hlen] at hp
      have hp2 : mn = top ∧
          bubbleDown ((mn :: tl).dropLast.set 0
            ((mn :: tl).getLast (by simp))) 0 = h' := by
        simpa [Prod.ext_iff] using hp
      obtain ⟨he1, he2⟩ := hp2
      subst he1
      refine List.Perm.cons mn ?_
      refine List.Perm.trans (he2 ▸ ?_) (pop_tail_perm mn tl htl)
      exact (bubbleDownAux_perm _ _ 0)

/-- The stored priority at a heap index. -/
def hkey (h : List PQEntry) (i : ℕ) : ℚ := (h.getD i (0, 0)).2

theorem heapOrdered_hkey (h : List PQEntry) :
    heapOrdered h ↔ ∀ i, 0 < i → i < h.length →
      hkey h ((i - 1) / 2) ≤ hkey h i := Iff.rfl

/-- The `bubbleUp` loop invariant: the heap ordering holds everywhere except
possibly on the edge into `idx`, and the parent of `idx` already bounds the
children of `idx`. -/
def upInv (h : List PQEntry) (idx : ℕ) : Prop :=
  (∀ i, 0 < i → i < h.length → i ≠ idx →
    hkey h ((i - 1) / 2) ≤ hkey h i) ∧
  (0 < idx → ∀ c, c < h.length → (c - 1) / 2 = idx →
    hkey h ((idx - 1) / 2) ≤ hkey h c)

theorem bubbleUpAux_ordered :
    ∀ (fuel : ℕ) (h : List PQEntry) (idx : ℕ), idx < h.length →
      idx < fuel → upInv h idx → heapOrdered (bubbleUpAux fuel h idx) := by
  intro fuel
  induction fuel with
  | zero => intro h idx _ hf; omega
  | succ n ih =>
    intro h idx hlen hf inv
    rw [bubbleUpAux]
    dsimp only
    split
    · rename_i h0
      subst h0
      intro i hi0 hilen
      exact inv.1 i hi0 hilen (by omega)
    · rename_i h0
      split
      · rename_i hle
        intro i hi0 hilen
        by_cases hii : i = idx
        · subst hii
          exact hle
        · exact inv.1 i hi0 hilen hii
      · rename_i hgt
        have hlt : hkey h idx < hkey h ((idx - 1) / 2) := by
          simpa [hkey] using lt_of_not_le hgt
        have hplen : (idx - 1) / 2 < h.length := by omega
        have hlen' : ((h.set idx (h.getD ((idx - 1) / 2) (0, 0))).set
            ((idx - 1) / 2) (h.getD idx (0, 0))).length = h.length := by
          simp
        have hpne : (idx - 1) / 2 ≠ idx := by omega
        have ki : hkey ((h.set idx (h.getD ((idx - 1) / 2) (0, 0))).set
            ((idx - 1) / 2) (h.getD idx (0, 0))) idx =
            hkey h ((idx - 1) / 2) := by
          unfold hkey
          rw [getD_set_ne _ _ _ hpne, getD_set_self _ _ hlen]
        have kp : hkey ((h.set idx (h.getD ((idx - 1) / 2) (0, 0))).set
            ((idx - 1) / 2) (h.getD idx (0, 0))) ((idx - 1) / 2) =
            hkey h idx := by
          unfold hkey
          rw [getD_set_self _ _ (by simpa using hplen)]
        have ko : ∀ x, x ≠ idx → x ≠ (idx - 1) / 2 →
            hkey ((h.set idx (h.getD ((idx - 1) / 2) (0, 0))).set
              ((idx - 1) / 2) (h.getD idx (0, 0))) x = hkey h x := by
          intro x hx1 hx2
          unfold hkey
          rw [getD_set_ne _ _ _ (fun hh => hx2 hh.symm),
            getD_set_ne _ _ _ (fun hh => hx1 hh.symm)]
        refine ih _ ((idx - 1) / 2) (by omega) (by omega) ⟨?_, ?_⟩
        · intro i hi0 hilen hip
          rw [hlen'] at hilen
          by_cases hii : i = idx
          · rw [hii, ki, show (idx - 1) / 2 = ((idx - 1) / 2 : ℕ) from rfl,
              kp]
            exact le_of_lt hlt
          · by_cases hci : (i - 1) / 2 = idx
            · rw [hci, ki, ko i hii (by omega)]
              exact inv.2 (by omega) i hilen hci
            · by_cases hpi : (i - 1) / 2 = (idx - 1) / 2
              · rw [hpi, kp, ko i hii hip]
                exact le_trans (le_of_lt hlt)
                  (by
                    have := inv.1 i hi0 hilen hii
                    rw [hpi] at this
                    exact this)
              · rw [ko _ hci hpi, ko i hii hip]
                exact inv.1 i hi0 hilen hii
        · intro hp0 c hc hcp
          rw [hlen'] at hc
          have hppne1 : ((idx - 1) / 2 - 1) / 2 ≠ idx := by omega
          have hppne2 : ((idx - 1) / 2 - 1) / 2 ≠ (idx - 1) / 2 := by omega
          rw [ko _ hppne1 hppne2]
          by_cases hcidx : c = idx
          · rw [hcidx, ki]
            exact inv.1 ((idx - 1) / 2) hp0 hplen hpne
          · have hcp2 : c ≠ (idx - 1) / 2 := by omega
            rw [ko c hcidx hcp2]
            refine le_trans (inv.1 ((idx - 1) / 2) hp0 hplen hpne) ?_
            have hcc := inv.1 c (by omega) hc hcidx
            rw [hcp] at hcc
            exact hcc

theorem heapPush_ordered (h : List PQEntry) (e : PQEntry)
    (ho : heapOrdered h) : heapOrdered (heapPush h e) := by
  unfold heapPush bubbleUp
  refine bubbleUpAux_ordered (h.length + 1) (h ++ [e]) h.length
    (by simp) (by omega) ⟨?_, ?_⟩
  · intro i hi0 hilen hine
    have hilen2 : i < h.length := by
      simp at hilen
      omega
    unfold hkey
    rw [List.getD_append _ _ _ _ hilen2, List.getD_append _ _ _ _ (by omega)]
    exact ho i hi0 hilen2
  · intro hp0 c hc hcp
    simp at hc
    omega

theorem pickSmallest_spec (h : List PQEntry) (idx : ℕ) :
    (pickSmallest h idx = idx ∧
      (∀ c, c < h.length → (c - 1) / 2 = idx → hkey h idx ≤ hkey h c)) ∨
    (idx < pickSmallest h idx ∧ pickSmallest h idx < h.length ∧
      (pickSmallest h idx - 1) / 2 = idx ∧
      hkey h (pickSmallest h idx) < hkey h idx ∧
      (∀ c, c < h.length → (c - 1) / 2 = idx →
        hkey h (pickSmallest h idx) ≤ hkey h c)) := by
  have hchild : ∀ c : ℕ, (c - 1) / 2 = idx → c = 2 * idx + 1 ∨
      c = 2 * idx + 2 ∨ (c = 0 ∧ idx = 0) := by
    intro c hc
    omega
  unfold pickSmallest hkey
  dsimp only
  split_ifs with h1 h2 h3
  · simp only [Bool.and_eq_true, decide_eq_true_eq] at h1 h2
    refine Or.inr ⟨by omega, by omega, by omega,
      by linarith [h1.2, h2.2], ?_⟩
    intro c hc hcp
    rcases hchild c hcp with hcc | hcc | hcc
    · subst hcc; linarith [h2.2]
    · subst hcc; exact le_refl _
    · obtain ⟨hc0, hidx0⟩ := hcc
      subst hc0
      subst hidx0
      linarith [h1.2, h2.2]
  · simp only [Bool.and_eq_true, decide_eq_true_eq, not_and, not_lt] at h1 h2
    refine Or.inr ⟨by omega, by omega, by omega, by linarith [h1.2], ?_⟩
    intro c hc hcp
    rcases hchild c hcp with hcc | hcc | hcc
    · subst hcc; exact le_refl _
    · subst hcc; exact h2 (by omega)
    · obtain ⟨hc0, hidx0⟩ := hcc
      subst hc0
      subst hidx0
      linarith [h1.2]
  · simp only [Bool.and_eq_true, decide_eq_true_eq, not_and, not_lt] at h1 h3
    refine Or.inr ⟨by omega, by omega, by omega, by linarith [h3.2], ?_⟩
    intro c hc hcp
    rcases hchild c hcp with hcc | hcc | hcc
    · subst hcc
      exact le_trans (le_of_lt h3.2) (h1 (by omega))
    · subst hcc; exact le_refl _
    · obtain ⟨hc0, hidx0⟩ := hcc
      subst hc0
      subst hidx0
      linarith [h3.2]
  · simp only [Bool.and_eq_true, decide_eq_true_eq, not_and, not_lt] at h1 h3
    refine Or.inl ⟨rfl, ?_⟩
    intro c hc hcp
    rcases hchild c hcp with hcc | hcc | hcc
    · subst hcc; exact h1 (by omega)
    · subst hcc; exact h3 (by omega)
    · obtain ⟨hc0, hidx0⟩ := hcc
      subst hc0
      subst hidx0
      exact le_refl _

/-- The `bubbleDown` loop invariant: the heap ordering holds on every edge not
leaving `idx`, and the parent of `idx` already bounds the children of `idx`. -/
def downInv (h : List PQEntry) (idx : ℕ) : Prop :=
  (∀ i, 0 < i → i < h.length → (i - 1) / 2 ≠ idx →
    hkey h ((i - 1) / 2) ≤ hkey h i) ∧
  (0 < idx → ∀ c, c < h.length → (c - 1) / 2 = idx →
    hkey h ((idx - 1) / 2) ≤ hkey h c)

theorem bubbleDownAux_ordered :
    ∀ (fuel : ℕ) (h : List PQEntry) (idx : ℕ), h.length ≤ idx + fuel →
      downInv h idx → heapOrdered (bubbleDownAux fuel h idx) := by
  intro fuel
  induction fuel with
  | zero =>
    intro h idx hf inv
    rw [bubbleDownAux]
    intro i hi0 hilen
    exact inv.1 i hi0 hilen (by omega)
  | succ n ih =>
    intro h idx hf inv
    rw [bubbleDownAux]
    dsimp only
    rcases pickSmallest_spec h idx with ⟨hs, hbound⟩ | hs
    · rw [if_pos hs]
      intro i hi0 hilen
      by_cases hpi : (i - 1) / 2 = idx
      · rw [hpi]
        exact hbound i hilen hpi
      · exact inv.1 i hi0 hilen hpi
    · obtain ⟨hlt, hslen, hsp, hkeylt, hbound⟩ := hs
      rw [if_neg (by omega)]
      have hidxlen : idx < h.length := by omega
      have hlen' : ((h.set idx (h.getD (pickSmallest h idx) (0, 0))).set
          (pickSmallest h idx) (h.getD idx (0, 0))).length = h.length := by
        simp
      have hsne : pickSmallest h idx ≠ idx := by omega
      have ki : hkey ((h.set idx (h.getD (pickSmallest h idx) (0, 0))).set
          (pickSmallest h idx) (h.getD idx (0, 0))) idx =
          hkey h (pickSmallest h idx) := by
        unfold hkey
        rw [getD_set_ne _ _ _ hsne, getD_set_self _ _ hidxlen]
      have ks : hkey ((h.set idx (h.getD (pickSmallest h idx) (0, 0))).set
          (pickSmallest h idx) (h.getD idx (0, 0)))
          (pickSmallest h idx) = hkey h idx := by
        unfold hkey
        rw [getD_set_self _ _ (by simpa using hslen)]
      have ko : ∀ x, x ≠ idx → x ≠ pickSmallest h idx →
          hkey ((h.set idx (h.getD (pickSmallest h idx) (0, 0))).set
            (pickSmallest h idx) (h.getD idx (0, 0))) x = hkey h x := by
        intro x hx1 hx2
        unfold hkey
        rw [getD_set_ne _ _ _ (fun hh => hx2 hh.symm),
          getD_set_ne _ _ _ (fun hh => hx1 hh.symm)]
      refine ih _ (pickSmallest h idx) (by omega) ⟨?_, ?_⟩
      · intro i hi0 hilen hpis
        rw [hlen'] at hilen
        by_cases hii : i = idx
        · rw [hii, ki]
          rcases Nat.eq_zero_or_pos idx with hidx0 | hidx0
          · omega
          · have hpp1 : (idx - 1) / 2 ≠ idx := by omega
            have hpp2 : (idx - 1) / 2 ≠ pickSmallest h idx := by omega
            rw [ko _ hpp1 hpp2]
            exact inv.2 hidx0 (pickSmallest h idx) hslen hsp
        · by_cases his : i = pickSmallest h idx
          · rw [his, ks, hsp, ki]
            exact le_of_lt hkeylt
          · by_cases hpidx : (i - 1) / 2 = idx
            · rw [hpidx, ki, ko i hii his]
              exact hbound i hilen hpidx
            · rw [ko _ hpidx (by omega), ko i hii his]
              exact inv.1 i hi0 hilen hpidx
      · intro hs0 c hc hcp
        rw [hlen'] at hc
        have hcne1 : c ≠ idx := by omega
        have hcne2 : c ≠ pickSmallest h idx := by omega
        rw [ko c hcne1 hcne2, hsp, ki]
        have hcc := inv.1 c (by omega) hc (by rw [hcp]; omega)
        rw [hcp] at hcc
        exact hcc

theorem heapPop_ordered (h : List PQEntry) (top : PQEntry)
    (h' : List PQEntry) (ho : heapOrdered h)
    (hp : heapPop h = some (top, h')) : heapOrdered h' := by
  match h with
  | [] => simp [heapPop] at hp
  | mn :: tl =>
    rw [heapPop] at hp
    by_cases htl : tl = []
    · subst htl
      simp [Prod.ext_iff] at hp
      rw [hp.2]
      intro i hi0 hilen
      simp at hilen
    · have hlen : ((mn :: tl).dropLast).length ≠ 0 := by
        simpa [List.length_dropLast] using
          fun hh => htl (List.length_eq_zero.mp hh)
      rw [if_pos hlen] at hp
      have hp2 : mn = top ∧
          bubbleDown ((mn :: tl).dropLast.set 0
            ((mn :: tl).getLast (by simp))) 0 = h' := by
        simpa [Prod.ext_iff] using hp
      rw [← hp2.2]
      unfold bubbleDown
      refine bubbleDownAux_ordered _ _ 0 (by omega) ⟨?_, ?_⟩
      · intro i hi0 hilen hpi
        have hilen2 : i < (mn :: tl).length - 1 := by
          simpa [List.length_set, List.length_dropLast] using hilen
        have hgi : ∀ x, x ≠ 0 → x < (mn :: tl).length - 1 →
            ((mn :: tl).dropLast.set 0
              ((mn :: tl).getLast (by simp))).getD x (0, 0) =
              (mn :: tl).getD x (0, 0) := by
          intro x hx0 hxlen
          rw [getD_set_ne _ _ _ (fun hh => hx0 hh.symm)]
          rw [List.getD_eq_getElem _ (0, 0)
            (by simpa [List.length_dropLast] using hxlen)]
          rw [List.getElem_dropLast, ← List.getD_eq_getElem _ (0, 0)]
        have hplt : (i - 1) / 2 < (mn :: tl).length - 1 := by omega
        unfold hkey
        rw [hgi i (by omega) hilen2, hgi ((i - 1) / 2) hpi hplt]
        exact ho i hi0 (by simp at hilen2 ⊢; omega)
      · intro h00
        omega

theorem heapPop_none_iff (h : List PQEntry) : heapPop h = none ↔ h = [] := by
  match h with
  | [] => simp [heapPop]
  | mn :: tl =>
    rw [heapPop]
    constructor
    · intro hh
      split_ifs at hh <;> simp_all
    · intro hh
      exact absurd hh (by simp)

theorem heapPop_min (h : List PQEntry) (top : PQEntry) (h' : List PQEntry)
    (ho : heapOrdered h) (hp : heapPop h = some (top, h')) :
    ∀ e ∈ h, top.2 ≤ e.2 := by
  have htop : top = h.getD 0 (0, 0) := by
    match h, hp with
    | mn :: tl, hp =>
      rw [heapPop] at hp
      split_ifs at hp <;>
      · have h2 : (mn.1 = top.1 ∧ mn.2 = top.2) ∧ True := by
          constructor
          · exact (by simpa [Prod.ext_iff] using hp : (mn.1 = top.1 ∧ mn.2 = top.2) ∧ _).1
          · trivial
        have hme : mn = top := Prod.ext_iff.mpr h2.1
        rw [← hme, List.getD_cons_zero]
  intro e he
  obtain ⟨i, hi, hei⟩ := List.mem_iff_getElem.mp he
  have := heapOrdered_root_min h ho i hi
  rw [htop]
  unfold hkey at this
  rw [List.getD_eq_getElem h (0, 0) hi, hei] at this
  exact this

/-- The fan neighbourhood of a vertex id, as `getNeighbors` computes it
(empty for an id absent from the vertex map). -/
def fanOf (m : Mesh) (u : ℕ) : List (ℕ × ℕ) :=
  match m.vertices.find? u with
  | some r => getNeighbors m r
  | none => []

/-- Reachability along the fan-neighbour relation that the Dijkstra code
explores (modelling the spec's notion of the target being reachable from the
source). -/
inductive Reach (m : Mesh) (src : ℕ) : ℕ → Prop where
  | refl : Reach m src src
  | step {u v e : ℕ} : Reach m src u → (v, e) ∈ fanOf m u → Reach m src v

/-- The well-formedness facts about a mesh that the Dijkstra claims rely on:
nonnegative edge lengths, duplicate-free vertex keys, duplicate-free fan
targets at every vertex, and fan targets that are themselves vertices of the
mesh.  Every field quantifies over the stored entries, so the bundle is
checkable by evaluation on a concrete mesh. -/
structure MeshWF (m : Mesh) : Prop where
  nonneg : ∀ p ∈ m.edges.entries, 0 ≤ p.2.length
  keysNodup : (m.vertices.entries.map Prod.fst).Nodup
  fanNodup : ∀ p ∈ m.vertices.entries,
    ((getNeighbors m p.2).map Prod.fst).Nodup
  fanIn : ∀ p ∈ m.vertices.entries, ∀ q ∈ getNeighbors m p.2,
    (m.vertices.find? q.1).isSome

instance (m : Mesh) : Decidable (MeshWF m) := by
  have : MeshWF m ↔ ((∀ p ∈ m.edges.entries, 0 ≤ p.2.length) ∧
      (m.vertices.entries.map Prod.fst).Nodup ∧
      (∀ p ∈ m.vertices.entries,
        ((getNeighbors m p.2).map Prod.fst).Nodup) ∧
      (∀ p ∈ m.vertices.entries, ∀ q ∈ getNeighbors m p.2,
        (m.vertices.find? q.1).isSome)) :=
    ⟨fun w => ⟨w.nonneg, w.keysNodup, w.fanNodup, w.fanIn⟩,
     fun w => ⟨w.1, w.2.1, w.2.2.1, w.2.2.2⟩⟩
  exact decidable_of_iff _ this.symm

theorem IdMap.find?_mem {α : Type} :
    ∀ (l : IdMap α) (k : ℕ) (v : α), l.find? k = some v → (k, v) ∈ l := by
  intro l
  induction l with
  | nil => intro k v h; exact absurd h (by simp [IdMap.find?])
  | cons a tl ih =>
    intro k v h
    rw [show IdMap.find? (a :: tl) k =
        (if a.1 = k then some a.2 else IdMap.find? tl k) from rfl] at h
    split_ifs at h with ha
    · exact List.mem_cons.mpr (Or.inl (by
        obtain ⟨a1, a2⟩ := a
        simp_all))
    · exact List.mem_cons.mpr (Or.inr (ih k v h))

/-- Every fan is duplicate-free in its targets (for an id outside the vertex
map the fan is empty). -/
theorem MeshWF.fanNodupAll {m : Mesh} (wf : MeshWF m) (u : ℕ) :
    ((fanOf m u).map Prod.fst).Nodup := by
  unfold fanOf
  cases hr : m.vertices.find? u with
  | none => simp
  | some r => exact wf.fanNodup (u, r) (IdMap.find?_mem m.vertices u r hr)

/-- Every fan target of every vertex is a vertex of the map. -/
theorem MeshWF.fanInAll {m : Mesh} (wf : MeshWF m) (u : ℕ) :
    ∀ q ∈ fanOf m u, (m.vertices.find? q.1).isSome := by
  unfold fanOf
  cases hr : m.vertices.find? u with
  | none => simp
  | some r => exact wf.fanIn (u, r) (IdMap.find?_mem m.vertices u r hr)

/-- Edge lengths referenced through `find?` are nonnegative, including the
`getD 0` fallback for a missing edge. -/
theorem MeshWF.lenNonneg {m : Mesh} (wf : MeshWF m) (e : ℕ) :
    0 ≤ ((m.edges.find? e).map (·.length)).getD 0 := by
  cases he : m.edges.find? e with
  | none => simp
  | some er =>
    simpa using wf.nonneg (e, er) (IdMap.find?_mem m.edges e er he)

theorem neighborsWalk_acc (m : Mesh) (s : ℕ) :
    ∀ (fuel cur : ℕ) (acc : List (ℕ × ℕ)),
      neighborsWalk m s fuel cur acc = acc ++ neighborsWalk m s fuel cur [] := by
  intro fuel
  induction fuel with
  | zero => intro cur acc; simp [neighborsWalk]
  | succ n ih =>
    intro cur acc
    rw [neighborsWalk, neighborsWalk]
    cases hhe : m.halfedges.find? cur with
    | none => simp
    | some he =>
      dsimp only
      cases hfs : m.fanStep cur with
      | none => simp
      | some nxt =>
        dsimp only
        split
        · simp
        · rw [ih nxt (acc ++ [(he.vertex, he.edge)]),
            ih nxt ([] ++ [(he.vertex, he.edge)])]
          simp

theorem findEdgeBetweenWalk_eq (m : Mesh) (s v2 : ℕ) :
    ∀ (fuel cur : ℕ),
      findEdgeBetweenWalk m s v2 fuel cur =
        ((neighborsWalk m s fuel cur []).find?
          (fun p => p.1 == v2)).map (fun p => p.2) := by
  intro fuel
  induction fuel with
  | zero => intro cur; simp [findEdgeBetweenWalk, neighborsWalk]
  | succ n ih =>
    intro cur
    rw [findEdgeBetweenWalk, neighborsWalk]
    cases hhe : m.halfedges.find? cur with
    | none => simp
    | some he =>
      dsimp only
      by_cases hv : he.vertex = v2
      · rw [if_pos hv]
        cases hfs : m.fanStep cur with
        | none => simp [List.find?_cons, hv]
        | some nxt =>
          dsimp only
          split
          · simp [List.find?_cons, hv]
          · rw [neighborsWalk_acc m s n nxt ([] ++ [(he.vertex, he.edge)])]
            simp [List.find?_cons, hv]
      · rw [if_neg hv]
        cases hfs : m.fanStep cur with
        | none => simp [List.find?_cons, hv]
        | some nxt =>
          dsimp only
          split
          · simp [List.find?_cons, hv]
          · rw [ih nxt, neighborsWalk_acc m s n nxt ([] ++ [(he.vertex, he.edge)])]
            simp [List.find?_append, List.find?_cons, hv]

theorem findEdgeBetween_eq (m : Mesh) (u v : ℕ) :
    findEdgeBetween m u v =
      ((fanOf m u).find? (fun p => p.1 == v)).map (fun p => p.2) := by
  unfold findEdgeBetween fanOf getNeighbors
  cases hr : m.vertices.find? u with
  | none => simp
  | some r =>
    simp only [Option.bind_eq_bind, Option.some_bind]
    cases hh : r.halfedge with
    | none => simp
    | some h0 =>
      simp only [Option.some_bind]
      exact findEdgeBetweenWalk_eq m h0 v (m.halfedges.length + 1) h0

theorem find?_fst_mem (v e : ℕ) :
    ∀ (L : List (ℕ × ℕ)), (v, e) ∈ L → (L.map Prod.fst).Nodup →
      L.find? (fun p => p.1 == v) = some (v, e) := by
  intro L
  induction L with
  | nil => intro hm; exact absurd hm (List.not_mem_nil _)
  | cons a tl ih =>
    intro hm hnd
    rcases List.mem_cons.mp hm with ha | ha
    · rw [← ha]
      simp [List.find?_cons]
    · by_cases hv : a.1 = v
      · exfalso
        simp only [List.map_cons, List.nodup_cons] at hnd
        exact hnd.1 (hv ▸ (List.mem_map.mpr ⟨(v, e), ha, rfl⟩))
      · have hb : (a.1 == v) = false := by simp [hv]
        rw [List.find?_cons, hb]
        refine ih ha ?_
        simp only [List.map_cons, List.nodup_cons] at hnd
        exact hnd.2

theorem fan_findEdgeBetween (m : Mesh) (wf : MeshWF m) (u v e : ℕ)
    (hmem : (v, e) ∈ fanOf m u) : findEdgeBetween m u v = some e := by
  rw [findEdgeBetween_eq, find?_fst_mem v e (fanOf m u) hmem (wf.fanNodupAll u)]
  rfl

theorem heapPush_mem (h : List PQEntry) (e a : PQEntry) :
    a ∈ heapPush h e ↔ a ∈ h ∨ a = e := by
  rw [(heapPush_perm h e).mem_iff]
  simp

theorem heapPop_top_mem (h : List PQEntry) (top : PQEntry)
    (h' : List PQEntry) (hp : heapPop h = some (top, h')) : top ∈ h :=
  (heapPop_perm h top h' hp).mem_iff.mp (List.mem_cons_self top h')

theorem heapPop_mem_of_mem (h : List PQEntry) (top : PQEntry)
    (h' : List PQEntry) (hp : heapPop h = some (top, h')) (a : PQEntry)
    (ha : a ∈ h') : a ∈ h :=
  (heapPop_perm h top h' hp).mem_iff.mp (List.mem_cons_of_mem top ha)

theorem heapPop_mem_of_ne (h : List PQEntry) (top : PQEntry)
    (h' : List PQEntry) (hp : heapPop h = some (top, h')) (a : PQEntry)
    (ha : a ∈ h) (hne : a ≠ top) : a ∈ h' := by
  have hperm := heapPop_perm h top h' hp
  rcases List.mem_cons.mp (hperm.mem_iff.mpr ha) with h1 | h1
  · exact absurd h1 hne
  · exact h1

theorem heapPush_length (h : List PQEntry) (e : PQEntry) :
    (heapPush h e).length = h.length + 1 := by
  rw [(heapPush_perm h e).length_eq]
  simp

theorem heapPop_length (h : List PQEntry) (top : PQEntry)
    (h' : List PQEntry) (hp : heapPop h = some (top, h')) :
    h.length = h'.length + 1 := by
  rw [← (heapPop_perm h top h' hp).length_eq]
  simp

theorem nodup_subset_length_le {l k : List ℕ} (hn : l.Nodup)
    (hs : ∀ x ∈ l, x ∈ k) : l.length ≤ k.length := by
  have h1 : l.toFinset.card = l.length := List.toFinset_card_of_nodup hn
  have h2 : l.toFinset ⊆ k.toFinset := by
    intro x hx
    exact List.mem_toFinset.mpr (hs x (List.mem_toFinset.mp hx))
  calc l.length = l.toFinset.card := h1.symm
    _ ≤ k.toFinset.card := Finset.card_le_card h2
    _ ≤ k.length := List.toFinset_card_le k

/-- The invariant of the Dijkstra main loop, relating the evolving state to
the mesh, the source and the (optional) target.  Every field is a fact the
source code maintains; together they give the pop-min property, the
parent-chain coherence used by `reconstructPath`, and the reachability
characterisation of `targetReached`. -/
structure DInv (m : Mesh) (src : ℕ) (targetId : Option ℕ)
    (st : DijkstraState) : Prop where
  ordered : heapOrdered st.heap
  entries_dist : ∀ p ∈ st.heap, ∃ dv,
    st.distances.find? p.1 = some dv ∧ dv ≤ p.2
  exact_entry : ∀ v dv, st.distances.find? v = some dv → v ∉ st.visited →
    (v, dv) ∈ st.heap
  parents_coh : ∀ v pu, st.parents.find? v = some (some pu) →
    pu ∈ st.visited ∧ v ≠ src ∧ (m.vertices.find? v).isSome ∧
    ∃ dpu dv e, st.distances.find? pu = some dpu ∧
      st.distances.find? v = some dv ∧
      findEdgeBetween m pu v = some e ∧
      dv = dpu + ((m.edges.find? e).map (·.length)).getD 0
  parents_order : ∀ v pu, st.parents.find? v = some (some pu) →
    v ∈ st.visited → st.visited.indexOf pu < st.visited.indexOf v
  src_dist : st.distances.find? src = some 0
  src_parent : st.parents.find? src = some none
  parent_none : ∀ v, st.parents.find? v = some none → v = src
  dist_nonneg : ∀ v dv, st.distances.find? v = some dv → 0 ≤ dv
  dist_parent : ∀ v dv, st.distances.find? v = some dv →
    v = src ∨ ∃ pu, st.parents.find? v = some (some pu)
  visited_dist : ∀ v ∈ st.visited, ∃ dv, st.distances.find? v = some dv
  src_first : st.visited = [] ∧ st.heap = [(src, 0)] ∨
    ∃ rest, st.visited = src :: rest
  visited_nodup : st.visited.Nodup
  visited_reach : ∀ v ∈ st.visited, Reach m src v
  heap_reach : ∀ p ∈ st.heap, Reach m src p.1
  target_unvisited : st.targetReached = false → ∀ t, targetId = some t →
    t ∉ st.visited
  reached : st.targetReached = true → ∃ t, targetId = some t ∧
    t ∈ st.visited ∧ Reach m src t

theorem contains_eq_decide_mem (l : List ℕ) (a : ℕ) :
    l.contains a = decide (a ∈ l) := by
  simp [List.contains]

/-- The neighbours of every visited vertex already have recorded distances
(the loop re-establishes this for a vertex right after relaxing its fan, so
it is threaded separately from `DInv`; it is not claimed for the final state
of a run that broke out at the target). -/
def FanDist (m : Mesh) (st : DijkstraState) : Prop :=
  st.targetReached = false → ∀ u ∈ st.visited, ∀ p ∈ fanOf m u,
    ∃ dv, st.distances.find? p.1 = some dv

theorem relaxUpdate_inv (m : Mesh) (wf : MeshWF m) (src : ℕ)
    (targetId : Option ℕ) (u : ℕ) (d : ℚ) (v e : ℕ)
    (st : DijkstraState) (inv : DInv m src targetId st)
    (hu : u ∈ st.visited) (hd : st.distances.find? u = some d)
    (hp : (v, e) ∈ fanOf m u) (hv : v ∉ st.visited)
    (himp : st.distances.find? v = none ∨
      ∃ old, st.distances.find? v = some old ∧
        d + ((m.edges.find? e).map (·.length)).getD 0 < old) :
    DInv m src targetId
      { st with
        distances := st.distances.setk v
          (d + ((m.edges.find? e).map (·.length)).getD 0),
        parents := st.parents.setk v (some u),
        heap := heapPush st.heap
          (v, d + ((m.edges.find? e).map (·.length)).getD 0) } := by
  set len := ((m.edges.find? e).map (·.length)).getD 0 with hlen
  have hlen0 : 0 ≤ len := wf.lenNonneg e
  have hd0 : 0 ≤ d := inv.dist_nonneg u d hd
  have hnd0 : 0 ≤ d + len := by linarith
  have hvsrc : v ≠ src := by
    intro hh
    rcases himp with h1 | ⟨old, h1, h2⟩
    · rw [hh, inv.src_dist] at h1
      exact Option.noConfusion h1
    · rw [hh, inv.src_dist] at h1
      have : old = 0 := (Option.some.inj h1).symm
      rw [this] at h2
      linarith
  have huv : u ≠ v := fun hh => hv (hh ▸ hu)
  refine ⟨?_, ?_, ?_, ?_, ?_, ?_, ?_, ?_, ?_, ?_, ?_, ?_, ?_, ?_, ?_, ?_,
    ?_⟩
  · exact heapPush_ordered st.heap (v, d + len) inv.ordered
  · intro q hq
    rcases (heapPush_mem st.heap (v, d + len) q).mp hq with hq1 | hq1
    · obtain ⟨dv, hdv, hdvle⟩ := inv.entries_dist q hq1
      by_cases hqv : q.1 = v
      · refine ⟨d + len, ?_, ?_⟩
        · rw [IdMap.find?_setk]
          simp [hqv]
        · rcases himp with h1 | ⟨old, h1, h2⟩
          · rw [hqv, h1] at hdv
            exact Option.noConfusion hdv
          · rw [hqv, h1] at hdv
            have hoe := Option.some.inj hdv
            linarith
      · exact ⟨dv, by rw [IdMap.find?_setk, if_neg hqv]; exact hdv, hdvle⟩
    · refine ⟨d + len, ?_, ?_⟩
      · rw [IdMap.find?_setk, if_pos (by rw [hq1])]
      · rw [hq1]
  · intro w dw hdw hwv
    simp only at hdw hwv
    by_cases hwv2 : w = v
    · rw [IdMap.find?_setk, if_pos hwv2] at hdw
      have : dw = d + len := (Option.some.inj hdw).symm
      rw [hwv2, this]
      exact (heapPush_mem _ _ _).mpr (Or.inr rfl)
    · rw [IdMap.find?_setk, if_neg hwv2] at hdw
      exact (heapPush_mem _ _ _).mpr
        (Or.inl (inv.exact_entry w dw hdw hwv))
  · intro w pw hpw
    simp only at hpw
    by_cases hwv : w = v
    · rw [IdMap.find?_setk, if_pos hwv] at hpw
      have hpwu : pw = u := by
        have := Option.some.inj hpw
        exact (Option.some.inj this).symm
      refine ⟨hpwu ▸ hu, hwv ▸ hvsrc, hwv ▸ wf.fanInAll u (v, e) hp, ?_⟩
      refine ⟨d, d + len, e, ?_, ?_, ?_, rfl⟩
      · rw [hpwu, IdMap.find?_setk, if_neg huv]
        exact hd
      · rw [IdMap.find?_setk, if_pos hwv]
      · rw [hpwu, hwv]
        exact fan_findEdgeBetween m wf u v e hp
    · rw [IdMap.find?_setk, if_neg hwv] at hpw
      obtain ⟨h1, h2, h3, dpu, dw, e', h4, h5, h6, h7⟩ :=
        inv.parents_coh w pw hpw
      have hpwv : pw ≠ v := fun hh => hv (hh ▸ h1)
      refine ⟨h1, h2, h3, dpu, dw, e', ?_, ?_, h6, h7⟩
      · rw [IdMap.find?_setk, if_neg hpwv]
        exact h4
      · rw [IdMap.find?_setk, if_neg hwv]
        exact h5
  · intro w pw hpw hwvis
    simp only at hpw hwvis ⊢
    by_cases hwv : w = v
    · exact absurd (hwv ▸ hwvis) hv
    · rw [IdMap.find?_setk, if_neg hwv] at hpw
      exact inv.parents_order w pw hpw hwvis
  · show IdMap.find? (st.distances.setk v _) src = some 0
    rw [IdMap.find?_setk, if_neg (fun hh => hvsrc hh.symm)]
    exact inv.src_dist
  · show IdMap.find? (st.parents.setk v (some u)) src = some none
    rw [IdMap.find?_setk, if_neg (fun hh => hvsrc hh.symm)]
    exact inv.src_parent
  · intro w hw
    simp only at hw
    by_cases hwv : w = v
    · rw [IdMap.find?_setk, if_pos hwv] at hw
      exact absurd (Option.some.inj hw) (by simp)
    · rw [IdMap.find?_setk, if_neg hwv] at hw
      exact inv.parent_none w hw
  · intro w dw hdw
    simp only at hdw
    by_cases hwv : w = v
    · rw [IdMap.find?_setk, if_pos hwv] at hdw
      have : dw = d + len := (Option.some.inj hdw).symm
      rw [this]
      exact hnd0
    · rw [IdMap.find?_setk, if_neg hwv] at hdw
      exact inv.dist_nonneg w dw hdw
  · intro w dw hdw
    simp only at hdw ⊢
    by_cases hwv : w = v
    · refine Or.inr ⟨u, ?_⟩
      rw [IdMap.find?_setk, if_pos hwv]
    · rw [IdMap.find?_setk, if_neg hwv] at hdw
      rcases inv.dist_parent w dw hdw with h1 | ⟨pu, h1⟩
      · exact Or.inl h1
      · exact Or.inr ⟨pu, by rw [IdMap.find?_setk, if_neg hwv]; exact h1⟩
  · intro w hw
    simp only at hw ⊢
    obtain ⟨dw, hdw⟩ := inv.visited_dist w hw
    have hwv : w ≠ v := fun hh => hv (hh ▸ hw)
    exact ⟨dw, by rw [IdMap.find?_setk, if_neg hwv]; exact hdw⟩
  · rcases inv.src_first with ⟨h1, _⟩ | ⟨rest, h2⟩
    · exact absurd (h1 ▸ hu) (List.not_mem_nil u)
    · exact Or.inr ⟨rest, h2⟩
  · exact inv.visited_nodup
  · exact inv.visited_reach
  · intro q hq
    simp only at hq
    rcases (heapPush_mem st.heap (v, d + len) q).mp hq with hq1 | hq1
    · exact inv.heap_reach q hq1
    · rw [hq1]
      exact Reach.step (inv.visited_reach u hu) hp
  · exact inv.target_unvisited
  · intro htr
    obtain ⟨t, h1, h2, h3⟩ := inv.reached htr
    exact ⟨t, h1, h2, h3⟩

theorem relaxNeighbors_nil (m : Mesh) (u : ℕ) (d : ℚ) (st : DijkstraState) :
    relaxNeighbors m u d st [] = st := rfl

theorem relaxNeighbors_cons (m : Mesh) (u : ℕ) (d : ℚ) (st : DijkstraState)
    (p : ℕ × ℕ) (L : List (ℕ × ℕ)) :
    relaxNeighbors m u d st (p :: L) =
      relaxNeighbors m u d
        (if st.visited.contains p.1 then st
         else
           let len := ((m.edges.find? p.2).map (·.length)).getD 0
           let newDist := d + len
           let improve :=
             match st.distances.find? p.1 with
             | none => true
             | some oldDist => decide (newDist < oldDist)
           if improve then
             { st with
               distances := st.distances.setk p.1 newDist,
               parents := st.parents.setk p.1 (some u),
               heap := heapPush st.heap (p.1, newDist) }
           else st) L := by
  rw [relaxNeighbors, relaxNeighbors, List.foldl_cons]

theorem relaxNeighbors_inv (m : Mesh) (wf : MeshWF m) (src : ℕ)
    (targetId : Option ℕ) (u : ℕ) (d : ℚ) :
    ∀ (L : List (ℕ × ℕ)) (st : DijkstraState),
      DInv m src targetId st → u ∈ st.visited →
      st.distances.find? u = some d → (∀ p ∈ L, p ∈ fanOf m u) →
      DInv m src targetId (relaxNeighbors m u d st L)
      ∧ (relaxNeighbors m u d st L).visited = st.visited
      ∧ (relaxNeighbors m u d st L).targetReached = st.targetReached
      ∧ (∀ v, (st.distances.find? v).isSome →
          ((relaxNeighbors m u d st L).distances.find? v).isSome)
      ∧ (∀ v, v ∈ st.visited →
          (relaxNeighbors m u d st L).distances.find? v =
            st.distances.find? v)
      ∧ (∀ p ∈ L, ((relaxNeighbors m u d st L).distances.find? p.1).isSome)
      := by
  intro L
  induction L with
  | nil =>
    intro st inv hu hd _
    rw [relaxNeighbors_nil]
    exact ⟨inv, rfl, rfl, fun v h => h, fun v _ => rfl,
      fun p hp => absurd hp (List.not_mem_nil p)⟩
  | cons p L ih =>
    intro st inv hu hd hsub
    rw [relaxNeighbors_cons]
    have hpfan : p ∈ fanOf m u := hsub p (List.mem_cons_self p L)
    by_cases hvis : st.visited.contains p.1
    · rw [if_pos hvis]
      have hrec := ih st inv hu hd
        (fun q hq => hsub q (List.mem_cons_of_mem p hq))
      refine ⟨hrec.1, hrec.2.1, hrec.2.2.1, hrec.2.2.2.1, hrec.2.2.2.2.1,
        ?_⟩
      intro q hq
      rcases List.mem_cons.mp hq with hq1 | hq1
      · have hmem : p.1 ∈ st.visited := by
          rw [contains_eq_decide_mem] at hvis
          simpa using hvis
        obtain ⟨dv, hdv⟩ := inv.visited_dist p.1 hmem
        rw [hq1, hrec.2.2.2.2.1 p.1 hmem, hdv]
        rfl
      · exact hrec.2.2.2.2.2 q hq1
    · rw [if_neg hvis]
      have hpm : p.1 ∉ st.visited := by
        rw [contains_eq_decide_mem] at hvis
        simpa using hvis
      dsimp only
      by_cases himp : (match st.distances.find? p.1 with
          | none => true
          | some oldDist =>
            decide (d + ((m.edges.find? p.2).map (·.length)).getD 0 <
              oldDist)) = true
      · rw [if_pos himp]
        have himp' : st.distances.find? p.1 = none ∨
            ∃ old, st.distances.find? p.1 = some old ∧
              d + ((m.edges.find? p.2).map (·.length)).getD 0 < old := by
          cases hdp : st.distances.find? p.1 with
          | none => exact Or.inl rfl
          | some old =>
            rw [hdp] at himp
            exact Or.inr ⟨old, rfl, by simpa using himp⟩
        have hinv' := relaxUpdate_inv m wf src targetId u d p.1 p.2 st inv
          hu hd hpfan hpm himp'
        have huv : u ≠ p.1 := fun hh => hpm (hh ▸ hu)
        have hd' : (({ st with
            distances := st.distances.setk p.1
              (d + ((m.edges.find? p.2).map (·.length)).getD 0),
            parents := st.parents.setk p.1 (some u),
            heap := heapPush st.heap
              (p.1, d + ((m.edges.find? p.2).map (·.length)).getD 0) } :
            DijkstraState)).distances.find? u = some d := by
          show IdMap.find? (st.distances.setk p.1 _) u = some d
          rw [IdMap.find?_setk, if_neg huv]
          exact hd
        have hrec := ih _ hinv' hu hd'
          (fun q hq => hsub q (List.mem_cons_of_mem p hq))
        refine ⟨hrec.1, hrec.2.1, hrec.2.2.1, ?_, ?_, ?_⟩
        · intro v hvs
          refine hrec.2.2.2.1 v ?_
          show (IdMap.find? (st.distances.setk p.1 _) v).isSome
          rw [IdMap.find?_setk]
          split
          · rfl
          · exact hvs
        · intro v hvvis
          have hvp : v ≠ p.1 := fun hh => hpm (hh ▸ hvvis)
          rw [hrec.2.2.2.2.1 v hvvis]
          show IdMap.find? (st.distances.setk p.1 _) v = _
          rw [IdMap.find?_setk, if_neg hvp]
        · intro q hq
          rcases List.mem_cons.mp hq with hq1 | hq1
          · rw [hq1]
            refine hrec.2.2.2.1 p.1 ?_
            show (IdMap.find? (st.distances.setk p.1 _) p.1).isSome
            rw [IdMap.find?_setk, if_pos rfl]
            rfl
          · exact hrec.2.2.2.2.2 q hq1
      · rw [if_neg himp]
        have hdsome : ∃ old, st.distances.find? p.1 = some old := by
          cases hdp : st.distances.find? p.1 with
          | none => rw [hdp] at himp; exact absurd rfl himp
          | some old => exact ⟨old, rfl⟩
        have hrec := ih st inv hu hd
          (fun q hq => hsub q (List.mem_cons_of_mem p hq))
        refine ⟨hrec.1, hrec.2.1, hrec.2.2.1, hrec.2.2.2.1,
          hrec.2.2.2.2.1, ?_⟩
        intro q hq
        rcases List.mem_cons.mp hq with hq1 | hq1
        · obtain ⟨old, hold⟩ := hdsome
          have := hrec.2.2.2.1 p.1 (by rw [hold]; rfl)
          rw [hq1]
          exact this
        · exact hrec.2.2.2.2.2 q hq1

theorem fanOf_eq (m : Mesh) (u : ℕ) (r : VertexRec)
    (h : m.vertices.find? u = some r) : fanOf m u = getNeighbors m r := by
  unfold fanOf
  rw [h]

theorem popVisit_inv (m : Mesh) (src : ℕ) (targetId : Option ℕ)
    (st : DijkstraState) (inv : DInv m src targetId st)
    (u : ℕ) (dcur : ℚ) (heap' : List PQEntry)
    (hpop : heapPop st.heap = some ((u, dcur), heap'))
    (hu : u ∉ st.visited) (b : Bool)
    (htu : b = false → ∀ t, targetId = some t → ¬t ∈ st.visited ++ [u])
    (hre : b = true → ∃ t, targetId = some t ∧ t ∈ st.visited ++ [u] ∧
      Reach m src t) :
    DInv m src targetId
      { st with heap := heap', visited := st.visited ++ [u],
                targetReached := b }
    ∧ st.distances.find? u = some dcur := by
  have htop : (u, dcur) ∈ st.heap := heapPop_top_mem _ _ _ hpop
  obtain ⟨du, hdu, hdule⟩ := inv.entries_dist _ htop
  have hexact := inv.exact_entry u du hdu hu
  have hmin := heapPop_min st.heap (u, dcur) heap' inv.ordered hpop
    (u, du) hexact
  have hdeq : du = dcur := le_antisymm hdule hmin
  have hdc : st.distances.find? u = some dcur := hdeq ▸ hdu
  refine ⟨⟨?_, ?_, ?_, ?_, ?_, ?_, ?_, ?_, ?_, ?_, ?_, ?_, ?_, ?_, ?_, ?_,
    ?_⟩, hdc⟩
  · exact heapPop_ordered st.heap (u, dcur) heap' inv.ordered hpop
  · intro q hq
    exact inv.entries_dist q (heapPop_mem_of_mem _ _ _ hpop q hq)
  · intro w dw hdw hwv
    simp only [List.mem_append, List.mem_singleton] at hwv
    push_neg at hwv
    have hwheap := inv.exact_entry w dw hdw hwv.1
    refine heapPop_mem_of_ne _ _ _ hpop (w, dw) hwheap ?_
    intro hh
    exact hwv.2 (congrArg Prod.fst hh)
  · intro w pw hpw
    obtain ⟨h1, h2, h3, rest⟩ := inv.parents_coh w pw hpw
    exact ⟨List.mem_append.mpr (Or.inl h1), h2, h3, rest⟩
  · intro w pw hpw hwvis
    simp only [List.mem_append, List.mem_singleton] at hwvis
    have hpu : pw ∈ st.visited := (inv.parents_coh w pw hpw).1
    rcases hwvis with hwv | hwv
    · rw [List.indexOf_append_of_mem hpu, List.indexOf_append_of_mem hwv]
      exact inv.parents_order w pw hpw hwv
    · rw [List.indexOf_append_of_mem hpu, hwv,
        List.indexOf_append_of_not_mem (hwv ▸ hu)]
      have h5 : List.indexOf pw st.visited < st.visited.length :=
        List.indexOf_lt_length.mpr hpu
      omega
  · exact inv.src_dist
  · exact inv.src_parent
  · exact inv.parent_none
  · exact inv.dist_nonneg
  · exact inv.dist_parent
  · intro w hw
    simp only [List.mem_append, List.mem_singleton] at hw
    rcases hw with hw | hw
    · exact inv.visited_dist w hw
    · exact ⟨dcur, hw ▸ hdc⟩
  · rcases inv.src_first with ⟨h1, h2⟩ | ⟨rest, h2⟩
    · have hpop2 : heapPop st.heap = some ((src, 0), []) := by
        rw [h2]
        rfl
      rw [hpop2] at hpop
      have : src = u := congrArg (fun x => x.1.1) (Option.some.inj hpop)
      refine Or.inr ⟨[], ?_⟩
      rw [h1, this]
      rfl
    · exact Or.inr ⟨rest ++ [u], by rw [h2]; rfl⟩
  · refine List.Nodup.append inv.visited_nodup (List.nodup_singleton u) ?_
    simp only [List.disjoint_singleton]
    exact hu
  · intro w hw
    simp only [List.mem_append, List.mem_singleton] at hw
    rcases hw with hw | hw
    · exact inv.visited_reach w hw
    · exact hw ▸ inv.heap_reach (u, dcur) htop
  · intro q hq
    exact inv.heap_reach q (heapPop_mem_of_mem _ _ _ hpop q hq)
  · intro hb t ht
    exact htu hb t ht
  · intro hb
    exact hre hb


theorem fanOf_none (m : Mesh) (u : ℕ) (h : m.vertices.find? u = none) :
    fanOf m u = [] := by
  unfold fanOf
  rw [h]

theorem dijkstraLoop_inv (m : Mesh) (wf : MeshWF m) (src : ℕ)
    (targetId : Option ℕ) :
    ∀ (fuel : ℕ) (st : DijkstraState),
      DInv m src targetId st → FanDist m st → st.targetReached = false →
      DInv m src targetId (dijkstraLoop m targetId fuel st)
      ∧ FanDist m (dijkstraLoop m targetId fuel st) := by
  intro fuel
  induction fuel with
  | zero =>
    intro st inv fd _
    rw [dijkstraLoop]
    exact ⟨inv, fd⟩
  | succ n ih =>
    intro st inv fd hfalse
    rw [dijkstraLoop]
    cases hpop : heapPop st.heap with
    | none => exact ⟨inv, fd⟩
    | some pr =>
      obtain ⟨⟨u, dcur⟩, heap'⟩ := pr
      dsimp only
      by_cases hvis : st.visited.contains u
      · rw [if_pos hvis]
        have humem : u ∈ st.visited := by
          rw [contains_eq_decide_mem] at hvis
          simpa using hvis
        have hst1 : DInv m src targetId { st with heap := heap' } := by
          refine ⟨?_, ?_, ?_, inv.parents_coh, inv.parents_order,
            inv.src_dist, inv.src_parent, inv.parent_none, inv.dist_nonneg,
            inv.dist_parent, inv.visited_dist, ?_, inv.visited_nodup,
            inv.visited_reach, ?_, inv.target_unvisited, inv.reached⟩
          · exact heapPop_ordered st.heap (u, dcur) heap' inv.ordered hpop
          · intro q hq
            exact inv.entries_dist q (heapPop_mem_of_mem _ _ _ hpop q hq)
          · intro w dw hdw hwv
            refine heapPop_mem_of_ne _ _ _ hpop (w, dw)
              (inv.exact_entry w dw hdw hwv) ?_
            intro hh
            exact hwv (by rw [(Prod.mk.inj hh).1]; exact humem)
          · rcases inv.src_first with ⟨h1, _⟩ | ⟨rest, h2⟩
            · exact absurd (h1 ▸ humem) (List.not_mem_nil u)
            · exact Or.inr ⟨rest, h2⟩
          · intro q hq
            exact inv.heap_reach q (heapPop_mem_of_mem _ _ _ hpop q hq)
        exact ih { st with heap := heap' } hst1 fd hfalse
      · rw [if_neg hvis]
        have hu : u ∉ st.visited := by
          rw [contains_eq_decide_mem] at hvis
          simpa using hvis
        have hjs : jsSetAdd st.visited u = st.visited ++ [u] := by
          unfold jsSetAdd
          rw [if_neg hu]
        have htopmem : (u, dcur) ∈ st.heap := heapPop_top_mem _ _ _ hpop
        rw [hjs]
        by_cases ht : targetId = some u
        · rw [if_pos ht]
          have hpv := popVisit_inv m src targetId st inv u dcur heap' hpop
            hu true
            (fun hb => absurd hb (by simp))
            (fun _ => ⟨u, ht, List.mem_append.mpr (Or.inr (by simp)),
              inv.heap_reach (u, dcur) htopmem⟩)
          refine ⟨hpv.1, ?_⟩
          intro hb
          exact absurd hb (by simp)
        · rw [if_neg ht]
          have hpv := popVisit_inv m src targetId st inv u dcur heap' hpop
            hu st.targetReached
            (by
              intro _ t htt hmem
              rcases List.mem_append.mp hmem with h1 | h1
              · exact inv.target_unvisited hfalse t htt h1
              · have hteq : t = u := by simpa using h1
                exact ht (hteq ▸ htt))
            (fun hb => by rw [hfalse] at hb; exact absurd hb (by simp))
          have hu2 : u ∈ st.visited ++ [u] :=
            List.mem_append.mpr (Or.inr (by simp))
          cases hvr : m.vertices.find? u with
          | none =>
            have hfd2 : FanDist m
                { st with heap := heap', visited := st.visited ++ [u],
                          targetReached := st.targetReached } := by
              intro hb w hw p hp
              rcases List.mem_append.mp hw with h1 | h1
              · exact fd hfalse w h1 p hp
              · have hwu : w = u := by simpa using h1
                rw [hwu, fanOf_none m u hvr] at hp
                exact absurd hp (List.not_mem_nil p)
            exact ih _ hpv.1 hfd2 hfalse
          | some vrec =>
            have hfan : fanOf m u = getNeighbors m vrec := fanOf_eq m u vrec hvr
            have hrx := relaxNeighbors_inv m wf src targetId u dcur
              (getNeighbors m vrec)
              { st with heap := heap', visited := st.visited ++ [u],
                        targetReached := st.targetReached }
              hpv.1 hu2 hpv.2 (fun p hp => hfan ▸ hp)
            have hfd4 : FanDist m (relaxNeighbors m u dcur
                { st with heap := heap', visited := st.visited ++ [u],
                          targetReached := st.targetReached }
                (getNeighbors m vrec)) := by
              intro hb w hw p hp
              rw [hrx.2.1] at hw
              rcases List.mem_append.mp hw with h1 | h1
              · obtain ⟨dv, hdv⟩ := fd hfalse w h1 p hp
                have hsome := hrx.2.2.2.1 p.1 (by rw [hdv]; rfl)
                exact Option.isSome_iff_exists.mp hsome
              · have hwu : w = u := by simpa using h1
                rw [hwu] at hp
                have hsome := hrx.2.2.2.2.2 p (hfan ▸ hp)
                exact Option.isSome_iff_exists.mp hsome
            have ht4 : (relaxNeighbors m u dcur
                { st with heap := heap', visited := st.visited ++ [u],
                          targetReached := st.targetReached }
                (getNeighbors m vrec)).targetReached = false := by
              rw [hrx.2.2.1]
              exact hfalse
            exact ih _ hrx.1 hfd4 ht4

theorem relaxNeighbors_frozen (m : Mesh) (u : ℕ) (d : ℚ) :
    ∀ (L : List (ℕ × ℕ)) (st : DijkstraState),
      (relaxNeighbors m u d st L).visited = st.visited
      ∧ (relaxNeighbors m u d st L).targetReached = st.targetReached
      ∧ (∀ v ∈ st.visited,
          (relaxNeighbors m u d st L).distances.find? v =
            st.distances.find? v) := by
  intro L
  induction L with
  | nil =>
    intro st
    rw [relaxNeighbors_nil]
    exact ⟨rfl, rfl, fun v _ => rfl⟩
  | cons p L ih =>
    intro st
    rw [relaxNeighbors_cons]
    by_cases hc : st.visited.contains p.1
    · rw [if_pos hc]
      exact ih st
    · rw [if_neg hc]
      have hpm : p.1 ∉ st.visited := by
        rw [contains_eq_decide_mem] at hc
        simpa using hc
      dsimp only
      by_cases himp : (match st.distances.find? p.1 with
          | none => true
          | some oldDist =>
            decide (d + ((m.edges.find? p.2).map (·.length)).getD 0 <
              oldDist)) = true
      · rw [if_pos himp]
        obtain ⟨h1, h2, h3⟩ := ih { st with
          distances := st.distances.setk p.1
            (d + ((m.edges.find? p.2).map (·.length)).getD 0),
          parents := st.parents.setk p.1 (some u),
          heap := heapPush st.heap
            (p.1, d + ((m.edges.find? p.2).map (·.length)).getD 0) }
        refine ⟨h1, h2, ?_⟩
        intro v hv
        rw [h3 v hv]
        show (st.distances.setk p.1 _).find? v = _
        have hvp : ¬(v = p.1) := fun hh => hpm (hh ▸ hv)
        rw [IdMap.find?_setk, if_neg hvp]
      · rw [if_neg himp]
        exact ih st

theorem dijkstraLoop_frozen (m : Mesh) (targetId : Option ℕ) :
    ∀ (fuel : ℕ) (st : DijkstraState) (v : ℕ), v ∈ st.visited →
      (dijkstraLoop m targetId fuel st).distances.find? v =
        st.distances.find? v := by
  intro fuel
  induction fuel with
  | zero =>
    intro st v _
    rw [dijkstraLoop]
  | succ n ih =>
    intro st v hv
    rw [dijkstraLoop]
    cases hpop : heapPop st.heap with
    | none => rfl
    | some pr =>
      obtain ⟨⟨u, dcur⟩, heap'⟩ := pr
      dsimp only
      by_cases hvis : st.visited.contains u
      · rw [if_pos hvis]
        exact ih _ v hv
      · rw [if_neg hvis]
        have hu : u ∉ st.visited := by
          rw [contains_eq_decide_mem] at hvis
          simpa using hvis
        have hjs : jsSetAdd st.visited u = st.visited ++ [u] := by
          unfold jsSetAdd
          rw [if_neg hu]
        rw [hjs]
        have hv2 : v ∈ st.visited ++ [u] := List.mem_append.mpr (Or.inl hv)
        by_cases ht : targetId = some u
        · rw [if_pos ht]
        · rw [if_neg ht]
          cases hvr : m.vertices.find? u with
          | none => exact ih _ v hv2
          | some vrec =>
            obtain ⟨h1, _, h3⟩ := relaxNeighbors_frozen m u dcur
              (getNeighbors m vrec)
              { st with heap := heap', visited := st.visited ++ [u],
                        targetReached := st.targetReached }
            have hv3 : v ∈ (relaxNeighbors m u dcur
                { st with heap := heap', visited := st.visited ++ [u],
                          targetReached := st.targetReached }
                (getNeighbors m vrec)).visited := by
              rw [h1]
              exact hv2
            rw [ih _ v hv3]
            exact h3 v hv2

theorem dijkstraLoop_sync (m : Mesh) (t : ℕ) :
    ∀ (fuel : ℕ) (st : DijkstraState), t ∉ st.visited →
      (dijkstraLoop m (some t) fuel st = dijkstraLoop m none fuel st
        ∧ (dijkstraLoop m (some t) fuel st).targetReached = st.targetReached)
      ∨ ((dijkstraLoop m (some t) fuel st).targetReached = true
        ∧ t ∈ (dijkstraLoop m (some t) fuel st).visited
        ∧ (dijkstraLoop m none fuel st).distances.find? t =
            (dijkstraLoop m (some t) fuel st).distances.find? t) := by
  intro fuel
  induction fuel with
  | zero =>
    intro st _
    rw [dijkstraLoop, dijkstraLoop]
    exact Or.inl ⟨rfl, rfl⟩
  | succ n ih =>
    intro st hts
    rw [dijkstraLoop, dijkstraLoop]
    cases hpop : heapPop st.heap with
    | none => exact Or.inl ⟨rfl, rfl⟩
    | some pr =>
      obtain ⟨⟨u, dcur⟩, heap'⟩ := pr
      dsimp only
      by_cases hvis : st.visited.contains u
      · rw [if_pos hvis, if_pos hvis]
        exact ih _ hts
      · rw [if_neg hvis, if_neg hvis]
        have hu : u ∉ st.visited := by
          rw [contains_eq_decide_mem] at hvis
          simpa using hvis
        have hjs : jsSetAdd st.visited u = st.visited ++ [u] := by
          unfold jsSetAdd
          rw [if_neg hu]
        rw [hjs]
        have hnone : ¬((none : Option ℕ) = some u) := by simp
        rw [if_neg hnone]
        by_cases htu : t = u
        · have hsome : (some t : Option ℕ) = some u := by rw [htu]
          rw [if_pos hsome]
          refine Or.inr ⟨rfl, ?_, ?_⟩
          · show t ∈ st.visited ++ [u]
            rw [htu]
            exact List.mem_append.mpr (Or.inr (by simp))
          · have htc : t ∈ st.visited ++ [u] := by
              rw [htu]
              exact List.mem_append.mpr (Or.inr (by simp))
            cases hvr : m.vertices.find? u with
            | none => exact dijkstraLoop_frozen m none n _ t htc
            | some vrec =>
              obtain ⟨h1, _, h3⟩ := relaxNeighbors_frozen m u dcur
                (getNeighbors m vrec)
                { st with heap := heap', visited := st.visited ++ [u],
                          targetReached := st.targetReached }
              have htc2 : t ∈ (relaxNeighbors m u dcur
                  { st with heap := heap', visited := st.visited ++ [u],
                            targetReached := st.targetReached }
                  (getNeighbors m vrec)).visited := by
                rw [h1]
                exact htc
              rw [dijkstraLoop_frozen m none n _ t htc2]
              exact h3 t htc
        · have hsome : ¬((some t : Option ℕ) = some u) :=
            fun hh => htu (Option.some.inj hh)
          rw [if_neg hsome]
          have hts2 : t ∉ st.visited ++ [u] := by
            intro hh
            rcases List.mem_append.mp hh with h1 | h1
            · exact hts h1
            · exact htu (by simpa using h1)
          cases hvr : m.vertices.find? u with
          | none => exact ih _ hts2
          | some vrec =>
            obtain ⟨h1, h2, _⟩ := relaxNeighbors_frozen m u dcur
              (getNeighbors m vrec)
              { st with heap := heap', visited := st.visited ++ [u],
                        targetReached := st.targetReached }
            have hts3 : t ∉ (relaxNeighbors m u dcur
                { st with heap := heap', visited := st.visited ++ [u],
                          targetReached := st.targetReached }
                (getNeighbors m vrec)).visited := by
              rw [h1]
              exact hts2
            rcases ih _ hts3 with ⟨he, hr⟩ | hrr
            · exact Or.inl ⟨he, by rw [hr, h2]⟩
            · exact Or.inr hrr

/-- The termination measure of the Dijkstra loop: heap size plus the fan
sizes of the not-yet-visited vertices. -/
def sumUnvisited (m : Mesh) (visited : List ℕ) : ℕ :=
  (m.vertices.entries.map fun p =>
    if p.1 ∈ visited then 0 else (getNeighbors m p.2).length).sum

theorem sum_map_le {α : Type} (l : List α) (f g : α → ℕ)
    (h : ∀ x ∈ l, f x ≤ g x) : (l.map f).sum ≤ (l.map g).sum := by
  induction l with
  | nil => simp
  | cons a tl ih =>
    simp only [List.map_cons, List.sum_cons]
    have h1 := h a (List.mem_cons_self a tl)
    have h2 := ih (fun x hx => h x (List.mem_cons_of_mem a hx))
    omega

theorem sumUnvisited_mono (m : Mesh) (v1 v2 : List ℕ)
    (h : ∀ x ∈ v1, x ∈ v2) : sumUnvisited m v2 ≤ sumUnvisited m v1 := by
  refine sum_map_le _ _ _ ?_
  intro p _
  by_cases h1 : p.1 ∈ v1
  · rw [if_pos h1, if_pos (h p.1 h1)]
  · rw [if_neg h1]
    split
    · exact Nat.zero_le _
    · exact le_refl _

theorem sumUnvisited_decrement (m : Mesh) (visited : List ℕ) (u : ℕ)
    (vrec : VertexRec) (hfind : m.vertices.find? u = some vrec)
    (hu : u ∉ visited) :
    sumUnvisited m (visited ++ [u]) + (getNeighbors m vrec).length ≤
      sumUnvisited m visited := by
  have hmem : (u, vrec) ∈ m.vertices.entries :=
    IdMap.find?_mem m.vertices u vrec hfind
  obtain ⟨l1, l2, hsplit⟩ := List.append_of_mem hmem
  unfold sumUnvisited
  rw [hsplit]
  simp only [List.map_append, List.map_cons, List.sum_append, List.sum_cons]
  have hle1 : (l1.map fun p =>
      if p.1 ∈ visited ++ [u] then 0 else (getNeighbors m p.2).length).sum ≤
      (l1.map fun p =>
        if p.1 ∈ visited then 0 else (getNeighbors m p.2).length).sum := by
    refine sum_map_le _ _ _ ?_
    intro p _
    by_cases h1 : p.1 ∈ visited
    · rw [if_pos h1, if_pos (List.mem_append.mpr (Or.inl h1))]
    · rw [if_neg h1]
      split
      · exact Nat.zero_le _
      · exact le_refl _
  have hle2 : (l2.map fun p =>
      if p.1 ∈ visited ++ [u] then 0 else (getNeighbors m p.2).length).sum ≤
      (l2.map fun p =>
        if p.1 ∈ visited then 0 else (getNeighbors m p.2).length).sum := by
    refine sum_map_le _ _ _ ?_
    intro p _
    by_cases h1 : p.1 ∈ visited
    · rw [if_pos h1, if_pos (List.mem_append.mpr (Or.inl h1))]
    · rw [if_neg h1]
      split
      · exact Nat.zero_le _
      · exact le_refl _
  have hx1 : (if (u, vrec).1 ∈ visited ++ [u] then 0
      else (getNeighbors m (u, vrec).2).length) = 0 := by
    rw [if_pos (List.mem_append.mpr (Or.inr (by simp)))]
  have hx2 : (if (u, vrec).1 ∈ visited then 0
      else (getNeighbors m (u, vrec).2).length) =
      (getNeighbors m vrec).length := by
    rw [if_neg hu]
  rw [hx1, hx2]
  omega

theorem relaxNeighbors_heap_le (m : Mesh) (u : ℕ) (d : ℚ) :
    ∀ (L : List (ℕ × ℕ)) (st : DijkstraState),
      (relaxNeighbors m u d st L).heap.length ≤ st.heap.length + L.length := by
  intro L
  induction L with
  | nil =>
    intro st
    rw [relaxNeighbors_nil]
    simp
  | cons p L ih =>
    intro st
    rw [relaxNeighbors_cons]
    by_cases hc : st.visited.contains p.1
    · rw [if_pos hc]
      have := ih st
      simp only [List.length_cons]
      omega
    · rw [if_neg hc]
      dsimp only
      by_cases himp : (match st.distances.find? p.1 with
          | none => true
          | some oldDist =>
            decide (d + ((m.edges.find? p.2).map (·.length)).getD 0 <
              oldDist)) = true
      · rw [if_pos himp]
        have h1 := ih { st with
          distances := st.distances.setk p.1
            (d + ((m.edges.find? p.2).map (·.length)).getD 0),
          parents := st.parents.setk p.1 (some u),
          heap := heapPush st.heap
            (p.1, d + ((m.edges.find? p.2).map (·.length)).getD 0) }
        have h2 : (heapPush st.heap
            (p.1, d + ((m.edges.find? p.2).map (·.length)).getD 0)).length =
            st.heap.length + 1 := heapPush_length _ _
        have h1' : (relaxNeighbors m u d { st with
            distances := st.distances.setk p.1
              (d + ((m.edges.find? p.2).map (·.length)).getD 0),
            parents := st.parents.setk p.1 (some u),
            heap := heapPush st.heap
              (p.1, d + ((m.edges.find? p.2).map (·.length)).getD 0) }
            L).heap.length ≤
            (heapPush st.heap
              (p.1, d + ((m.edges.find? p.2).map (·.length)).getD 0)).length
              + L.length := h1
        simp only [List.length_cons]
        omega
      · rw [if_neg himp]
        have := ih st
        simp only [List.length_cons]
        omega

theorem dijkstraLoop_terminates (m : Mesh) (targetId : Option ℕ) :
    ∀ (fuel : ℕ) (st : DijkstraState),
      st.heap.length + sumUnvisited m st.visited < fuel →
      (dijkstraLoop m targetId fuel st).heap = [] ∨
        (dijkstraLoop m targetId fuel st).targetReached = true := by
  intro fuel
  induction fuel with
  | zero =>
    intro st hlt
    exact absurd hlt (Nat.not_lt_zero _)
  | succ n ih =>
    intro st hlt
    rw [dijkstraLoop]
    cases hpop : heapPop st.heap with
    | none => exact Or.inl (heapPop_none_iff st.heap |>.mp hpop)
    | some pr =>
      obtain ⟨⟨u, dcur⟩, heap'⟩ := pr
      have hlen : st.heap.length = heap'.length + 1 :=
        heapPop_length st.heap (u, dcur) heap' hpop
      dsimp only
      by_cases hvis : st.visited.contains u
      · rw [if_pos hvis]
        exact ih _ (by simpa using by omega)
      · rw [if_neg hvis]
        have hu : u ∉ st.visited := by
          rw [contains_eq_decide_mem] at hvis
          simpa using hvis
        have hjs : jsSetAdd st.visited u = st.visited ++ [u] := by
          unfold jsSetAdd
          rw [if_neg hu]
        rw [hjs]
        have hmono : sumUnvisited m (st.visited ++ [u]) ≤
            sumUnvisited m st.visited :=
          sumUnvisited_mono m st.visited (st.visited ++ [u])
            (fun x hx => List.mem_append.mpr (Or.inl hx))
        by_cases ht : targetId = some u
        · rw [if_pos ht]
          exact Or.inr rfl
        · rw [if_neg ht]
          cases hvr : m.vertices.find? u with
          | none =>
            refine ih _ ?_
            show heap'.length + sumUnvisited m (st.visited ++ [u]) < n
            omega
          | some vrec =>
            refine ih _ ?_
            have hdec := sumUnvisited_decrement m st.visited u vrec hvr hu
            have hheap := relaxNeighbors_heap_le m u dcur
              (getNeighbors m vrec)
              { st with heap := heap', visited := st.visited ++ [u],
                        targetReached := st.targetReached }
            obtain ⟨hv1, _, _⟩ := relaxNeighbors_frozen m u dcur
              (getNeighbors m vrec)
              { st with heap := heap', visited := st.visited ++ [u],
                        targetReached := st.targetReached }
            rw [hv1]
            show (relaxNeighbors m u dcur _ (getNeighbors m vrec)).heap.length
              + sumUnvisited m (st.visited ++ [u]) < n
            have hh2 : (relaxNeighbors m u dcur
                { st with heap := heap', visited := st.visited ++ [u],
                          targetReached := st.targetReached }
                (getNeighbors m vrec)).heap.length ≤
                heap'.length + (getNeighbors m vrec).length := hheap
            omega

/-- The state produced by the source-initialisation fold of `runDijkstra`
for a single source. -/
def dijkstraInit (s : ℕ) : DijkstraState :=
  { distances := [(s, 0)], parents := [(s, none)], visited := [],
    heap := [(s, 0)], targetReached := false }

theorem runDijkstra_eq_loop (m : Mesh) (tid : Option ℕ) (s : ℕ) :
    runDijkstra m [s] tid =
      { distances :=
          (dijkstraLoop m tid (dijkstraFuel m [s]) (dijkstraInit s)).distances,
        parents :=
          (dijkstraLoop m tid (dijkstraFuel m [s]) (dijkstraInit s)).parents,
        targetReached := if tid = none then true
          else (dijkstraLoop m tid (dijkstraFuel m [s])
            (dijkstraInit s)).targetReached } := rfl

theorem dijkstraInit_inv (m : Mesh) (s : ℕ) (tid : Option ℕ) :
    DInv m s tid (dijkstraInit s) := by
  refine ⟨?_, ?_, ?_, ?_, ?_, ?_, ?_, ?_, ?_, ?_, ?_, ?_, ?_, ?_, ?_, ?_,
    ?_⟩
  · intro i h1 h2
    simp only [dijkstraInit, List.length_singleton] at h2
    omega
  · intro p hp
    have hp1 : p = (s, 0) := by simpa [dijkstraInit] using hp
    refine ⟨0, ?_, by rw [hp1]⟩
    rw [hp1]
    simp [dijkstraInit, IdMap.find?]
  · intro v dv hdv _
    simp only [dijkstraInit, IdMap.find?] at hdv
    split_ifs at hdv with hsv
    · have : dv = 0 := (Option.some.inj hdv).symm
      simp [dijkstraInit, ← hsv, this]
  · intro v pu hpu
    simp only [dijkstraInit, IdMap.find?] at hpu
    split_ifs at hpu with hsv
    · exact absurd (Option.some.inj hpu) (by simp)
  · intro v pu hpu
    simp only [dijkstraInit, IdMap.find?] at hpu
    split_ifs at hpu with hsv
    · exact absurd (Option.some.inj hpu) (by simp)
  · simp [dijkstraInit, IdMap.find?]
  · simp [dijkstraInit, IdMap.find?]
  · intro v hv
    simp only [dijkstraInit, IdMap.find?] at hv
    split_ifs at hv with hsv
    · exact hsv.symm
  · intro v dv hdv
    simp only [dijkstraInit, IdMap.find?] at hdv
    split_ifs at hdv with hsv
    · have : dv = 0 := (Option.some.inj hdv).symm
      rw [this]
  · intro v dv hdv
    simp only [dijkstraInit, IdMap.find?] at hdv
    split_ifs at hdv with hsv
    · exact Or.inl hsv.symm
  · intro v hv
    exact absurd hv (List.not_mem_nil v)
  · exact Or.inl ⟨rfl, rfl⟩
  · exact List.nodup_nil
  · intro v hv
    exact absurd hv (List.not_mem_nil v)
  · intro p hp
    have hp1 : p = (s, 0) := by simpa [dijkstraInit] using hp
    rw [hp1]
    exact Reach.refl
  · intro _ t _
    exact List.not_mem_nil t
  · intro h
    exact absurd h (by simp [dijkstraInit])

theorem dijkstraInit_fan (m : Mesh) (s : ℕ) : FanDist m (dijkstraInit s) := by
  intro _ u hu
  exact absurd hu (List.not_mem_nil u)

theorem foldl_add_sum {α : Type} (f : α → ℕ) :
    ∀ (l : List α) (n : ℕ),
      l.foldl (fun s p => s + f p) n = n + (l.map f).sum := by
  intro l
  induction l with
  | nil => intro n; simp
  | cons a tl ih =>
    intro n
    rw [List.foldl_cons, ih, List.map_cons, List.sum_cons]
    omega

theorem dijkstraInit_potential (m : Mesh) (s : ℕ) :
    (dijkstraInit s).heap.length +
      sumUnvisited m (dijkstraInit s).visited < dijkstraFuel m [s] := by
  show 1 + sumUnvisited m [] < dijkstraFuel m [s]
  unfold dijkstraFuel sumUnvisited
  rw [foldl_add_sum (fun p => (getNeighbors m p.2).length) m.vertices.entries 0]
  have : (m.vertices.entries.map fun p =>
      if p.1 ∈ ([] : List ℕ) then 0 else (getNeighbors m p.2).length) =
      m.vertices.entries.map fun p => (getNeighbors m p.2).length := by
    refine List.map_congr_left ?_
    intro p _
    rw [if_neg (List.not_mem_nil p.1)]
  rw [this]
  simp

theorem runState_spec (m : Mesh) (wf : MeshWF m) (tid : Option ℕ) (s : ℕ) :
    DInv m s tid (dijkstraLoop m tid (dijkstraFuel m [s]) (dijkstraInit s))
    ∧ ((dijkstraLoop m tid (dijkstraFuel m [s]) (dijkstraInit s)).targetReached
          = false →
        FanDist m (dijkstraLoop m tid (dijkstraFuel m [s]) (dijkstraInit s)))
    ∧ ((dijkstraLoop m tid (dijkstraFuel m [s]) (dijkstraInit s)).heap = []
       ∨ (dijkstraLoop m tid (dijkstraFuel m [s])
            (dijkstraInit s)).targetReached = true) := by
  obtain ⟨h1, h2⟩ := dijkstraLoop_inv m wf s tid (dijkstraFuel m [s])
    (dijkstraInit s) (dijkstraInit_inv m s tid) (dijkstraInit_fan m s) rfl
  exact ⟨h1, fun _ => h2, dijkstraLoop_terminates m tid (dijkstraFuel m [s])
    (dijkstraInit s) (dijkstraInit_potential m s)⟩

theorem visited_closed (m : Mesh) (s : ℕ) (tid : Option ℕ)
    (st : DijkstraState) (inv : DInv m s tid st) (fd : FanDist m st)
    (hheap : st.heap = []) (hfalse : st.targetReached = false) :
    ∀ v, Reach m s v → v ∈ st.visited := by
  intro v hr
  induction hr with
  | refl =>
    rcases inv.src_first with ⟨_, hh⟩ | ⟨rest, h2⟩
    · rw [hheap] at hh
      exact absurd hh (by simp)
    · rw [h2]
      exact List.mem_cons_self s rest
  | step hru hmem ih =>
    next u w e =>
    obtain ⟨dw, hdw⟩ := fd hfalse u ih (w, e) hmem
    by_cases hwv : w ∈ st.visited
    · exact hwv
    · have := inv.exact_entry w dw hdw hwv
      rw [hheap] at this
      exact absurd this (List.not_mem_nil _)

theorem IdMap.mem_keys_of_find? {α : Type} (l : IdMap α) (k : ℕ) (v : α)
    (h : l.find? k = some v) : k ∈ l.keysList := by
  have hm := IdMap.find?_mem l k v h
  exact List.mem_map_of_mem (·.1) hm

theorem visited_le_parents (m : Mesh) (s : ℕ) (tid : Option ℕ)
    (st : DijkstraState) (inv : DInv m s tid st) :
    st.visited.length ≤ st.parents.length := by
  have hsub : ∀ v ∈ st.visited, v ∈ st.parents.keysList := by
    intro v hv
    obtain ⟨dv, hdv⟩ := inv.visited_dist v hv
    rcases inv.dist_parent v dv hdv with h1 | ⟨pu, hpu⟩
    · rw [h1]
      exact IdMap.mem_keys_of_find? st.parents s none inv.src_parent
    · exact IdMap.mem_keys_of_find? st.parents v (some pu) hpu
  have h1 := nodup_subset_length_le inv.visited_nodup hsub
  have h2 : st.parents.keysList.length = st.parents.length :=
    List.length_map _ _
  omega

theorem backtrack_ok (m : Mesh) (s : ℕ) (tid : Option ℕ)
    (st : DijkstraState) (inv : DInv m s tid st) :
    ∀ (fuel : ℕ) (v : ℕ) (acc : List ℕ), v ∈ st.visited →
      st.visited.indexOf v < fuel →
      ∃ chain,
        backtrackParents st.parents s fuel v acc = some (chain ++ acc)
        ∧ chain ≠ [] ∧ chain.head? = some s ∧ chain.getLast? = some v
        ∧ List.Chain' (fun a b => st.parents.find? b = some (some a)) chain
        ∧ ∀ x ∈ chain, x ∈ st.visited := by
  intro fuel
  induction fuel with
  | zero =>
    intro v acc _ h
    exact absurd h (Nat.not_lt_zero _)
  | succ n ih =>
    intro v acc hv hidx
    rw [backtrackParents]
    by_cases hvs : v = s
    · subst hvs
      rw [if_pos rfl]
      refine ⟨[v], by simp, by simp, by simp, by simp,
        List.chain'_singleton v, ?_⟩
      intro x hx
      have hx1 : x = v := by simpa using hx
      rw [hx1]
      exact hv
    · rw [if_neg hvs]
      obtain ⟨dv, hdv⟩ := inv.visited_dist v hv
      rcases inv.dist_parent v dv hdv with h1 | ⟨pu, hpu⟩
      · exact absurd h1 hvs
      · have hcoh := inv.parents_coh v pu hpu
        have hord := inv.parents_order v pu hpu hv
        have hidx2 : st.visited.indexOf pu < n := by omega
        obtain ⟨chain, hbt, hne, hhead, hlast, hchain, hmem⟩ :=
          ih pu (v :: acc) hcoh.1 hidx2
        rw [hpu]
        dsimp only
        refine ⟨chain ++ [v], ?_, by simp, ?_, ?_, ?_, ?_⟩
        · rw [hbt]
          rw [List.append_assoc]
          rfl
        · cases chain with
          | nil => exact absurd rfl hne
          | cons a l =>
            simp only [List.cons_append, List.head?_cons] at hhead ⊢
            exact hhead
        · exact List.getLast?_concat chain
        · refine List.Chain'.append hchain (List.chain'_singleton v) ?_
          intro x hx y hy
          have hx1 : x = pu := by
            rw [hlast] at hx
            have := hx
            simp only [Option.mem_def, Option.some.injEq] at this
            exact this.symm
          have hy1 : y = v := by
            have := hy
            simp only [List.head?_cons, Option.mem_def,
              Option.some.injEq] at this
            exact this.symm
          rw [hx1, hy1]
          exact hpu
        · intro x hx
          rcases List.mem_append.mp hx with h2 | h2
          · exact hmem x h2
          · have : x = v := by simpa using h2
            rw [this]
            exact hv

theorem foldl_rat_add (f : ℕ → ℚ) :
    ∀ (l : List ℕ) (a : ℚ),
      l.foldl (fun s e => s + f e) a = a + l.foldl (fun s e => s + f e) 0 := by
  intro l
  induction l with
  | nil => intro a; simp
  | cons e tl ih =>
    intro a
    rw [List.foldl_cons, List.foldl_cons, ih, ih (0 + f e)]
    ring

theorem pathComputeLength_cons (m : Mesh) (e : ℕ) (es : List ℕ) :
    pathComputeLength m (e :: es) =
      ((m.edges.find? e).map (·.length)).getD 0 + pathComputeLength m es := by
  unfold pathComputeLength
  rw [List.foldl_cons,
    foldl_rat_add (fun e => ((m.edges.find? e).map (·.length)).getD 0) es]
  ring

theorem vte_telescope (m : Mesh) (s : ℕ) (tid : Option ℕ)
    (st : DijkstraState) (inv : DInv m s tid st) :
    ∀ (chain : List ℕ) (v : ℕ) (dv : ℚ),
      st.distances.find? v = some dv → (m.vertices.find? v).isSome →
      List.Chain' (fun a b => st.parents.find? b = some (some a))
        (v :: chain) →
      ∃ edges w dlast,
        verticesToEdges m (v :: chain) = some edges
        ∧ (v :: chain).getLast? = some w
        ∧ st.distances.find? w = some dlast
        ∧ pathComputeLength m edges = dlast - dv := by
  intro chain
  induction chain with
  | nil =>
    intro v dv hdv _ _
    refine ⟨[], v, dv, rfl, rfl, hdv, ?_⟩
    unfold pathComputeLength
    simp
  | cons w rest ih =>
    intro v dv hdv hvsome hchain
    obtain ⟨hrel, hchain'⟩ := List.chain'_cons.mp hchain
    obtain ⟨hpu_vis, hws, hwsome, dpu, dw, e, hdpu, hdw, hedge, heq⟩ :=
      inv.parents_coh w v hrel
    have hdveq : dpu = dv := by
      rw [hdv] at hdpu
      exact (Option.some.inj hdpu).symm
    obtain ⟨edges', wlast, dlast, hvte', hlast', hdlast', hsum'⟩ :=
      ih w dw hdw hwsome hchain'
    obtain ⟨rv, hrv⟩ := Option.isSome_iff_exists.mp hvsome
    obtain ⟨rw', hrw⟩ := Option.isSome_iff_exists.mp hwsome
    refine ⟨e :: edges', wlast, dlast, ?_, ?_, hdlast', ?_⟩
    · show (do
        let _ ← m.vertices.find? v
        let _ ← m.vertices.find? w
        let e ← findEdgeBetween m v w
        let tail ← verticesToEdges m (w :: rest)
        pure (e :: tail)) = some (e :: edges')
      rw [hrv, hrw, hedge, hvte']
      rfl
    · rw [show (v :: w :: rest).getLast? = (w :: rest).getLast? by
        rw [List.getLast?_cons_cons]]
      exact hlast'
    · rw [pathComputeLength_cons, hsum', heq, hdveq]
      ring

theorem dijkstraLoop_self (m : Mesh) (s : ℕ) :
    dijkstraLoop m (some s) (dijkstraFuel m [s]) (dijkstraInit s) =
      { distances := [(s, 0)], parents := [(s, none)], visited := [s],
        heap := [], targetReached := true } := by
  obtain ⟨k, hk⟩ : ∃ k, dijkstraFuel m [s] = k + 1 := ⟨_, rfl⟩
  rw [hk, dijkstraLoop]
  rw [show heapPop (dijkstraInit s).heap = some ((s, (0 : ℚ)), []) from rfl]
  dsimp only
  rw [show (dijkstraInit s).visited.contains s = false from rfl]
  rw [if_neg (by simp)]
  rw [show jsSetAdd (dijkstraInit s).visited s = [s] from rfl]
  rw [if_pos rfl]
  rfl

theorem computePath_self (m : Mesh) (s : ℕ) : computePath m s s = none := by
  unfold computePath
  rw [runDijkstra_eq_loop m (some s) s, dijkstraLoop_self m s]
  rw [if_neg (by simp : ¬(some s = (none : Option ℕ)))]
  dsimp only
  unfold reconstructPath
  have hbt : backtrackParents [(s, (none : Option ℕ))] s
      ([(s, (none : Option ℕ))].length + 2) s [] = some [s] := by
    rw [show ([(s, (none : Option ℕ))].length + 2) = 2 + 1 from rfl]
    rw [backtrackParents]
    rw [if_pos rfl]
  rw [hbt]
  show (if ([s].head? ≠ some s) then none
    else if [s].length < 2 then none
    else do
      let edges ← verticesToEdges m [s]
      let _ ← m.vertices.find? s
      let _ ← m.vertices.find? s
      pure (mkGeodesicPath m edges s s)) = none
  rw [if_neg (by simp)]
  rw [if_pos (by simp)]

theorem computePath_success (m : Mesh) (wf : MeshWF m) (s t : ℕ)
    (hs : (m.vertices.find? s).isSome) (hst : s ≠ t) (hr : Reach m s t) :
    ∃ chain edges d,
      backtrackParents
        (dijkstraLoop m (some t) (dijkstraFuel m [s]) (dijkstraInit s)).parents
        s ((dijkstraLoop m (some t) (dijkstraFuel m [s])
            (dijkstraInit s)).parents.length + 2) t [] = some chain
      ∧ chain.head? = some s ∧ chain.getLast? = some t ∧ 2 ≤ chain.length
      ∧ List.Chain' (fun a b =>
          (dijkstraLoop m (some t) (dijkstraFuel m [s])
            (dijkstraInit s)).parents.find? b = some (some a)) chain
      ∧ verticesToEdges m chain = some edges
      ∧ computePath m s t = some (mkGeodesicPath m edges s t)
      ∧ (dijkstraLoop m (some t) (dijkstraFuel m [s])
          (dijkstraInit s)).distances.find? t = some d
      ∧ pathComputeLength m edges = d := by
  obtain ⟨inv, hfd, hterm⟩ := runState_spec m wf (some t) s
  have htr : (dijkstraLoop m (some t) (dijkstraFuel m [s])
      (dijkstraInit s)).targetReached = true := by
    cases hb : (dijkstraLoop m (some t) (dijkstraFuel m [s])
        (dijkstraInit s)).targetReached with
    | true => rfl
    | false =>
      rcases hterm with hheap | htr2
      · have hclosed := visited_closed m s (some t)
          (dijkstraLoop m (some t) (dijkstraFuel m [s]) (dijkstraInit s))
          inv (hfd hb) hheap hb
        exact absurd (hclosed t hr) (inv.target_unvisited hb t rfl)
      · rw [hb] at htr2
        exact htr2
  obtain ⟨t', ht'eq, ht'mem, _⟩ := inv.reached htr
  have htt : t' = t := (Option.some.inj ht'eq).symm
  rw [htt] at ht'mem
  have hidx : (dijkstraLoop m (some t) (dijkstraFuel m [s])
      (dijkstraInit s)).visited.indexOf t <
      (dijkstraLoop m (some t) (dijkstraFuel m [s])
        (dijkstraInit s)).parents.length + 2 := by
    have h1 := List.indexOf_lt_length.mpr ht'mem
    have h2 := visited_le_parents m s (some t)
      (dijkstraLoop m (some t) (dijkstraFuel m [s]) (dijkstraInit s)) inv
    omega
  obtain ⟨chain, hbt, hne, hhead, hlast, hchain, hmemv⟩ :=
    backtrack_ok m s (some t)
      (dijkstraLoop m (some t) (dijkstraFuel m [s]) (dijkstraInit s)) inv
      ((dijkstraLoop m (some t) (dijkstraFuel m [s])
        (dijkstraInit s)).parents.length + 2) t [] ht'mem hidx
  rw [List.append_nil] at hbt
  obtain ⟨tail, hchain_eq⟩ : ∃ tail, chain = s :: tail := by
    cases chain with
    | nil => exact absurd rfl hne
    | cons a l =>
      have ha : a = s := by
        have := hhead
        simp only [List.head?_cons, Option.some.injEq] at this
        exact this
      exact ⟨l, by rw [ha]⟩
  have hlen2 : 2 ≤ chain.length := by
    rw [hchain_eq]
    cases tail with
    | nil =>
      rw [hchain_eq] at hlast
      have : s = t := by simpa using hlast
      exact absurd this hst
    | cons b l2 => simp
  obtain ⟨edges, w, dlast, hvte, hwlast, hdlast, hsum⟩ :=
    vte_telescope m s (some t)
      (dijkstraLoop m (some t) (dijkstraFuel m [s]) (dijkstraInit s)) inv
      tail s 0 inv.src_dist hs (hchain_eq ▸ hchain)
  have hw : w = t := by
    rw [hchain_eq] at hlast
    rw [hlast] at hwlast
    exact (Option.some.inj hwlast).symm
  rw [hw] at hdlast
  have htsome : (m.vertices.find? t).isSome := by
    rcases inv.dist_parent t dlast hdlast with h1 | ⟨pu, hpu⟩
    · exact absurd h1.symm hst
    · exact (inv.parents_coh t pu hpu).2.2.1
  obtain ⟨rs, hrs⟩ := Option.isSome_iff_exists.mp hs
  obtain ⟨rt, hrt⟩ := Option.isSome_iff_exists.mp htsome
  refine ⟨chain, edges, dlast, hbt, hhead, hlast, hlen2, hchain, ?_, ?_,
    hdlast, by rw [hsum]; ring⟩
  · rw [hchain_eq]
    exact hvte
  · unfold computePath
    rw [runDijkstra_eq_loop m (some t) s]
    rw [if_neg (by simp : ¬((some t : Option ℕ) = none))]
    dsimp only
    rw [htr]
    rw [show (!true) = false from rfl]
    rw [if_neg (by simp)]
    unfold reconstructPath
    dsimp only
    rw [hbt]
    show (if (chain.head? ≠ some s) then none
      else if chain.length < 2 then none
      else do
        let edges ← verticesToEdges m chain
        let _ ← m.vertices.find? s
        let _ ← m.vertices.find? t
        pure (mkGeodesicPath m edges s t)) = some (mkGeodesicPath m edges s t)
    rw [if_neg (by rw [hhead]; simp)]
    rw [if_neg (by omega)]
    rw [hchain_eq, hvte, hrs, hrt]
    rfl

theorem computePath_none_of_not_reach (m : Mesh) (wf : MeshWF m) (s t : ℕ)
    (h : ¬ Reach m s t) : computePath m s t = none := by
  unfold computePath
  rw [runDijkstra_eq_loop m (some t) s]
  dsimp only
  rw [if_neg (by simp : ¬((some t : Option ℕ) = none))]
  have hfalse : (dijkstraLoop m (some t) (dijkstraFuel m [s])
      (dijkstraInit s)).targetReached = false := by
    cases hb : (dijkstraLoop m (some t) (dijkstraFuel m [s])
        (dijkstraInit s)).targetReached with
    | false => rfl
    | true =>
      obtain ⟨inv, _, _⟩ := runState_spec m wf (some t) s
      obtain ⟨t', ht'eq, _, hrt'⟩ := inv.reached hb
      have htt : t' = t := (Option.some.inj ht'eq).symm
      rw [htt] at hrt'
      exact absurd hrt' h
  rw [hfalse]
  rfl

theorem computePath_some_reach (m : Mesh) (wf : MeshWF m) (s t : ℕ)
    (p : GeodesicPath) (hp : computePath m s t = some p) : Reach m s t := by
  by_contra hnr
  rw [computePath_none_of_not_reach m wf s t hnr] at hp
  exact Option.noConfusion hp

/-- C9: `computePath(src, tgt)` returns `none` exactly when the target is
unreachable from the source along the recorded vertex fans or when
`src = tgt` (the trivial one-vertex reconstruction is rejected by the
length check); otherwise the returned path's edge sequence is obtained by
backtracking parent pointers to a vertex chain from the source to the
target and converting its consecutive pairs to edges. -/
theorem C9_computePath_none_iff_unreachable (m : Mesh) (wf : MeshWF m)
    (s t : ℕ) (hs : (m.vertices.find? s).isSome) :
    (computePath m s t = none ↔ (s = t ∨ ¬ Reach m s t))
    ∧ (∀ p, computePath m s t = some p →
        ∃ chain,
          backtrackParents
            (dijkstraLoop m (some t) (dijkstraFuel m [s])
              (dijkstraInit s)).parents s
            ((dijkstraLoop m (some t) (dijkstraFuel m [s])
              (dijkstraInit s)).parents.length + 2) t [] = some chain
          ∧ chain.head? = some s ∧ chain.getLast? = some t
          ∧ 2 ≤ chain.length
          ∧ verticesToEdges m chain = some p.edges
          ∧ p.startVertex = s ∧ p.endVertex = t) := by
  have hiff : computePath m s t = none ↔ (s = t ∨ ¬ Reach m s t) := by
    constructor
    · intro hnone
      by_contra hc
      push_neg at hc
      obtain ⟨hst, hr⟩ := hc
      obtain ⟨chain, edges, d, _, _, _, _, _, _, hcp, _, _⟩ :=
        computePath_success m wf s t hs hst hr
      rw [hcp] at hnone
      exact Option.noConfusion hnone
    · intro h
      rcases h with h1 | h2
      · rw [h1]
        exact computePath_self m t
      · exact computePath_none_of_not_reach m wf s t h2
  refine ⟨hiff, ?_⟩
  intro p hp
  have hst : s ≠ t := by
    intro hh
    rw [hh, computePath_self] at hp
    exact Option.noConfusion hp
  have hr : Reach m s t := computePath_some_reach m wf s t p hp
  obtain ⟨chain, edges, d, hbt, hhead, hlast, hlen, hchain, hvte, hcp,
    hd, hsum⟩ := computePath_success m wf s t hs hst hr
  have hpe : p = mkGeodesicPath m edges s t := by
    rw [hcp] at hp
    exact (Option.some.inj hp).symm
  refine ⟨chain, hbt, hhead, hlast, hlen, ?_, ?_, ?_⟩
  · rw [hpe]
    exact hvte
  · rw [hpe]
    rfl
  · rw [hpe]
    rfl

theorem C9_witness :
    MeshWF tetraMeshLit ∧ (tetraMeshLit.vertices.find? 0).isSome ∧
    ((computePath tetraMeshLit 0 0 = none ↔
        (0 = 0 ∨ ¬ Reach tetraMeshLit 0 0))
      ∧ (∀ p, computePath tetraMeshLit 0 0 = some p →
          ∃ chain,
            backtrackParents
              (dijkstraLoop tetraMeshLit (some 0) (dijkstraFuel tetraMeshLit [0])
                (dijkstraInit 0)).parents 0
              ((dijkstraLoop tetraMeshLit (some 0)
                (dijkstraFuel tetraMeshLit [0])
                (dijkstraInit 0)).parents.length + 2) 0 [] = some chain
            ∧ chain.head? = some 0 ∧ chain.getLast? = some 0
            ∧ 2 ≤ chain.length
            ∧ verticesToEdges tetraMeshLit chain = some p.edges
            ∧ p.startVertex = 0 ∧ p.endVertex = 0)) :=
  ⟨by with_unfolding_all decide, by with_unfolding_all decide,
    C9_computePath_none_iff_unreachable tetraMeshLit
      (by with_unfolding_all decide) 0 0 (by with_unfolding_all decide)⟩

theorem computePath_targetReached (m : Mesh) (s t : ℕ) (p : GeodesicPath)
    (hp : computePath m s t = some p) :
    (dijkstraLoop m (some t) (dijkstraFuel m [s])
      (dijkstraInit s)).targetReached = true := by
  cases hb : (dijkstraLoop m (some t) (dijkstraFuel m [s])
      (dijkstraInit s)).targetReached with
  | true => rfl
  | false =>
    unfold computePath at hp
    rw [runDijkstra_eq_loop m (some t) s] at hp
    dsimp only at hp
    rw [if_neg (by simp : ¬((some t : Option ℕ) = none)), hb] at hp
    simp at hp

/-- C8: whenever `computePath(s, t)` returns a path, the sum of that path's
edge lengths and its cached length both equal the distance recorded for `t`
by the full (target-free) run `computeShortestPathTree([s])`. -/
theorem C8_computePath_length_eq_tree_dist (m : Mesh) (wf : MeshWF m)
    (s t : ℕ) (hs : (m.vertices.find? s).isSome) (p : GeodesicPath)
    (hp : computePath m s t = some p) :
    ∃ d, (computeShortestPathTree m [s] none).distances.find? t = some d
      ∧ pathComputeLength m p.edges = d ∧ p.cachedLength = d := by
  have hst : s ≠ t := by
    intro hh
    rw [hh, computePath_self] at hp
    exact Option.noConfusion hp
  have hr : Reach m s t := computePath_some_reach m wf s t p hp
  obtain ⟨chain, edges, d, hbt, hhead, hlast, hlen, hchain, hvte, hcp,
    hd, hsum⟩ := computePath_success m wf s t hs hst hr
  have hpe : p = mkGeodesicPath m edges s t := by
    rw [hcp] at hp
    exact (Option.some.inj hp).symm
  have htr := computePath_targetReached m s t p hp
  have htinit : (0 : ℕ) ∉ ([] : List ℕ) := List.not_mem_nil 0
  rcases dijkstraLoop_sync m t (dijkstraFuel m [s]) (dijkstraInit s)
      (List.not_mem_nil t) with ⟨_, hfr⟩ | ⟨_, _, hdist⟩
  · rw [htr] at hfr
    exact absurd hfr.symm (by simp [dijkstraInit])
  · refine ⟨d, ?_, ?_, ?_⟩
    · show (computeShortestPathTree m [s] none).distances.find? t = some d
      unfold computeShortestPathTree
      rw [runDijkstra_eq_loop m none s]
      dsimp only
      rw [hdist, hd]
    · rw [hpe]
      exact hsum
    · rw [hpe]
      exact hsum

theorem C8_witness :
    MeshWF tetraMeshLit ∧ (tetraMeshLit.vertices.find? 0).isSome ∧
    computePath tetraMeshLit 0 2 = some (mkGeodesicPath tetraMeshLit [2] 0 2) ∧
    (∃ d, (computeShortestPathTree tetraMeshLit [0]
        none).distances.find? 2 = some d
      ∧ pathComputeLength tetraMeshLit
          (mkGeodesicPath tetraMeshLit [2] 0 2).edges = d
      ∧ (mkGeodesicPath tetraMeshLit [2] 0 2).cachedLength = d) :=
  ⟨by with_unfolding_all decide, by with_unfolding_all decide,
    by with_unfolding_all decide,
    C8_computePath_length_eq_tree_dist tetraMeshLit
      (by with_unfolding_all decide) 0 2 (by with_unfolding_all decide)
      (mkGeodesicPath tetraMeshLit [2] 0 2) (by with_unfolding_all decide)⟩
